import Mathlib

/-!
# inglib: Document, Folder and Librarian

A shallow embedding of `src/Document.js`, `src/Folder.js` and `src/Librarian.js`.

* JavaScript strings are sequences of UTF-16 code units (`JSString`); `length`,
  `split` and the regular expressions of the source all work on code units.
* A method that mutates its receiver and may throw is a function returning the
  receiver after the call together with `Except JSError result`, so that the
  mutations performed before a `throw` stay visible.
* `new Date()` is an explicit argument `now` (milliseconds).
* Storage is one map from paths to what they hold (`Disk`); the `Document`
  instances live in a heap (`Store.docs`) and are referred to by index, since the
  folder tree and the lending handles share them.
-/

set_option autoImplicit false

namespace Inglib

/-! ## Strings -/

/-- A JavaScript string: its UTF-16 code units. -/
abbrev JSString := List Nat

/-- UTF-16 encoding of a Lean string (surrogate pairs above U+FFFF). -/
def utf16 (s : String) : JSString :=
  s.toList.flatMap fun c =>
    if c.toNat < 65536 then [c.toNat]
    else [55296 + (c.toNat - 65536) / 1024, 56320 + (c.toNat - 65536) % 1024]

/-- The classes of errors the source throws. -/
inductive JSError
  | TypeError
  | RangeError
  | ReferenceError
  | Error
  | JavaException
  deriving DecidableEq, Repr

deriving instance DecidableEq for Except

/-- The JavaScript values that reach the `typeof x === "string"` guards. -/
inductive JSValue
  | undefined
  | null
  | bool (b : Bool)
  | number (n : Int)
  | string (s : JSString)
  deriving DecidableEq, Repr

/-- Code unit of `/`. -/
def SLASH : Nat := 47

/-- Worker of `splitOn`: `cur` is the segment being read, reversed. -/
def splitAux (sep : Nat) : JSString → JSString → List JSString
  | [], cur => [cur.reverse]
  | c :: rest, cur =>
    if c = sep then cur.reverse :: splitAux sep rest []
    else splitAux sep rest (c :: cur)

/-- `s.split(sep)` for a one-unit separator: always at least one segment. -/
def splitOn (sep : Nat) (s : JSString) : List JSString := splitAux sep s []

/-- `segs.join('/')`. -/
def joinSlash : List JSString → JSString
  | [] => []
  | [s] => s
  | s :: rest => s ++ SLASH :: joinSlash rest

/-! ## Regular expressions of the source -/

/-- `str.replace(/C/g, '')` for a pattern `C` matching exactly one code unit:
every matching unit is deleted. -/
def replaceAllEmpty (cls : Nat → Bool) (s : JSString) : JSString :=
  s.filter fun c => !cls c

/-- `str.replace(/C/g, ' ')` for a pattern `C` matching exactly one code unit. -/
def replaceAllSpace (cls : Nat → Bool) (s : JSString) : JSString :=
  s.map fun c => if cls c then 32 else c

/-- Does `C+` match at the head of the input: one unit of the class is enough. -/
def matchPlusHere (cls : Nat → Bool) : JSString → Bool
  | [] => false
  | c :: _ => cls c

/-- `/C+/.test(str)`, no anchors and no `g` flag: try every start position. -/
def testPlus (cls : Nat → Bool) : JSString → Bool
  | [] => false
  | c :: rest => matchPlusHere cls (c :: rest) || testPlus cls rest

/-- Librarian.js:24, the class `[0-9A-z가-힣(),!]| ` of `isUsableTitle`:
`0-9`, the range `A-z` (U+0041 to U+007A), `가-힣` (U+AC00 to U+D7A3),
the units `(`, `)`, `,`, `!`, or a space. -/
def usableUnit (c : Nat) : Bool :=
  (48 ≤ c && c ≤ 57) || (65 ≤ c && c ≤ 122) || (44032 ≤ c && c ≤ 55203)
    || c = 40 || c = 41 || c = 44 || c = 33 || c = 32

/-- Librarian.js:24 `t => t.replace(/[0-9A-z가-힣(),!]| /g, '').length === 0`. -/
def isUsableTitle (t : JSString) : Bool :=
  (replaceAllEmpty usableUnit t).length = 0

/-- The title-character rule in the words of the specification: an ASCII letter
or digit, a Hangul syllable, a space, a parenthesis, a comma or an exclamation
mark. -/
def titleRuleUnit (c : Nat) : Bool :=
  (48 ≤ c && c ≤ 57) || (65 ≤ c && c ≤ 90) || (97 ≤ c && c ≤ 122)
    || (44032 ≤ c && c ≤ 55203) || c = 32 || c = 40 || c = 41 || c = 44 || c = 33

/-- A string obeys the specification's title rule when each unit does. -/
def titleRule (t : JSString) : Bool := t.all titleRuleUnit

/-- Document.js:34, the units excluded by the class of
`TITLE_REG = /[^./\\:*?"<>|]+/`. -/
def forbiddenUnit (c : Nat) : Bool :=
  c = 46 || c = 47 || c = 92 || c = 58 || c = 42 || c = 63 || c = 34
    || c = 60 || c = 62 || c = 124

/-- Document.js:34 `TITLE_REG.test(title)`. -/
def TITLE_REG_test (title : JSString) : Bool :=
  testPlus (fun c => !forbiddenUnit c) title

/-! ## Storage -/

/-- One element of `info.log` (Document.js:27-31). -/
structure LogEntry where
  author : Option JSString
  change : Int
  date : Nat
  deriving DecidableEq, Repr

/-- The object kept in `info.json` (Document.js:22-33); `none` is `null`. -/
structure InfoJson where
  title : Option JSString
  author : Option JSString
  log : List LogEntry
  deriving DecidableEq, Repr

/-- What one path of storage holds. -/
inductive Node
  | dir
  | text (s : JSString)
  | json (i : InfoJson)
  deriving DecidableEq, Repr

/-- Modelled from the spec: the storage behind `java.io.File`,
`java.nio.file.Files`, `FileStream` and `util.File` (§6, external collaborators):
the paths that exist and what each holds. -/
abbrev Disk := List (JSString × Node)

namespace Disk

/-- What `p` holds, if it exists. -/
def lookup (d : Disk) (p : JSString) : Option Node :=
  match d with
  | [] => none
  | (k, n) :: rest => if k = p then some n else lookup rest p

/-- `java.io.File(p).isDirectory()`. -/
def isDirectory (d : Disk) (p : JSString) : Bool :=
  match d.lookup p with
  | some .dir => true
  | _ => false

/-- `java.io.File(p).isFile()`. -/
def isFile (d : Disk) (p : JSString) : Bool :=
  match d.lookup p with
  | some (.text _) => true
  | some (.json _) => true
  | _ => false

/-- `java.nio.file.Files.exists(p)`. -/
def pathExists (d : Disk) (p : JSString) : Bool := (d.lookup p).isSome

/-- The name of `k` inside directory `p`, when `k` is a direct entry of `p`. -/
def childName (p k : JSString) : Option JSString :=
  if (p ++ [SLASH]).isPrefixOf k then
    let n := k.drop (p.length + 1)
    if n ≠ [] ∧ SLASH ∉ n then some n else none
  else none

/-- `java.io.File(p).list()`: the names of the direct entries of `p`. -/
def list (d : Disk) (p : JSString) : List JSString :=
  d.filterMap fun e => childName p e.1

/-- Put `n` at `p`, replacing what `p` held. -/
def put (d : Disk) (p : JSString) (n : Node) : Disk :=
  match d with
  | [] => [(p, n)]
  | (k, m) :: rest => if k = p then (k, n) :: rest else (k, m) :: put rest p n

/-- The paths of `p` and of the directories above it, outermost first. -/
def ancestors (p : JSString) : List JSString :=
  ((splitOn SLASH p).inits.filter fun segs => segs ≠ []).map joinSlash

/-- `java.io.File(p).mkdirs()`: create `p` and the missing directories above it. -/
def mkdirs (d : Disk) (p : JSString) : Disk :=
  (ancestors p).foldl (fun acc q => if pathExists acc q then acc else put acc q .dir) d

/-- Commit a file: the directories above it are created when missing. -/
def writeFile (d : Disk) (p : JSString) (n : Node) : Disk :=
  put (mkdirs d (joinSlash (splitOn SLASH p).dropLast)) p n

/-- Is `k` the path `p` or a path below it. -/
def isAtOrBelow (p k : JSString) : Bool := k = p || (p ++ [SLASH]).isPrefixOf k

/-- `Files.move(prev, target, ATOMIC_MOVE)`: `none` when the move throws, which
it does when `prev` does not exist, when the directory above `target` does not
exist, or when `target` exists and is another path than `prev` (what happens to
an existing target is implementation specific; it is taken to fail). -/
def move (d : Disk) (prev target : JSString) : Option Disk :=
  if !pathExists d prev then none
  else if prev = target then some d
  else if pathExists d target then none
  else if (splitOn SLASH target).length > 1
      ∧ !isDirectory d (joinSlash (splitOn SLASH target).dropLast) then none
  else some (d.map fun e =>
    if isAtOrBelow prev e.1 then (target ++ e.1.drop prev.length, e.2) else e)

end Disk

/-! ## Document -/

/-- Document.js:35 `EMPTY_TEXT = "⨶"` (U+2A36). -/
def EMPTY_TEXT : JSString := [10806]

/-- Document.js:37 `LOG_DIR = "history"`. -/
def LOG_DIR : JSString := utf16 "history"

/-- Document.js:38 `INFO_FILE = 'info.json'`. -/
def INFO_FILE : JSString := utf16 "info.json"

/-- Document.js:39 `CONTENT_FILE = 'content.txt'`. -/
def CONTENT_FILE : JSString := utf16 "content.txt"

/-- Document.js:22-33 `schema`. -/
def schema : InfoJson := { title := none, author := none, log := [] }

/-- The object `this.info` of a constructed document: the constructor leaves no
instance without a non-empty string title (Document.js:62-63), and `setTitle`
assigns strings only. -/
structure Info where
  title : JSString
  author : Option JSString
  log : List LogEntry
  deriving DecidableEq, Repr

/-- What `$info.save()` writes for `info`. -/
def Info.toJson (i : Info) : InfoJson :=
  { title := some i.title, author := i.author, log := i.log }

/-- Modelled from the spec: an instance of `util.File` (`inspire('util.File')`,
not among the sources), the persistence collaborator of §6: the path it was
built for and the data staged in memory, `none` for `null` while nothing was
written or loaded. -/
structure File (α : Type) where
  path : JSString
  data : Option α
  deriving DecidableEq, Repr

namespace File

variable {α : Type}

/-- Modelled from the spec: `file.read()` of `util.File`, the staged data. -/
def read (f : File α) : Option α := f.data

/-- Modelled from the spec: `file.write(data)` of `util.File` stages `data`. -/
def write (f : File α) (data : α) : File α := { f with data := some data }

/-- Modelled from the spec: `file.save()` of `util.File` commits the staged data
to storage, written as `enc` tells. -/
def save (enc : α → Node) (disk : Disk) (f : File α) : Disk :=
  match f.data with
  | some x => disk.writeFile f.path (enc x)
  | none => disk

/-- Modelled from the spec: `file.exists` of `util.File`. -/
def «exists» (disk : Disk) (f : File α) : Bool := disk.isFile f.path

/-- Modelled from the spec: `file.load()` of `util.File` reads storage, as `dec`
tells, and stages what it read (the constructor of `Document` keeps the object
given by `$info.load()` as `this.info`, and `$info.save()` must write that
object). -/
def load (dec : Node → Option α) (disk : Disk) (f : File α) : File α × Option α :=
  match (disk.lookup f.path).bind dec with
  | some x => ({ f with data := some x }, some x)
  | none => (f, none)

end File

/-- A text file holds a string. -/
def Node.asText : Node → Option JSString
  | .text s => some s
  | _ => none

/-- A JSON file holds an object; `info.json` holds the `info` of a document. -/
def Node.asJson : Node → Option InfoJson
  | .json i => some i
  | _ => none

/-- A `Document` instance. `infoPath` is the path of the file `$info`, whose
staged data is the object `info` itself; `content` is the file `$content`. -/
structure Document where
  path : JSString
  infoPath : JSString
  info : Info
  content : File JSString
  deriving DecidableEq, Repr

/-- Document.js:47, the class `\\|\/|\:|\*|\?|\"|\<|\>|\|` replaced by a space. -/
def illegalInFileName (c : Nat) : Bool :=
  c = 92 || c = 47 || c = 58 || c = 42 || c = 63 || c = 34 || c = 60 || c = 62
    || c = 124

/-- Document.js:46-49 `generateLogFilePath`. `fmt` is `date.format(LOG_DATE_FORMAT)`
(`extension.Date.format`, not among the sources), a parameter. `author.replace`
on `null` throws. -/
def generateLogFilePath (fmt : Nat → JSString) (path : JSString)
    (author : Option JSString) (date : Nat) : Except JSError JSString :=
  match author with
  | none => .error .TypeError
  | some a =>
    .ok (path ++ SLASH :: LOG_DIR ++ SLASH :: fmt date ++ utf16 "(by "
      ++ replaceAllSpace illegalInFileName a ++ utf16 ").txt")

/-- `path.split('/').at(-1)`, the getters `name` of Document.js:88-92 and
Folder.js:60-64; `at` (`extension.Array.at`, not among the sources) is taken to
be the standard `Array.prototype.at`. -/
def lastSegment (path : JSString) : JSString := (splitOn SLASH path).getLast?.getD []

/-- `path.split('/')` with its last element set to `name`, joined again
(Document.js:98-102, Folder.js:70-72). -/
def withLastSegment (path name : JSString) : JSString :=
  joinSlash ((splitOn SLASH path).dropLast ++ [name])

namespace Document

/-- Document.js:118-122 getter `title`. -/
def title (d : Document) : JSString := d.info.title

/-- Document.js:88-92 getter `name`. -/
def name (d : Document) : JSString := lastSegment d.path

/-- Document.js:124-131 `setTitle`. -/
def setTitle (d : Document) (title : JSValue) : Document × Except JSError Unit :=
  match title with
  | .string t =>
    if TITLE_REG_test t then ({ d with info := { d.info with title := t } }, .ok ())
    else (d, .error .TypeError)
  | _ => (d, .error .TypeError)

/-- Document.js:52-68, the constructor for a string `path`. `info.json` is loaded
when it exists (a file that holds no object fails to parse), else `schema` is
staged; `!this.info.title` holds for `null` and for the empty string, and then
the title is set to `name`, which throws when `TITLE_REG` rejects it. -/
def new (disk : Disk) (path : JSString) : Except JSError Document :=
  let infoFile : File InfoJson := { path := path ++ SLASH :: INFO_FILE, data := none }
  let loaded : Except JSError InfoJson :=
    if infoFile.exists disk then
      match (File.load Node.asJson disk infoFile).2 with
      | some i => .ok i
      | none => .error .Error
    else .ok schema
  match loaded with
  | .error e => .error e
  | .ok i =>
    let mk (t : JSString) : Document :=
      { path := path
        infoPath := infoFile.path
        info := { title := t, author := i.author, log := i.log }
        content := { path := path ++ SLASH :: CONTENT_FILE, data := none } }
    match i.title with
    | some (c :: t) => .ok (mk (c :: t))
    | _ => if TITLE_REG_test (lastSegment path) then .ok (mk (lastSegment path))
           else .error .TypeError

/-- Document.js:133-140 `write`. -/
def write (d : Document) (content author : JSValue) : Document × Except JSError Unit :=
  match content, author with
  | .string c, .string a =>
    ({ d with content := d.content.write c, info := { d.info with author := some a } }, .ok ())
  | _, _ => (d, .error .TypeError)

/-- The `reduce` of Document.js:153: the sum of the recorded changes. -/
def sumChange (log : List LogEntry) : Int :=
  log.foldl (fun wordCount currLog => wordCount + currLog.change) 0

/-- Document.js:142-168 `save`. Reading `content.length` on `null` throws; the
entry is pushed before the snapshot path is generated. -/
def save (fmt : Nat → JSString) (now : Nat) (disk : Disk) (d : Document) :
    (Disk × Document) × Except JSError Bool :=
  if d.content.read = some EMPTY_TEXT then ((disk, d), .ok false)
  else
    match d.content.read with
    | none => ((disk, d), .error .TypeError)
    | some content =>
      let change : Int :=
        if d.info.log.length ≠ 0 then (content.length : Int) - sumChange d.info.log
        else (content.length : Int)
      let entry : LogEntry := { author := d.info.author, change := change, date := now }
      let d1 : Document := { d with info := { d.info with log := d.info.log ++ [entry] } }
      match generateLogFilePath fmt d1.path d1.info.author now with
      | .error e => ((disk, d1), .error e)
      | .ok logPath =>
        let log : File JSString := { path := logPath, data := none }
        let disk1 := File.save Node.text disk (log.write content)
        let disk2 := File.save (fun i => Node.json i.toJson) disk1
          { path := d1.infoPath, data := some d1.info }
        let disk3 := File.save Node.text disk2 d1.content
        ((disk3, { d1 with content := d1.content.write EMPTY_TEXT }), .ok true)

/-- Document.js:110-116 `read`: the staged draft, or, when that is `null` or the
sentinel, what `content.txt` holds (`load(true)`), or `null`. -/
def read (disk : Disk) (d : Document) : Document × Option JSString :=
  if d.content.read = none ∨ d.content.read = some EMPTY_TEXT then
    if d.content.exists disk then
      let r := File.load Node.asText disk d.content
      ({ d with content := r.1 }, r.2)
    else (d, none)
  else (d, d.content.read)

/-- Document.js:94-108 `rename`. The new path is assigned before
`Files.move` runs, so it stays when the move throws. -/
def rename (disk : Disk) (d : Document) (name : JSValue) :
    (Disk × Document) × Except JSError Unit :=
  match name with
  | .string (c :: n) =>
    let d1 : Document := { d with path := withLastSegment d.path (c :: n) }
    match disk.move d.path d1.path with
    | some disk1 => ((disk1, d1), .ok ())
    | none => ((disk, d1), .error .JavaException)
  | _ => ((disk, d), .error .TypeError)

end Document

/-- One `write(content, author)` followed by `save()` at time `now`. -/
structure WriteSave where
  content : JSString
  author : JSString
  now : Nat
  deriving DecidableEq, Repr

/-- Run `write(c1,a1); save(); write(c2,a2); save(); ...` on a document; the
outcomes of the `save` calls are collected in order. -/
def writeSaveAll (fmt : Nat → JSString) :
    Disk × Document → List WriteSave → (Disk × Document) × List (Except JSError Bool)
  | s, [] => (s, [])
  | s, x :: rest =>
    let r := Document.save fmt x.now s.1 (s.2.write (.string x.content) (.string x.author)).1
    let rs := writeSaveAll fmt r.1 rest
    (rs.1, r.2 :: rs.2)

/-! ## Plain objects used as maps

`$contents` (Folder.js:26) and the tables built by `treeToTable`
(Librarian.js:51) are object literals `{}`. Reading a property, and the operator
`in`, fall through to `Object.prototype` when the object has no own property of
that name; `for ... in` and `Object.keys` see own properties only. -/

/-- The name of the accessor `__proto__` of `Object.prototype` (ECMAScript 2015
§B.2.2.1). On an object literal `"__proto__" in o` holds and `o["__proto__"]` is
`Object.prototype` itself, an object that is neither a `Document` nor a `Folder`;
`o["__proto__"] = v` adds no own property (it replaces the prototype when `v` is
an object). -/
def PROTO : JSString := utf16 "__proto__"

/-- The properties that every object literal inherits from `Object.prototype`
(ECMAScript 5.1 §15.2.4 and Annex B of ECMAScript 2015): the function-valued
ones, and the accessor `__proto__`. For `__proto__` the test `in` and the reading
of a property are followed here; an assignment to it, which adds no key, is not:
the statements about every tree leave out the trees with a key `__proto__`. -/
def objectPrototypeNames : List JSString :=
  [utf16 "constructor", utf16 "toString", utf16 "toLocaleString", utf16 "valueOf",
   utf16 "hasOwnProperty", utf16 "isPrototypeOf", utf16 "propertyIsEnumerable",
   utf16 "__defineGetter__", utf16 "__defineSetter__", utf16 "__lookupGetter__",
   utf16 "__lookupSetter__", PROTO]

/-- Is `k` an inherited property name. -/
def inherited (k : JSString) : Bool := objectPrototypeNames.contains k

/-! ## Folder -/

/-- The own properties of `$contents`, in insertion order: a `Document` (by its
index in the heap) or a sub-`Folder` (its `path` and its own `$contents`). The
order is what `for ... in` follows; it only matters when the title of a document
equals the name of a sibling. -/
inductive Contents
  | nil
  | doc (key : JSString) (ref : Nat) (rest : Contents)
  | folder (key : JSString) (path : JSString) (sub : Contents) (rest : Contents)
  deriving DecidableEq, Repr

/-- A `Folder` instance (Folder.js:23-31). -/
structure Folder where
  path : JSString
  contents : Contents
  deriving DecidableEq, Repr

/-- A value stored in `$contents`. -/
inductive Child
  | doc (ref : Nat)
  | folder (f : Folder)
  deriving DecidableEq, Repr

/-- What reading `$contents[k]` gives; `builtin` is a value inherited from
`Object.prototype`, which is neither a `Document` nor a `Folder`. -/
inductive Found
  | undefined
  | builtin
  | doc (ref : Nat)
  | folder (f : Folder)
  deriving DecidableEq, Repr

namespace Contents

/-- The own property `k`, if any. -/
def own? : Contents → JSString → Option Child
  | .nil, _ => none
  | .doc key ref rest, k => if key = k then some (.doc ref) else own? rest k
  | .folder key path sub rest, k =>
    if key = k then some (.folder { path := path, contents := sub }) else own? rest k

/-- `$contents[k]`. -/
def get (c : Contents) (k : JSString) : Found :=
  match c.own? k with
  | some (.doc ref) => .doc ref
  | some (.folder f) => .folder f
  | none => if inherited k then .builtin else .undefined

/-- `k in $contents`. -/
def has (c : Contents) (k : JSString) : Bool := (c.own? k).isSome || inherited k

/-- One more own property at the end. -/
def push : Contents → JSString → Child → Contents
  | .nil, k, .doc ref => .doc k ref .nil
  | .nil, k, .folder f => .folder k f.path f.contents .nil
  | .doc key ref rest, k, v => .doc key ref (push rest k v)
  | .folder key path sub rest, k, v => .folder key path sub (push rest k v)

/-- Overwrite the value of the own property `k` in place, if there is one. -/
def replace : Contents → JSString → Child → Contents
  | .nil, _, _ => .nil
  | .doc key ref rest, k, v =>
    if key = k then
      match v with
      | .doc r => .doc key r rest
      | .folder f => .folder key f.path f.contents rest
    else .doc key ref (replace rest k v)
  | .folder key path sub rest, k, v =>
    if key = k then
      match v with
      | .doc r => .doc key r rest
      | .folder f => .folder key f.path f.contents rest
    else .folder key path sub (replace rest k v)

/-- `$contents[k] = v`: an own property keeps its place, a new one goes last. -/
def set (c : Contents) (k : JSString) (v : Child) : Contents :=
  if (c.own? k).isSome then c.replace k v else c.push k v

/-- `delete $contents[k]`. -/
def delete : Contents → JSString → Contents
  | .nil, _ => .nil
  | .doc key ref rest, k => if key = k then rest else .doc key ref (delete rest k)
  | .folder key path sub rest, k =>
    if key = k then rest else .folder key path sub (delete rest k)

/-- `Object.keys($contents)`. -/
def keys : Contents → List JSString
  | .nil => []
  | .doc key _ rest => key :: keys rest
  | .folder key _ _ rest => key :: keys rest

end Contents

/-- The documents of the heap and the storage they are kept on. -/
structure Store where
  disk : Disk
  docs : List Document
  deriving DecidableEq, Repr

/-- The branches of a snapshot `{name, branches}` (Folder.js:119-131): the title
of a document or the snapshot of a sub-folder. -/
inductive Branches
  | nil
  | doc (title : JSString) (rest : Branches)
  | folder (name : JSString) (branches : Branches) (rest : Branches)
  deriving DecidableEq, Repr

/-- A snapshot `{name, branches}`. -/
structure Tree where
  name : JSString
  branches : Branches
  deriving DecidableEq, Repr

namespace Folder

/-- Folder.js:60-64 getter `name`. -/
def name (f : Folder) : JSString := lastSegment f.path

/-- The title of the document at index `ref` of the heap. -/
def titleOf (docs : List Document) (ref : Nat) : JSString :=
  match docs[ref]? with
  | some d => d.title
  | none => []

/-- The loop of Folder.js:135-141 over `$contents`. -/
def branchesOf (docs : List Document) : Contents → Branches
  | .nil => .nil
  | .doc _ ref rest => .doc (titleOf docs ref) (branchesOf docs rest)
  | .folder _ path sub rest =>
    .folder (lastSegment path) (branchesOf docs sub) (branchesOf docs rest)

/-- Folder.js:132-144 getter `tree`. -/
def tree (docs : List Document) (f : Folder) : Tree :=
  { name := f.name, branches := branchesOf docs f.contents }

/-- Folder.js:180-189 `search` for an array request. -/
def searchSegs : Contents → List JSString → Except JSError Found
  | _, [] => .error .RangeError
  | c, [k] => .ok (c.get k)
  | c, k :: k2 :: rest =>
    match c.get k with
    | .folder sub => searchSegs sub.contents (k2 :: rest)
    | _ => .error .TypeError

/-- Folder.js:190-191 `search` for a string request. -/
def search (f : Folder) (req : JSString) : Except JSError Found :=
  searchSegs f.contents (splitOn SLASH req)

/-- Put `g` where `searchSegs` finds the folder addressed by `segs`: the folder
objects are shared, so what a method does to the folder it was given by `search`
is done to the tree. -/
def putAt : Contents → List JSString → Folder → Contents
  | c, [], _ => c
  | c, [k], g => c.replace k (.folder g)
  | c, k :: k2 :: rest, g =>
    match c.own? k with
    | some (.folder sub) =>
      c.replace k (.folder { sub with contents := putAt sub.contents (k2 :: rest) g })
    | _ => c

/-- Folder.js:66-84 `rename`. The new path is assigned before the move, so it
stays when the move throws. -/
def rename (disk : Disk) (f : Folder) (name : JSValue) :
    (Disk × Folder) × Except JSError Bool :=
  match name with
  | .string (c :: n) =>
    let f1 : Folder := { f with path := withLastSegment f.path (c :: n) }
    if disk.pathExists f.path then
      match disk.move f.path f1.path with
      | some disk1 => ((disk1, f1), .ok true)
      | none => ((disk, f1), .error .JavaException)
    else ((disk, f1), .ok false)
  | _ => ((disk, f), .error .TypeError)

/-- Folder.js:86-99 `renameSub`. `sub in $contents` also holds for an inherited
name, whose value has no method `rename`. -/
def renameSub (st : Store) (f : Folder) (sub : JSString) (name : JSValue) :
    (Store × Folder) × Except JSError Bool :=
  if f.contents.has sub then
    match name with
    | .string (c :: n) =>
      match f.contents.own? sub with
      | none => ((st, f), .error .TypeError)
      | some (.doc ref) =>
        match st.docs[ref]? with
        | none => ((st, f), .error .TypeError)
        | some d =>
          let r := Document.rename st.disk d name
          let st1 : Store := { disk := r.1.1, docs := st.docs.set ref r.1.2 }
          match r.2 with
          | .error e => ((st1, f), .error e)
          | .ok _ =>
            ((st1, { f with contents := (f.contents.set (c :: n) (.doc ref)).delete sub }),
              .ok true)
      | some (.folder g) =>
        let r := Folder.rename st.disk g name
        let st1 : Store := { st with disk := r.1.1 }
        match r.2 with
        | .error e =>
          ((st1, { f with contents := f.contents.replace sub (.folder r.1.2) }), .error e)
        | .ok _ =>
          ((st1, { f with
              contents := (f.contents.set (c :: n) (.folder r.1.2)).delete sub }), .ok true)
    | _ => ((st, f), .error .TypeError)
  else ((st, f), .ok false)

/-- Folder.js:33-54 `load`, with Folder.js:23-31 (`new Folder(path)` loads the
new folder at once). The recursion follows the directories of storage; `fuel`
bounds its depth. An entry is taken only when it is a directory and its name is
not `in $contents`; a directory holding both `info.json` and `content.txt` is a
`Document`, stored under its title, any other directory a `Folder`, stored under
its name. -/
def loadFuel : Nat → Store → Folder → (Store × Folder) × Except JSError Bool
  | 0, st, f => ((st, f), .error .RangeError)
  | fuel + 1, st, f =>
    if st.disk.isDirectory f.path then
      (st.disk.list f.path).foldl
        (fun (acc : (Store × Folder) × Except JSError Bool) (name : JSString) =>
          match acc.2 with
          | .error _ => acc
          | .ok _ =>
            let path := acc.1.2.path ++ SLASH :: name
            if acc.1.1.disk.isDirectory path && !(acc.1.2.contents.has name) then
              if acc.1.1.disk.isFile (path ++ SLASH :: INFO_FILE)
                  && acc.1.1.disk.isFile (path ++ SLASH :: CONTENT_FILE) then
                match Document.new acc.1.1.disk path with
                | .error e => (acc.1, .error e)
                | .ok doc =>
                  (({ acc.1.1 with docs := acc.1.1.docs ++ [doc] },
                    { acc.1.2 with
                        contents := acc.1.2.contents.set doc.title (.doc acc.1.1.docs.length) }),
                    .ok true)
              else
                let r := loadFuel fuel acc.1.1 { path := path, contents := .nil }
                match r.2 with
                | .error e => ((r.1.1, acc.1.2), .error e)
                | .ok _ =>
                  ((r.1.1, { acc.1.2 with
                      contents := acc.1.2.contents.set name (.folder r.1.2) }), .ok true)
            else acc)
        ((st, f), .ok true)
    else ((st, f), .ok false)

/-- Folder.js:33-54 `load`: every level of the recursion is a different
directory of storage, so one unit of fuel per path of storage is enough. -/
def load (st : Store) (f : Folder) : (Store × Folder) × Except JSError Bool :=
  loadFuel (st.disk.length + 1) st f

/-- Folder.js:23-31, the constructor for a string `path`. -/
def new (st : Store) (path : JSString) : (Store × Folder) × Except JSError Unit :=
  let r := load st { path := path, contents := .nil }
  match r.2 with
  | .error e => (r.1, .error e)
  | .ok _ => (r.1, .ok ())

/-- Folder.js:107-111 getter `docs`. -/
def docs : Contents → List JSString
  | .nil => []
  | .doc key _ rest => key :: docs rest
  | .folder _ _ _ rest => docs rest

/-- Folder.js:113-117 getter `folders`. -/
def folders : Contents → List JSString
  | .nil => []
  | .doc _ _ rest => folders rest
  | .folder key _ _ rest => key :: folders rest

/-- Folder.js:147-158 `add` of a `Folder` or `Document` whose `name` is `name`. -/
def add (f : Folder) (name : JSString) (content : Child) : Folder × Except JSError Unit :=
  if f.contents.has name then (f, .error .TypeError)
  else ({ f with contents := f.contents.set name content }, .ok ())

/-- Folder.js:161-165 `mkdir`. -/
def mkdir (disk : Disk) (f : Folder) : Disk := disk.mkdirs f.path

end Folder

/-! ## Librarian: the catalog -/

/-- The object built by `set` in `treeToTable` (Librarian.js:50-60), as the
assignments `res[key] = ...` in the order they ran: `doc key` is
`res[key] = true`, `folder key sub` is `res[key] = set(branch)`. The table is only
ever read by key, and a later assignment to a key replaces an earlier one. -/
inductive Table
  | nil
  | doc (key : JSString) (rest : Table)
  | folder (key : JSString) (sub : Table) (rest : Table)
  deriving DecidableEq, Repr

/-- What reading `table[k]` gives: `undefined`, `true`, a nested table, a
function inherited from `Object.prototype`, `Object.prototype` itself (the value
of `__proto__`), or `null` (the value of `__proto__` on `Object.prototype`). -/
inductive TableValue
  | undefined
  | yes
  | object (t : Table)
  | builtin
  | prototype
  | null
  deriving DecidableEq, Repr

namespace Table

/-- The own property `k`: the last assignment to `k`. -/
def own? : Table → JSString → Option TableValue
  | .nil, _ => none
  | .doc key rest, k =>
    match own? rest k with
    | some v => some v
    | none => if key = k then some .yes else none
  | .folder key sub rest, k =>
    match own? rest k with
    | some v => some v
    | none => if key = k then some (.object sub) else none

/-- `table[k]`. -/
def get (t : Table) (k : JSString) : TableValue :=
  match t.own? k with
  | some v => v
  | none => if k = PROTO then .prototype else if inherited k then .builtin else .undefined

end Table

/-- `Object.prototype[k]`: `null` for `__proto__`, a function for the other
names it holds. -/
def prototypeGet (k : JSString) : TableValue :=
  if k = PROTO then .null else if inherited k then .builtin else .undefined

/-- `!!temp`: `undefined` and `null` are falsy among the values a table gives. -/
def TableValue.truthy : TableValue → Bool
  | .undefined => false
  | .null => false
  | _ => true

/-- Librarian.js:50-60 `set`. -/
def treeToTable.set : Branches → Table
  | .nil => .nil
  | .doc title rest => .doc title (treeToTable.set rest)
  | .folder name branches rest =>
    .folder name (treeToTable.set branches) (treeToTable.set rest)

/-- Librarian.js:48-64 `Librarian.treeToTable`. -/
def treeToTable (tree : Tree) : Table := treeToTable.set tree.branches

/-- A request: a slash string or an array of string segments. -/
inductive Request
  | str (s : JSString)
  | arr (segs : List JSString)
  deriving DecidableEq, Repr

/-- Librarian.js:108 `typeof req === "string" ? req.split('/') : req`. -/
def Request.segments : Request → List JSString
  | .str s => splitOn SLASH s
  | .arr segs => segs

/-- The loop of Librarian.js:110-114 on the segments after the first;
`typeof temp === "object"` holds for a nested table, for `Object.prototype` and
for `null`. Reading a property of `null` throws a TypeError, which a Boolean
cannot tell: that happens only to a request that goes on after
`__proto__/__proto__`, and the statements about every path leave out the
requests with a segment `__proto__`. -/
def existsLoop : TableValue → List JSString → Bool
  | temp, [] => temp.truthy
  | .object t, k :: rest => existsLoop (t.get k) rest
  | .prototype, k :: rest => existsLoop (prototypeGet k) rest
  | _, _ :: _ => false

/-- Librarian.js:109-114 on the segments of the request; `req[0]` of an empty
array is `undefined`, which as a property key is the string `undefined`. -/
def existsSegs (table : Table) (segs : List JSString) : Bool :=
  match segs with
  | [] => existsLoop (table.get (utf16 "undefined")) []
  | k :: rest => existsLoop (table.get k) rest

/-- The component `Librarian` (Librarian.js:27-34): `$db`, `$table` and the
set `$borrowed` of the requests lent out. -/
structure Librarian where
  path : JSString
  db : Folder
  table : Table
  borrowed : List JSString
  deriving DecidableEq, Repr

/-- A library in its process: storage, the heap of documents, the librarian. -/
structure World where
  store : Store
  lib : Librarian
  deriving DecidableEq, Repr

/-- A lending handle `Book` (Librarian.js:308-311): `$doc`, and `$returnFn`, the
closure made by `borrow`, which is determined by the request it captured. Both
are `none` once deleted. -/
structure Book where
  doc : Option Nat
  returnFn : Option JSString
  deriving DecidableEq, Repr

namespace Librarian

/-- Librarian.js:104-116 `exists` for a string or an array. -/
def «exists» (lib : Librarian) (req : Request) : Bool := existsSegs lib.table req.segments

/-- Librarian.js:27-34, the constructor, for `null` (`none`) or a string. For
`null` the guard of line 28 reads `path.length` and throws, so `DEFAULT_PATH` is
never used. -/
def new (st : Store) (path : Option JSString) : Store × Except JSError Librarian :=
  match path with
  | none => (st, .error .TypeError)
  | some p =>
    let r := Folder.new st p
    match r.2 with
    | .error e => (r.1.1, .error e)
    | .ok _ =>
      (r.1.1, .ok
        { path := p
          db := r.1.2
          table := treeToTable (Folder.tree r.1.1.docs r.1.2)
          borrowed := [] })

/-- `this.$db.load(); this.$table = Librarian.treeToTable(this.$db.tree)`
(Librarian.js:82-83, 86-87). -/
def loadRoot (w : World) : World × Except JSError Unit :=
  let r := Folder.load w.store w.lib.db
  match r.2 with
  | .error e => ({ store := r.1.1, lib := { w.lib with db := r.1.2 } }, .error e)
  | .ok _ =>
    ({ store := r.1.1
       lib := { w.lib with db := r.1.2, table := treeToTable (Folder.tree r.1.1.docs r.1.2) } },
      .ok ())

/-- Librarian.js:78-100 `load` for `undefined` (`none`) or a string. -/
def load (w : World) (req : Option JSString) : World × Except JSError Unit :=
  match req with
  | none => loadRoot w
  | some [] => (w, .error .TypeError)
  | some (c :: r) =>
    if SLASH ∉ c :: r then loadRoot w
    else
      match Folder.search w.lib.db (c :: r) with
      | .error e => (w, .error e)
      | .ok (.folder target) =>
        let res := Folder.load w.store target
        let db1 : Folder :=
          { w.lib.db with
              contents := Folder.putAt w.lib.db.contents (splitOn SLASH (c :: r)) res.1.2 }
        match res.2 with
        | .error e => ({ store := res.1.1, lib := { w.lib with db := db1 } }, .error e)
        | .ok _ =>
          ({ store := res.1.1
             lib := { w.lib with db := db1, table := treeToTable (Folder.tree res.1.1.docs db1) } },
            .ok ())
      | .ok _ => (w, .ok ())

/-- Librarian.js:120-124 `isFree`. -/
def isFree (lib : Librarian) (req : JSString) : Except JSError Bool :=
  if lib.borrowed.contains req then .ok false
  else
    match Folder.search lib.db req with
    | .error e => .error e
    | .ok (.doc _) => .ok true
    | .ok _ => .ok false

/-- Librarian.js:130-144 `borrow` for a string request. The `search` of line 134
gives what the `search` inside `isFree` gave. -/
def borrow (w : World) (req : JSString) : World × Except JSError (Option Book) :=
  if w.lib.exists (.str req) then
    match w.lib.isFree req with
    | .error e => (w, .error e)
    | .ok false => (w, .ok none)
    | .ok true =>
      match Folder.search w.lib.db req with
      | .ok (.doc ref) =>
        ({ w with lib := { w.lib with borrowed := w.lib.borrowed ++ [req] } },
          .ok (some { doc := some ref, returnFn := some req }))
      | _ => (w, .error .TypeError)
  else (w, .ok none)

/-- Librarian.js:262-280 `rename` for a string `req`. -/
def rename (w : World) (req : JSString) (name : JSValue) : World × Except JSError Bool :=
  match req with
  | [] => (w, .ok false)
  | c :: r =>
    if SLASH ∉ c :: r then
      let res := Folder.renameSub w.store w.lib.db (c :: r) name
      let w1 : World := { store := res.1.1, lib := { w.lib with db := res.1.2 } }
      match res.2 with
      | .error e => (w1, .error e)
      | .ok b =>
        match load w1 none with
        | (w2, .error e) => (w2, .error e)
        | (w2, .ok _) => (w2, .ok b)
    else
      let segs := splitOn SLASH (c :: r)
      let parent := joinSlash segs.dropLast
      match Folder.search w.lib.db parent with
      | .error e => (w, .error e)
      | .ok (.folder target) =>
        let res := Folder.renameSub w.store target (segs.getLast?.getD []) name
        let w1 : World :=
          { store := res.1.1
            lib := { w.lib with
              db := { w.lib.db with
                contents := Folder.putAt w.lib.db.contents (splitOn SLASH parent) res.1.2 } } }
        match res.2 with
        | .error e => (w1, .error e)
        | .ok b =>
          match load w1 (some parent) with
          | (w2, .error e) => (w2, .error e)
          | (w2, .ok _) => (w2, .ok b)
      | .ok _ => (w, .error .ReferenceError)

/-- Librarian.js:196-215 `place`: `path` is never empty there. A `Folder` is
built, and so loaded from storage, before it is known whether it is needed. -/
def place (st : Store) (parent : Folder) :
    List JSString → (Store × Folder) × Except JSError Unit
  | [] => ((st, parent), .ok ())
  | [k] =>
    match Folder.new st (parent.path ++ SLASH :: k) with
    | (r, .error e) => ((r.1, parent), .error e)
    | (r, .ok _) =>
      if (Folder.folders parent.contents).contains k then ((r.1, parent), .ok ())
      else
        match Folder.add parent r.2.name (.folder r.2) with
        | (p1, .error e) => ((r.1, p1), .error e)
        | (p1, .ok _) => (({ r.1 with disk := Folder.mkdir r.1.disk r.2 }, p1), .ok ())
  | k :: k2 :: rest =>
    match Folder.new st (parent.path ++ SLASH :: k) with
    | (r, .error e) => ((r.1, parent), .error e)
    | (r, .ok _) =>
      if (Folder.folders parent.contents).contains k then
        match parent.contents.get k with
        | .folder sub =>
          let res := place r.1 sub (k2 :: rest)
          ((res.1.1, { parent with contents := parent.contents.replace k (.folder res.1.2) }),
            res.2)
        | _ => ((r.1, parent), .error .Error)
      else
        match Folder.add parent r.2.name (.folder r.2) with
        | (p1, .error e) => ((r.1, p1), .error e)
        | (p1, .ok _) =>
          let res := place r.1 r.2 (k2 :: rest)
          ((res.1.1, { p1 with contents := p1.contents.replace r.2.name (.folder res.1.2) }),
            res.2)

/-- Librarian.js:190-226 `createFolder` for a string. -/
def createFolder (w : World) (path : JSString) : World × Except JSError Unit :=
  match path with
  | [] => (w, .error .TypeError)
  | c :: r =>
    let segs := splitOn SLASH (c :: r)
    if segs.all isUsableTitle then
      let res := place w.store w.lib.db segs
      let w1 : World := { store := res.1.1, lib := { w.lib with db := res.1.2 } }
      match res.2 with
      | .error e => (w1, .error e)
      | .ok _ => load w1 (some (joinSlash segs))
    else (w, .error .TypeError)

/-- Librarian.js:230-258 `createDocument` for a string. -/
def createDocument (w : World) (path : JSString) : World × Except JSError Unit :=
  match path with
  | [] => (w, .error .TypeError)
  | c :: r =>
    if SLASH ∉ c :: r then
      if isUsableTitle (c :: r) then
        match Document.new w.store.disk (w.lib.path ++ SLASH :: (c :: r)) with
        | .error e => (w, .error e)
        | .ok doc =>
          let w1 : World := { w with store := { w.store with docs := w.store.docs ++ [doc] } }
          match Folder.add w1.lib.db doc.name (.doc w.store.docs.length) with
          | (db1, .error e) => ({ w1 with lib := { w1.lib with db := db1 } }, .error e)
          | (db1, .ok _) => load { w1 with lib := { w1.lib with db := db1 } } none
      else (w, .error .TypeError)
    else
      let segs := splitOn SLASH (c :: r)
      if isUsableTitle (segs.getLast?.getD []) then
        let parent := joinSlash segs.dropLast
        match createFolder w parent with
        | (w1, .error e) => (w1, .error e)
        | (w1, .ok _) =>
          match Document.new w1.store.disk (w1.lib.path ++ SLASH :: joinSlash segs) with
          | .error e => (w1, .error e)
          | .ok doc =>
            let w2 : World :=
              { w1 with store := { w1.store with docs := w1.store.docs ++ [doc] } }
            match Folder.search w2.lib.db parent with
            | .error e => (w2, .error e)
            | .ok (.folder target) =>
              if (Folder.docs target.contents).contains doc.title then
                load w2 (some (joinSlash segs.dropLast))
              else
                match Folder.add target doc.name (.doc w1.store.docs.length) with
                | (t1, .error e) =>
                  ({ w2 with lib := { w2.lib with db := { w2.lib.db with
                      contents := Folder.putAt w2.lib.db.contents (splitOn SLASH parent) t1 } } },
                    .error e)
                | (t1, .ok _) =>
                  load { w2 with lib := { w2.lib with db := { w2.lib.db with
                      contents := Folder.putAt w2.lib.db.contents (splitOn SLASH parent) t1 } } }
                    (some (joinSlash segs.dropLast))
            | .ok _ => (w2, .error .TypeError)
      else (w, .error .TypeError)

/-- The closure handed to `new Book` in Librarian.js:134-140, called with the
title of the document. -/
def release (w : World) (req : JSString) (newTitle : JSString) :
    World × Except JSError Unit :=
  let w1 : World := { w with lib := { w.lib with borrowed := w.lib.borrowed.erase req } }
  if newTitle ≠ [] ∧ lastSegment req ≠ newTitle then
    match rename w1 req (.string newTitle) with
    | (w2, .error e) => (w2, .error e)
    | (w2, .ok _) =>
      load w2 (if SLASH ∉ req then none else some (joinSlash (splitOn SLASH req).dropLast))
  else (w1, .ok ())

end Librarian

namespace Book

/-- Librarian.js:313-318 getter `title`. -/
def title (w : World) (b : Book) : Except JSError JSString :=
  match b.doc with
  | some ref => .ok (Folder.titleOf w.store.docs ref)
  | none => .error .Error

/-- Librarian.js:320-328 `setTitle`. With `$doc` deleted, `this.$doc.setTitle`
throws. -/
def setTitle (w : World) (b : Book) (title : JSValue) : World × Except JSError Bool :=
  match title with
  | .string t =>
    if isUsableTitle t then
      match b.doc with
      | none => (w, .error .TypeError)
      | some ref =>
        match w.store.docs[ref]? with
        | none => (w, .error .TypeError)
        | some d =>
          match d.setTitle title with
          | (d1, .ok _) =>
            ({ w with store := { w.store with docs := w.store.docs.set ref d1 } }, .ok true)
          | (d1, .error e) =>
            ({ w with store := { w.store with docs := w.store.docs.set ref d1 } }, .error e)
    else (w, .ok false)
  | _ => (w, .ok false)

/-- Librarian.js:331-336 `read`. -/
def read (w : World) (b : Book) : World × Except JSError (Option JSString) :=
  match b.doc with
  | some ref =>
    match w.store.docs[ref]? with
    | some d =>
      let r := d.read w.store.disk
      ({ w with store := { w.store with docs := w.store.docs.set ref r.1 } }, .ok r.2)
    | none => (w, .error .TypeError)
  | none => (w, .error .Error)

/-- Librarian.js:338-343 `edit`. -/
def edit (w : World) (b : Book) (content author : JSValue) : World × Except JSError Unit :=
  match b.doc with
  | some ref =>
    match w.store.docs[ref]? with
    | some d =>
      let r := d.write content author
      ({ w with store := { w.store with docs := w.store.docs.set ref r.1 } }, r.2)
    | none => (w, .error .TypeError)
  | none => (w, .error .Error)

/-- Librarian.js:345-354 `return`, at time `now`. -/
def «return» (fmt : Nat → JSString) (now : Nat) (w : World) (b : Book) :
    (World × Book) × Except JSError Unit :=
  match b.returnFn with
  | none => ((w, b), .error .Error)
  | some req =>
    match b.doc.bind fun ref => (w.store.docs[ref]?).map fun d => (ref, d) with
    | none => ((w, b), .error .TypeError)
    | some (ref, d) =>
      let r := d.save fmt now w.store.disk
      let w1 : World :=
        { w with store := { disk := r.1.1, docs := w.store.docs.set ref r.1.2 } }
      match r.2 with
      | .error e => ((w1, b), .error e)
      | .ok _ =>
        match Librarian.release w1 req r.1.2.title with
        | (w2, .error e) => ((w2, b), .error e)
        | (w2, .ok _) => ((w2, { doc := none, returnFn := none }), .ok ())

end Book

/-! ## Well-formed folders -/

/-- Every sub-folder is stored under the last segment of its own path, at every
level; and the keys of one `$contents` are distinct, as the properties of an
object are. -/
def Contents.wellFormed : Contents → Bool
  | .nil => true
  | .doc key _ rest => !(rest.keys.contains key) && wellFormed rest
  | .folder key path sub rest =>
    !(rest.keys.contains key) && lastSegment path = key && wellFormed sub && wellFormed rest

/-- No entry is stored under the key `__proto__`, at any level: an object
literal never has that own property. -/
def Contents.noProtoKey : Contents → Bool
  | .nil => true
  | .doc key _ rest => key ≠ PROTO && noProtoKey rest
  | .folder key _ sub rest => key ≠ PROTO && noProtoKey sub && noProtoKey rest

/-! ## The specification's reading of `exists` -/

/-- The branch of that name among `branches`: `some none` for a document title,
`some (some sub)` for a folder and its branches. -/
def Branches.find : Branches → JSString → Option (Option Branches)
  | .nil, _ => none
  | .doc title rest, k => if title = k then some none else find rest k
  | .folder name sub rest, k => if name = k then some (some sub) else find rest k

/-- Descending a snapshot segment by segment through folders reaches a folder or
a document title: a missing segment fails, and so does a document indexed further. -/
def Branches.reaches : Branches → List JSString → Bool
  | _, [] => true
  | b, k :: rest =>
    match b.find k with
    | none => false
    | some none => rest.isEmpty
    | some (some sub) => reaches sub rest

/-- The names of the branches at the top level of a snapshot. -/
def Branches.names : Branches → List JSString
  | .nil => []
  | .doc title rest => title :: names rest
  | .folder name _ rest => name :: names rest

/-- Sibling names are distinct at every level of the snapshot. -/
def Branches.uniqueNames : Branches → Bool
  | .nil => true
  | .doc title rest => !(rest.names.contains title) && uniqueNames rest
  | .folder name sub rest =>
    !(rest.names.contains name) && uniqueNames sub && uniqueNames rest

/-! ## Sample data -/

/-- The format used in the examples for `date.format(LOG_DATE_FORMAT)`. -/
def sampleFormat : Nat → JSString := fun _ => utf16 "2023-08-22 10_00_00"

/-- The document built for `lib/doc` when storage holds nothing for it. -/
def sampleDoc : Document :=
  { path := utf16 "lib/doc"
    infoPath := utf16 "lib/doc/info.json"
    info := { title := utf16 "doc", author := none, log := [] }
    content := { path := utf16 "lib/doc/content.txt", data := none } }

/-- Storage holding one folder `F` with one document `a`, saved once. -/
def sampleDisk : Disk :=
  [(utf16 "lib", .dir), (utf16 "lib/F", .dir), (utf16 "lib/F/a", .dir),
   (utf16 "lib/F/a/info.json",
     .json { title := some (utf16 "a"), author := some (utf16 "kim"),
             log := [{ author := some (utf16 "kim"), change := 2, date := 5 }] }),
   (utf16 "lib/F/a/content.txt", .text (utf16 "hi"))]

/-- The library that `new Librarian("lib")` builds on `sampleDisk`. -/
def sampleWorld : World :=
  { store :=
      { disk := sampleDisk
        docs := [{ path := utf16 "lib/F/a"
                   infoPath := utf16 "lib/F/a/info.json"
                   info := { title := utf16 "a", author := some (utf16 "kim"),
                             log := [{ author := some (utf16 "kim"), change := 2, date := 5 }] }
                   content := { path := utf16 "lib/F/a/content.txt", data := none } }] }
    lib :=
      { path := utf16 "lib"
        db := { path := utf16 "lib"
                contents := .folder (utf16 "F") (utf16 "lib/F") (.doc (utf16 "a") 0 .nil) .nil }
        table := .folder (utf16 "F") (.doc (utf16 "a") .nil) .nil
        borrowed := [] } }

/-- The library that `new Librarian("lib")` builds on an empty directory `lib`. -/
def emptyWorld : World :=
  { store := { disk := [(utf16 "lib", .dir)], docs := [] }
    lib := { path := utf16 "lib", db := { path := utf16 "lib", contents := .nil }
             table := .nil, borrowed := [] } }

/-- The handle that `borrow("F/a")` gives on `sampleWorld`. -/
def sampleBook : Book := { doc := some 0, returnFn := some (utf16 "F/a") }

/-- The library after `borrow("F/a")`, `edit("hello", "lee")` and `return()` on
`sampleWorld`, with the handle as `return` left it. -/
def returnedWorld : (World × Book) × Except JSError Unit :=
  Book.return sampleFormat 9
    (Book.edit (Librarian.borrow sampleWorld (utf16 "F/a")).1 sampleBook
      (.string (utf16 "hello")) (.string (utf16 "lee"))).1
    sampleBook

/-- The library after `createDocument("a")` and `borrow("a")` on the empty
library. -/
def freshBorrowed : World × Except JSError (Option Book) :=
  Librarian.borrow (Librarian.createDocument emptyWorld (utf16 "a")).1 (utf16 "a")

/-- The library after `borrow("F/a")` and then `rename("F", "G")` on
`sampleWorld`. -/
def renamedWorld : World × Except JSError Bool :=
  Librarian.rename (Librarian.borrow sampleWorld (utf16 "F/a")).1 (utf16 "F")
    (.string (utf16 "G"))

/-- Storage holding the folder `F` with the document `a`, and an empty folder `G`. -/
def twoFolderDisk : Disk := sampleDisk ++ [(utf16 "lib/G", .dir)]

/-- The library that `new Librarian("lib")` builds on `twoFolderDisk`. -/
def twoFolderWorld : World :=
  { store := { disk := twoFolderDisk, docs := sampleWorld.store.docs }
    lib :=
      { path := utf16 "lib"
        db := { path := utf16 "lib"
                contents := .folder (utf16 "F") (utf16 "lib/F") (.doc (utf16 "a") 0 .nil)
                  (.folder (utf16 "G") (utf16 "lib/G") .nil .nil) }
        table := .folder (utf16 "F") (.doc (utf16 "a") .nil) (.folder (utf16 "G") .nil .nil)
        borrowed := [] } }

/-- The library after `rename("F", "G/H")` on `twoFolderWorld`. -/
def movedWorld : World × Except JSError Bool :=
  Librarian.rename twoFolderWorld (utf16 "F") (.string (utf16 "G/H"))

/-! ## Document: history and permanent deletion -/

/-- Modelled from the spec: `FileStream.read(p)`, the text kept at `p`, `null`
when there is none. -/
def FileStream.read (disk : Disk) (p : JSString) : Option JSString :=
  (disk.lookup p).bind Node.asText

/-- Modelled from the spec: `FileStream.remove(p)`, which removes a file or a
directory that holds nothing and tells whether it did: `false` when `p` does not
exist or is a directory that still holds something (Document.js:230 relies on
that). -/
def FileStream.remove (disk : Disk) (p : JSString) : Disk × Bool :=
  if disk.pathExists p ∧ ¬ (disk.any fun e => (p ++ [SLASH]).isPrefixOf e.1) then
    (disk.filter fun e => e.1 ≠ p, true)
  else (disk, false)

/-- Modelled from the spec: `file.delete()` of `util.File` removes the file from
storage. -/
def File.delete {α : Type} (disk : Disk) (f : File α) : Disk :=
  if disk.isFile f.path then disk.filter fun e => e.1 ≠ f.path else disk

/-- `id in this.info.log` for an integer `id`: an index of the array. -/
def inLog (log : List LogEntry) (id : Int) : Bool := 0 ≤ id && id < log.length

/-- `array.at(i)` (`extension.Array.at`, taken to be the standard
`Array.prototype.at`): a negative index counts from the end. -/
def arrayAt {α : Type} (l : List α) (i : Int) : Option α :=
  if i < 0 then (if 0 ≤ (l.length : Int) + i then l[((l.length : Int) + i).toNat]? else none)
  else l[i.toNat]?

/-- `array.splice(start, 1)`: a negative `start` counts from the end. -/
def spliceOne {α : Type} (l : List α) (start : Int) : List α :=
  if start < 0 then l.eraseIdx (max ((l.length : Int) + start) 0).toNat
  else l.eraseIdx start.toNat

/-- The values handed to the `code` parameter of the deleting methods: the three
symbols `DELETE_CODE` of Document.js:40, Folder.js:20 and Librarian.js:23, or
any other value (`undefined` for a missing argument). -/
inductive Code
  | documentDelete
  | folderDelete
  | librarianDelete
  | other (v : JSValue)
  deriving DecidableEq, Repr

namespace Document

/-- Document.js:186-194 `reminisce` for an integer `id`. -/
def reminisce (fmt : Nat → JSString) (disk : Disk) (d : Document) (id : Int) :
    Except JSError (Option JSString) :=
  if inLog d.info.log id then
    match arrayAt d.info.log (-(id + 1)) with
    | none => .error .TypeError
    | some log =>
      match generateLogFilePath fmt d.path log.author log.date with
      | .error e => .error e
      | .ok logPath => .ok (FileStream.read disk logPath)
  else .ok none

/-- Document.js:197-208 `removeLog` for an integer `id`. -/
def removeLog (fmt : Nat → JSString) (disk : Disk) (d : Document) (id : Int) :
    (Disk × Document) × Except JSError Bool :=
  if inLog d.info.log id then
    match arrayAt d.info.log (-(id + 1)) with
    | none => ((disk, d), .error .TypeError)
    | some log =>
      let d1 : Document :=
        { d with info := { d.info with log := spliceOne d.info.log (-(id + 1)) } }
      match generateLogFilePath fmt d1.path log.author log.date with
      | .error e => ((disk, d1), .error e)
      | .ok logPath => (((FileStream.remove disk logPath).1, d1), .ok true)
  else ((disk, d), .ok false)

/-- The loop of Document.js:213-214 over the log. -/
def removeSnapshots (fmt : Nat → JSString) (path : JSString) :
    Disk → List LogEntry → Disk × Except JSError Unit
  | disk, [] => (disk, .ok ())
  | disk, log :: rest =>
    match generateLogFilePath fmt path log.author log.date with
    | .error e => (disk, .error e)
    | .ok logPath => removeSnapshots fmt path (FileStream.remove disk logPath).1 rest

/-- Document.js:211-218 `clearLog`. -/
def clearLog (fmt : Nat → JSString) (disk : Disk) (d : Document) :
    (Disk × Document) × Except JSError Unit :=
  match removeSnapshots fmt d.path disk d.info.log with
  | (disk1, .error e) => ((disk1, d), .error e)
  | (disk1, .ok _) =>
    (((FileStream.remove disk1 (d.path ++ SLASH :: LOG_DIR)).1,
      { d with info := { d.info with log := [] } }), .ok ())

/-- Document.js:224-236 `deleteAll`. -/
def deleteAll (fmt : Nat → JSString) (disk : Disk) (d : Document) (code : Code) :
    (Disk × Document) × Except JSError Bool :=
  match code with
  | .documentDelete =>
    match clearLog fmt disk d with
    | (r, .error e) => (r, .error e)
    | (r, .ok _) =>
      let infoFile : File Info := { path := r.2.infoPath, data := some r.2.info }
      let disk2 := File.delete (File.delete r.1 infoFile) r.2.content
      match FileStream.remove disk2 r.2.path with
      | (_, false) => ((disk2, r.2), .error .Error)
      | (disk3, true) => ((disk3, r.2), .ok true)
  | _ => ((disk, d), .ok false)

end Document

/-! ## Folder: saving and permanent deletion -/

namespace Folder

/-- Folder.js:167-174 `save`: `mkdir`, then `for (let content of this.$contents)`.
`$contents` is an object literal and has no iterator, so the loop throws a
TypeError before its first round, whatever the folder holds. -/
def save (disk : Disk) (f : Folder) : Disk × Except JSError Unit :=
  (Folder.mkdir disk f, .error .TypeError)

/-- The loop of Folder.js:207-213 over `$contents`, with the recursive call
`content.delete([], DELETE_CODE)` of line 212 unfolded: the loop over the
sub-folder, then the removal of its directory (lines 214-216). -/
def deleteContents (fmt : Nat → JSString) : Store → Contents → Store × Except JSError Unit
  | st, .nil => (st, .ok ())
  | st, .doc _ ref rest =>
    match st.docs[ref]? with
    | none => (st, .error .TypeError)
    | some d =>
      let r := Document.deleteAll fmt st.disk d .documentDelete
      let st1 : Store := { disk := r.1.1, docs := st.docs.set ref r.1.2 }
      match r.2 with
      | .error e => (st1, .error e)
      | .ok _ => deleteContents fmt st1 rest
  | st, .folder _ path sub rest =>
    match deleteContents fmt st sub with
    | (st1, .error e) => (st1, .error e)
    | (st1, .ok _) =>
      match FileStream.remove st1.disk path with
      | (_, false) => (st1, .error .Error)
      | (disk2, true) => deleteContents fmt { st1 with disk := disk2 } rest

/-- Folder.js:206-217, `delete` for the empty array: every child is deleted, then
the directory of the folder is removed. -/
def deleteSelf (fmt : Nat → JSString) (st : Store) (f : Folder) :
    Store × Except JSError Bool :=
  match deleteContents fmt st f.contents with
  | (st1, .error e) => (st1, .error e)
  | (st1, .ok _) =>
    match FileStream.remove st1.disk f.path with
    | (_, false) => (st1, .error .Error)
    | (disk2, true) => ({ st1 with disk := disk2 }, .ok true)

/-- Folder.js:205-226, `delete` for an array and the right code: the addressed
child is detached before the call descends into it. -/
def deleteSegs (fmt : Nat → JSString) :
    Store → Folder → List JSString → (Store × Folder) × Except JSError Bool
  | st, f, [] =>
    let r := deleteSelf fmt st f
    ((r.1, f), r.2)
  | st, f, k :: rest =>
    match f.contents.get k with
    | .folder target =>
      let r := deleteSegs fmt st target rest
      ((r.1.1, { f with contents := f.contents.delete k }), r.2)
    | .doc ref =>
      let f1 : Folder := { f with contents := f.contents.delete k }
      match st.docs[ref]? with
      | none => ((st, f1), .error .TypeError)
      | some d =>
        let r := Document.deleteAll fmt st.disk d .documentDelete
        (({ disk := r.1.1, docs := st.docs.set ref r.1.2 }, f1), r.2)
    | _ => ((st, f), .error .Error)

/-- Folder.js:202-235 `delete`: `req` is an array, a string, or any other value
(`none`); the empty string and the other values address the folder itself. -/
def delete (fmt : Nat → JSString) (st : Store) (f : Folder) (req : Option Request)
    (code : Code) : (Store × Folder) × Except JSError Bool :=
  match code with
  | .folderDelete =>
    match req with
    | some (.arr segs) => deleteSegs fmt st f segs
    | some (.str (c :: r)) => deleteSegs fmt st f (splitOn SLASH (c :: r))
    | _ => deleteSegs fmt st f []
  | _ => ((st, f), .ok false)

end Folder

/-- Librarian.js:289-298 `burn`. -/
def Librarian.burn (fmt : Nat → JSString) (w : World) (target : Option Request)
    (code : Code) : World × Except JSError Bool :=
  match code with
  | .librarianDelete =>
    let r := Folder.delete fmt w.store w.lib.db target .folderDelete
    let w1 : World := { store := r.1.1, lib := { w.lib with db := r.1.2 } }
    match r.2 with
    | .error e => (w1, .error e)
    | .ok _ =>
      match Librarian.load w1 none with
      | (w2, .error e) => (w2, .error e)
      | (w2, .ok _) => (w2, .ok true)
  | _ => (w, .ok false)

/-! ## Snapshots of a run of `write` and `save` -/

/-- The steps whose `save` commits something: those that wrote another content
than the sentinel. -/
def committed (steps : List WriteSave) : List WriteSave :=
  steps.filter fun x => x.content ≠ EMPTY_TEXT

/-- The snapshot file that `save` writes for the step `x` of a document at
`path`: the value of `generateLogFilePath`. -/
def snapshotPath (fmt : Nat → JSString) (path : JSString) (x : WriteSave) : JSString :=
  path ++ SLASH :: LOG_DIR ++ SLASH :: fmt x.now ++ utf16 "(by "
    ++ replaceAllSpace illegalInFileName x.author ++ utf16 ").txt"

/-- The last five units of a string, last first. -/
def lastFive (l : JSString) : JSString := l.reverse.take 5

/-- A stand-in for `date.format(LOG_DATE_FORMAT)` with the resolution of that
format (`YYYY-MM-dd HH_mm_ss`, Document.js:36), one second: the decimal digits
of the whole seconds. -/
def secondsFormat (ms : Nat) : JSString := (Nat.toDigits 10 (ms / 1000)).map Char.toNat

/-- `write("first", "kim"); save(); write("second", "kim"); save()` on a new
document, the two saves 400 ms apart within one second. -/
def twoSaves : (Disk × Document) × List (Except JSError Bool) :=
  writeSaveAll secondsFormat ([], sampleDoc)
    [⟨utf16 "first", utf16 "kim", 5000⟩, ⟨utf16 "second", utf16 "kim", 5400⟩]

/-- The entry that `save` pushes for the committed step `x` onto `log`
(Document.js:150-156). -/
def commitEntry (log : List LogEntry) (x : WriteSave) : LogEntry :=
  ⟨some x.author,
   if log.length ≠ 0 then (x.content.length : Int) - Document.sumChange log
   else (x.content.length : Int),
   x.now⟩

/-- The library after `rename("F/a", "b")` on `sampleWorld`. -/
def docRenamedWorld : World × Except JSError Bool :=
  Librarian.rename sampleWorld (utf16 "F/a") (.string (utf16 "b"))

/-- The handle that `borrow("a")` gives in `freshBorrowed`. -/
def freshBook : Book := { doc := some 0, returnFn := some (utf16 "a") }

/-- `freshBorrowed` after `setTitle("b")` on the handle. -/
def retitledWorld : World × Except JSError Bool :=
  Book.setTitle freshBorrowed.1 freshBook (.string (utf16 "b"))

/-- `retitledWorld` after `return()` on the handle. -/
def retitledReturned : (World × Book) × Except JSError Unit :=
  Book.return sampleFormat 9 retitledWorld.1 freshBook

/-- `retitledWorld` after `edit("x", "kim")` and then `return()` on the handle. -/
def editedReturned : (World × Book) × Except JSError Unit :=
  Book.return sampleFormat 9
    (Book.edit retitledWorld.1 freshBook (.string (utf16 "x")) (.string (utf16 "kim"))).1
    freshBook

/-- The root folder of `sampleWorld` after `renameSub("F", "F")`. -/
def selfRenamed : (Store × Folder) × Except JSError Bool :=
  Folder.renameSub sampleWorld.store sampleWorld.lib.db (utf16 "F") (.string (utf16 "F"))

/-! ## Folders made one inside the other -/

/-- The path `base/k1/.../kn`. -/
def deepPath (base : JSString) (segs : List JSString) : JSString :=
  segs.foldl (fun acc k => acc ++ SLASH :: k) base

/-- The own properties of a `$contents` that holds nothing but the folder `k1`
(at `base/k1`), which holds nothing but the folder `k2`, and so on; the
`$contents` of the innermost folder is `leaf`. -/
def chain (base : JSString) : List JSString → Contents → Contents
  | [], leaf => leaf
  | k :: rest, leaf =>
    .folder k (base ++ SLASH :: k) (chain (base ++ SLASH :: k) rest leaf) .nil

/-- The `$contents` of the root folder of `w` after the folders `k/ks...` were
placed in it, the innermost one holding `leaf`. -/
def placedContents (w : World) (k : JSString) (ks : List JSString) (leaf : Contents) :
    Contents :=
  w.lib.db.contents.push k
    (.folder ⟨w.lib.path ++ SLASH :: k, chain (w.lib.path ++ SLASH :: k) ks leaf⟩)

/-- The library `w` after the folders `k/ks...` were placed and their
directories made, with the heap `docs` and a fresh catalog. -/
def placedWorld (w : World) (k : JSString) (ks : List JSString) (leaf : Contents)
    (docs : List Document) : World :=
  ⟨⟨Disk.mkdirs w.store.disk (deepPath w.lib.path (k :: ks)), docs⟩,
    ⟨w.lib.path, ⟨w.lib.path, placedContents w k ks leaf⟩,
      treeToTable (Folder.tree docs ⟨w.lib.path, placedContents w k ks leaf⟩),
      w.lib.borrowed⟩⟩

/-- The document that `new Document(path)` builds where storage has no
`info.json`: the title is the last segment of the path. -/
def freshDocument (path : JSString) : Document :=
  ⟨path, path ++ SLASH :: INFO_FILE, ⟨lastSegment path, none, []⟩,
    ⟨path ++ SLASH :: CONTENT_FILE, none⟩⟩

/-! ## The history of a document, read through the library -/

/-- An element of the array that `getLog` returns; the `Date` built from the
recorded milliseconds is represented by them. -/
structure LogRecord where
  author : Option JSString
  change : Int
  date : Nat
  deriving DecidableEq, Repr

/-- Document.js:171-182 `getLog`: it takes no parameter, an argument is ignored. -/
def Document.getLog (d : Document) : List LogRecord :=
  d.info.log.map fun log => { author := log.author, change := log.change, date := log.date }

/-- What `Librarian.reminisce` returns: `undefined`, or the array given by
`getLog` after `Object.assign` gave it the own property `content`. -/
inductive Recollection
  | undefined
  | logWithContent (elements : List LogRecord) (content : Option JSString)
  deriving DecidableEq, Repr

/-- Librarian.js:174-186 `reminisce` for a string request and an integer `id`;
`typeof res === "object"` holds for the array that `getLog` gives. -/
def Librarian.reminisce (fmt : Nat → JSString) (w : World) (req : JSString) (id : Int) :
    Except JSError Recollection :=
  match Folder.search w.lib.db req with
  | .error e => .error e
  | .ok (.doc ref) =>
    match w.store.docs[ref]? with
    | none => .ok .undefined
    | some doc =>
      match Document.reminisce fmt w.store.disk doc id with
      | .error e => .error e
      | .ok content => .ok (.logWithContent doc.getLog content)
  | .ok _ => .ok .undefined

/-- Librarian.js:155-161 `history` for a string request. -/
def Librarian.history (w : World) (req : JSString) : Except JSError (Option (List LogRecord)) :=
  match Folder.search w.lib.db req with
  | .error e => .error e
  | .ok (.doc ref) =>
    match w.store.docs[ref]? with
    | none => .ok none
    | some doc => .ok (some doc.getLog)
  | .ok _ => .ok none

/-- The library after `borrow("F/a")` on `sampleWorld` and then
`burn("F/a", DELETE_CODE)` while the handle is Active. -/
def burnedWorld : World × Except JSError Bool :=
  Librarian.burn sampleFormat (Librarian.borrow sampleWorld (utf16 "F/a")).1
    (some (.str (utf16 "F/a"))) .librarianDelete

/-! ## One array `log` for every new document

`Document` keeps the entries of `info.log` by value, which is exact as long as
one document is looked at. The constructor stages `Object.assign({}, schema)`
(Document.js:61), a copy of the three properties of `schema`, not of the array
`schema.log`: the `info.log` of every document built without `info.json` is
that one array. The definitions below add what array `info.log` is. -/

/-- The state shared by the documents of one process: storage, and the entries
of the array `schema.log` (Document.js:25). -/
structure Process where
  disk : Disk
  schemaLog : List LogEntry
  deriving DecidableEq, Repr

/-- A `Document` instance with the array its `info.log` is: the array of `schema`
when the constructor staged the copy of `schema`, an array of its own when
`info.json` was parsed. In the first case the entries are those of the process
and `doc.info.log` is not looked at. -/
structure Instance where
  doc : Document
  sharesSchemaLog : Bool
  deriving DecidableEq, Repr

namespace Instance

/-- The instance with `info.log` read through to the array it is. -/
def current (p : Process) (i : Instance) : Document :=
  if i.sharesSchemaLog then { i.doc with info := { i.doc.info with log := p.schemaLog } }
  else i.doc

/-- Document.js:52-68, the constructor: `$info.load()` when `info.json` exists,
else the copy of `schema`. -/
def new (p : Process) (path : JSString) : Except JSError Instance :=
  match Document.new p.disk path with
  | .error e => .error e
  | .ok d =>
    .ok { doc := d
          sharesSchemaLog := !(File.exists p.disk
            ({ path := path ++ SLASH :: INFO_FILE, data := none } : File InfoJson)) }

/-- Document.js:133-140 `write`. -/
def write (i : Instance) (content author : JSValue) : Instance × Except JSError Unit :=
  ({ i with doc := (i.doc.write content author).1 }, (i.doc.write content author).2)

/-- Document.js:142-168 `save`: `this.info.log.push` pushes to the array that
`info.log` is. -/
def save (fmt : Nat → JSString) (now : Nat) (p : Process) (i : Instance) :
    (Process × Instance) × Except JSError Bool :=
  let r := Document.save fmt now p.disk (i.current p)
  (({ disk := r.1.1
      schemaLog := if i.sharesSchemaLog then r.1.2.info.log else p.schemaLog },
    { i with doc := r.1.2 }), r.2)

/-- Document.js:171-182 `getLog`. -/
def getLog (p : Process) (i : Instance) : List LogRecord := (i.current p).getLog

end Instance

/-- A process that has built no document yet, on storage holding the empty
directory `lib`. -/
def freshProcess : Process := { disk := [(utf16 "lib", .dir)], schemaLog := [] }

/-- The instance that `new Document("lib/x")` gives in `freshProcess`. -/
def firstInstance : Instance :=
  { doc := freshDocument (utf16 "lib/x"), sharesSchemaLog := true }

/-- The instance that `new Document("lib/y")` gives in `freshProcess`. -/
def secondInstance : Instance :=
  { doc := freshDocument (utf16 "lib/y"), sharesSchemaLog := true }

/-- The process and `firstInstance` after `write("hi", "kim")` and `save()` at
time 5 on `firstInstance`. -/
def firstSaved : (Process × Instance) × Except JSError Bool :=
  Instance.save sampleFormat 5 freshProcess
    (firstInstance.write (.string (utf16 "hi")) (.string (utf16 "kim"))).1

/-! # Theorems -/

/-! ## Document: the change accounting of `save` -/

theorem sumChange_append (l : List LogEntry) (e : LogEntry) :
    Document.sumChange (l ++ [e]) = Document.sumChange l + e.change := by
  unfold Document.sumChange
  rw [List.foldl_append]
  simp

theorem sumChange_take_succ (log : List LogEntry) (n : Nat) (e : LogEntry)
    (h : log[n]? = some e) :
    Document.sumChange (log.take (n + 1)) = Document.sumChange (log.take n) + e.change := by
  have hn : n < log.length := by
    by_contra hc
    rw [List.getElem?_eq_none (by omega)] at h
    cases h
  have he : log[n] = e := by
    rw [List.getElem?_eq_getElem hn] at h
    exact Option.some.inj h
  rw [List.take_succ, List.getElem?_eq_getElem hn]
  simp only [Option.toList_some]
  rw [sumChange_append, he]

/-- One `write` then `save` of a content other than the sentinel returns `true`
and appends exactly one entry, whose change is the new length minus the changes
recorded so far. -/
theorem save_after_write (fmt : Nat → JSString) (s : Disk × Document) (x : WriteSave)
    (hne : x.content ≠ EMPTY_TEXT) :
    (Document.save fmt x.now s.1 (s.2.write (.string x.content) (.string x.author)).1).2
      = .ok true ∧
    (Document.save fmt x.now s.1
        (s.2.write (.string x.content) (.string x.author)).1).1.2.info.log
      = s.2.info.log ++ [{ author := some x.author,
                           change := (x.content.length : Int) - Document.sumChange s.2.info.log,
                           date := x.now }] := by
  have h1 : ¬ (some x.content = some EMPTY_TEXT) := fun h => hne (Option.some.inj h)
  cases hl : s.2.info.log with
  | nil =>
    simp [Document.save, Document.write, File.read, File.write, generateLogFilePath, h1, hl,
      Document.sumChange]
  | cons e rest =>
    simp [Document.save, Document.write, File.read, File.write, generateLogFilePath, h1, hl]

/-- The run over `steps`, started from a document with any log. -/
theorem writeSaveAll_log (fmt : Nat → JSString) (steps : List WriteSave) :
    ∀ (s : Disk × Document), (∀ x ∈ steps, x.content ≠ EMPTY_TEXT) →
    (writeSaveAll fmt s steps).2 = steps.map (fun _ => Except.ok true) ∧
    (writeSaveAll fmt s steps).1.2.info.log.length = s.2.info.log.length + steps.length ∧
    (writeSaveAll fmt s steps).1.2.info.log.take s.2.info.log.length = s.2.info.log ∧
    ∀ n (hn : n < steps.length), ∃ e,
      (writeSaveAll fmt s steps).1.2.info.log[s.2.info.log.length + n]? = some e ∧
      e.change = ((steps.get ⟨n, hn⟩).content.length : Int)
        - Document.sumChange
            ((writeSaveAll fmt s steps).1.2.info.log.take (s.2.info.log.length + n)) := by
  induction steps with
  | nil => intro s _; simp [writeSaveAll]
  | cons x rest ih =>
    intro s hne
    have hs := save_after_write fmt s x (hne x (List.mem_cons_self _ _))
    have hrest : ∀ y ∈ rest, y.content ≠ EMPTY_TEXT :=
      fun y hy => hne y (List.mem_cons_of_mem _ hy)
    obtain ⟨ih1, ih2, ih3, ih4⟩ :=
      ih (Document.save fmt x.now s.1 (s.2.write (.string x.content) (.string x.author)).1).1
        hrest
    rw [hs.2] at ih2 ih3 ih4
    simp only [List.length_append, List.length_singleton] at ih2 ih3 ih4
    have htake : (writeSaveAll fmt s (x :: rest)).1.2.info.log.take s.2.info.log.length
        = s.2.info.log := by
      have := congrArg (List.take s.2.info.log.length) ih3
      rw [List.take_take] at this
      simpa [writeSaveAll] using this
    refine ⟨?_, ?_, htake, ?_⟩
    · simp [writeSaveAll, hs.1, ih1]
    · simp only [writeSaveAll, List.length_cons]; omega
    · intro n hn
      cases n with
      | zero =>
        refine ⟨{ author := some x.author,
                  change := (x.content.length : Int) - Document.sumChange s.2.info.log,
                  date := x.now }, ?_, ?_⟩
        · have h := congrArg (fun l => l[s.2.info.log.length]?) ih3
          simp only [List.getElem?_take] at h
          simp only [writeSaveAll, Nat.add_zero]
          simpa using h
        · simp only [Nat.add_zero]
          rw [htake]
          simp
      | succ m =>
        have hm : m < rest.length := by simpa using hn
        obtain ⟨e, he1, he2⟩ := ih4 m hm
        refine ⟨e, ?_, ?_⟩
        · simp only [writeSaveAll]
          rw [← he1]; congr 1; omega
        · simp only [writeSaveAll, List.get_eq_getElem, List.getElem_cons_succ]
          rw [he2]
          simp only [List.get_eq_getElem]
          congr 3; omega

theorem writeSaveAll_append (fmt : Nat → JSString) (xs ys : List WriteSave) :
    ∀ s : Disk × Document,
      writeSaveAll fmt s (xs ++ ys)
        = ((writeSaveAll fmt (writeSaveAll fmt s xs).1 ys).1,
            (writeSaveAll fmt s xs).2 ++ (writeSaveAll fmt (writeSaveAll fmt s xs).1 ys).2) := by
  induction xs with
  | nil => intro s; simp [writeSaveAll]
  | cons x rest ih => intro s; simp [writeSaveAll, ih]

/-- The log after the first `k` steps is the first `k` entries of the final log. -/
theorem writeSaveAll_take (fmt : Nat → JSString) (s : Disk × Document) (steps : List WriteSave)
    (hlog : s.2.info.log = []) (hne : ∀ x ∈ steps, x.content ≠ EMPTY_TEXT) (k : Nat)
    (hk : k ≤ steps.length) :
    (writeSaveAll fmt s (steps.take k)).1.2.info.log
      = (writeSaveAll fmt s steps).1.2.info.log.take k := by
  have h1 := writeSaveAll_log fmt (steps.take k) s
    (fun x hx => hne x (List.mem_of_mem_take hx))
  have h2 := writeSaveAll_log fmt (steps.drop k) (writeSaveAll fmt s (steps.take k)).1
    (fun x hx => hne x (List.mem_of_mem_drop hx))
  have happ := writeSaveAll_append fmt (steps.take k) (steps.drop k) s
  rw [List.take_append_drop] at happ
  rw [happ]
  have hlen : (writeSaveAll fmt s (steps.take k)).1.2.info.log.length = k := by
    rw [h1.2.1, hlog]
    simp [hk]
  have := h2.2.2.1
  rw [hlen] at this
  exact this.symm

/-- C1. Starting from an empty log, after `write(c1,a1); save(); ...; write(ck,ak);
save()` with no content equal to the sentinel, every `save` returned `true`, the
log holds one entry per save, the n-th entry has `change = length(c_n)` minus the
sum of the changes of the entries before it, and right after the n-th save the
changes of the whole log sum to `length(c_n)`. -/
theorem C1_change_accounting (fmt : Nat → JSString) (disk : Disk) (d : Document)
    (steps : List WriteSave)
    (hlog : d.info.log = [])
    (hne : ∀ x ∈ steps, x.content ≠ EMPTY_TEXT) :
    (writeSaveAll fmt (disk, d) steps).2 = steps.map (fun _ => Except.ok true) ∧
    (writeSaveAll fmt (disk, d) steps).1.2.info.log.length = steps.length ∧
    ∀ n (hn : n < steps.length),
      (∃ e, (writeSaveAll fmt (disk, d) steps).1.2.info.log[n]? = some e ∧
        e.change = ((steps.get ⟨n, hn⟩).content.length : Int)
          - Document.sumChange ((writeSaveAll fmt (disk, d) steps).1.2.info.log.take n)) ∧
      Document.sumChange (writeSaveAll fmt (disk, d) (steps.take (n + 1))).1.2.info.log
        = ((steps.get ⟨n, hn⟩).content.length : Int) := by
  obtain ⟨h1, h2, _, h4⟩ := writeSaveAll_log fmt steps (disk, d) hne
  simp only [hlog, List.length_nil, Nat.zero_add] at h2 h4
  refine ⟨h1, h2, ?_⟩
  intro n hn
  obtain ⟨e, he1, he2⟩ := h4 n hn
  refine ⟨⟨e, he1, he2⟩, ?_⟩
  rw [writeSaveAll_take fmt (disk, d) steps hlog hne (n + 1) hn,
    sumChange_take_succ _ n e he1, he2]
  ring

/-- C1 on `write("hello","kim"); save(); write("hi","lee"); save()`: the changes
recorded are 5 and -3. -/
theorem C1_change_accounting_witness :
    (writeSaveAll sampleFormat ([], sampleDoc)
        [⟨utf16 "hello", utf16 "kim", 1⟩, ⟨utf16 "hi", utf16 "lee", 2⟩]).1.2.info.log
      = [⟨some (utf16 "kim"), 5, 1⟩, ⟨some (utf16 "lee"), -3, 2⟩] ∧
    (writeSaveAll sampleFormat ([], sampleDoc)
        [⟨utf16 "hello", utf16 "kim", 1⟩, ⟨utf16 "hi", utf16 "lee", 2⟩]).1.2.info.log.length
      = 2 :=
  ⟨by decide,
   (C1_change_accounting sampleFormat [] sampleDoc
      [⟨utf16 "hello", utf16 "kim", 1⟩, ⟨utf16 "hi", utf16 "lee", 2⟩] rfl (by decide)).2.1⟩

/-- C2. After `write(c, a)`, two `save()` calls in a row: the second returns
`false` and leaves storage and the document, its log included, exactly as the
first call left them. -/
theorem C2_save_twice (fmt : Nat → JSString) (disk : Disk) (d : Document)
    (c a : JSString) (now1 now2 : Nat) :
    (Document.save fmt now2
        (Document.save fmt now1 disk (d.write (.string c) (.string a)).1).1.1
        (Document.save fmt now1 disk (d.write (.string c) (.string a)).1).1.2).2 = .ok false ∧
    (Document.save fmt now2
        (Document.save fmt now1 disk (d.write (.string c) (.string a)).1).1.1
        (Document.save fmt now1 disk (d.write (.string c) (.string a)).1).1.2).1.2.info.log
      = (Document.save fmt now1 disk (d.write (.string c) (.string a)).1).1.2.info.log ∧
    (Document.save fmt now2
        (Document.save fmt now1 disk (d.write (.string c) (.string a)).1).1.1
        (Document.save fmt now1 disk (d.write (.string c) (.string a)).1).1.2).1
      = (Document.save fmt now1 disk (d.write (.string c) (.string a)).1).1 := by
  by_cases hc : c = EMPTY_TEXT
  · subst hc
    simp [Document.save, Document.write, File.read, File.write]
  · have h1 : ¬ (some c = some EMPTY_TEXT) := fun h => hc (Option.some.inj h)
    simp [Document.save, Document.write, File.read, File.write, generateLogFilePath, h1]

/-! ## The two title rules -/

theorem replaceAllEmpty_length_zero (cls : Nat → Bool) (t : JSString) :
    (replaceAllEmpty cls t).length = 0 ↔ ∀ c ∈ t, cls c = true := by
  induction t with
  | nil => simp [replaceAllEmpty]
  | cons c rest ih =>
    simp only [replaceAllEmpty] at ih ⊢
    by_cases h : cls c = true
    · simp [List.filter_cons, h, ih]
    · simp [List.filter_cons, h]

/-- `isUsableTitle` accepts exactly the strings made of units of its class. -/
theorem isUsableTitle_iff (t : JSString) :
    isUsableTitle t = true ↔ ∀ c ∈ t, usableUnit c = true := by
  simp only [isUsableTitle, decide_eq_true_eq]
  exact replaceAllEmpty_length_zero usableUnit t

/-- The class of `isUsableTitle` is the specification's rule plus the six units
U+005B to U+0060 that lie between `Z` and `a`. -/
theorem usableUnit_iff (c : Nat) :
    usableUnit c = true ↔ (titleRuleUnit c = true ∨ (91 ≤ c ∧ c ≤ 96)) := by
  simp only [usableUnit, titleRuleUnit, Bool.or_eq_true, Bool.and_eq_true, decide_eq_true_eq]
  omega

/-- C7. `isUsableTitle` accepts the title `_` (U+005F, inside the range `A-z` of
the pattern), which is no letter, digit, Hangul syllable, space, parenthesis,
comma or exclamation mark; the same holds for the backslash. -/
theorem C7_isUsableTitle_accepts_underscore :
    (isUsableTitle (utf16 "_") = true ∧ titleRule (utf16 "_") = false) ∧
    (isUsableTitle [92] = true ∧ titleRule [92] = false) := by decide

theorem testPlus_iff (cls : Nat → Bool) (t : JSString) :
    testPlus cls t = true ↔ ∃ c ∈ t, cls c = true := by
  induction t with
  | nil => simp [testPlus]
  | cons c rest ih => simp [testPlus, matchPlusHere, ih]

/-- `TITLE_REG.test` accepts exactly the strings holding a unit outside its class
of excluded units. -/
theorem TITLE_REG_test_iff (t : JSString) :
    TITLE_REG_test t = true ↔ ∃ c ∈ t, forbiddenUnit c = false := by
  simp [TITLE_REG_test, testPlus_iff]

theorem titleRuleUnit_not_forbidden (c : Nat) (h : titleRuleUnit c = true) :
    forbiddenUnit c = false := by
  simp only [titleRuleUnit, Bool.or_eq_true, Bool.and_eq_true, decide_eq_true_eq] at h
  simp only [forbiddenUnit, Bool.or_eq_false_iff, decide_eq_false_iff_not]
  omega

/-- C8, as stated, fails: `#` breaks the title-character rule, yet
`Document.setTitle("#")` succeeds and the title becomes `#`; the empty string
breaks no rule, yet `setTitle("")` throws. -/
theorem C8_counterexample :
    (titleRule (utf16 "#") = false ∧
      sampleDoc.setTitle (.string (utf16 "#"))
        = ({ sampleDoc with info := { sampleDoc.info with title := utf16 "#" } }, .ok ())) ∧
    (titleRule (utf16 "") = true ∧
      sampleDoc.setTitle (.string (utf16 "")) = (sampleDoc, .error .TypeError)) := by
  decide

/-- C8, amended. `Document.setTitle(t)` succeeds and makes the title `t` when `t`
is not empty and holds none of the units `. / \ : * ? " < > |`, in particular for
every non-empty string obeying the title-character rule; it throws a TypeError
and leaves the document unchanged when `t` is empty or made of those units only. -/
theorem C8_setTitle_amended (d : Document) (t : JSString) :
    ((t ≠ [] ∧ ∀ c ∈ t, forbiddenUnit c = false) →
      d.setTitle (.string t) = ({ d with info := { d.info with title := t } }, .ok ())) ∧
    ((t ≠ [] ∧ titleRule t = true) →
      d.setTitle (.string t) = ({ d with info := { d.info with title := t } }, .ok ())) ∧
    ((∀ c ∈ t, forbiddenUnit c = true) →
      d.setTitle (.string t) = (d, .error .TypeError)) := by
  have key : (t ≠ [] ∧ ∀ c ∈ t, forbiddenUnit c = false) →
      d.setTitle (.string t) = ({ d with info := { d.info with title := t } }, .ok ()) := by
    rintro ⟨hne, hall⟩
    have : TITLE_REG_test t = true := by
      rw [TITLE_REG_test_iff]
      cases t with
      | nil => exact absurd rfl hne
      | cons c rest => exact ⟨c, List.mem_cons_self _ _, hall c (List.mem_cons_self _ _)⟩
    simp [Document.setTitle, this]
  refine ⟨key, ?_, ?_⟩
  · rintro ⟨hne, hrule⟩
    refine key ⟨hne, fun c hc => titleRuleUnit_not_forbidden c ?_⟩
    simp only [titleRule, List.all_eq_true] at hrule
    exact hrule c hc
  · intro hall
    have : TITLE_REG_test t = false := by
      rw [← Bool.not_eq_true, TITLE_REG_test_iff]
      rintro ⟨c, hc, hf⟩
      rw [hall c hc] at hf
      cases hf
    simp [Document.setTitle, this]

/-- C8 amended, on the titles `new title` (accepted) and `..` (rejected). -/
theorem C8_setTitle_amended_witness :
    sampleDoc.setTitle (.string (utf16 "new title"))
      = ({ sampleDoc with info := { sampleDoc.info with title := utf16 "new title" } },
          .ok ()) ∧
    sampleDoc.setTitle (.string (utf16 "..")) = (sampleDoc, .error .TypeError) :=
  ⟨(C8_setTitle_amended sampleDoc (utf16 "new title")).1 ⟨by decide, by decide⟩,
   (C8_setTitle_amended sampleDoc (utf16 "..")).2.2 (by decide)⟩

/-! ## The lending handle -/

/-- C9. On the Active handle of `F/a`, `setTitle("")` throws a TypeError: the
empty string passes `isUsableTitle`, and `Document.setTitle` rejects it. The same
happens for a title made of backslashes. -/
theorem C9_setTitle_empty_throws :
    Librarian.borrow sampleWorld (utf16 "F/a")
      = ({ sampleWorld with lib := { sampleWorld.lib with borrowed := [utf16 "F/a"] } },
          .ok (some sampleBook)) ∧
    isUsableTitle [] = true ∧
    Book.setTitle (Librarian.borrow sampleWorld (utf16 "F/a")).1 sampleBook (.string [])
      = ((Librarian.borrow sampleWorld (utf16 "F/a")).1, .error .TypeError) ∧
    Book.setTitle (Librarian.borrow sampleWorld (utf16 "F/a")).1 sampleBook (.string [92])
      = ((Librarian.borrow sampleWorld (utf16 "F/a")).1, .error .TypeError) := by
  decide

set_option maxRecDepth 100000 in
/-- C6. After `return()` has completed, `title`, `read`, `edit`, `return` and
`setTitle` of a usable title throw, but `setTitle` of an unusable title or of a
value that is no string returns `false`. -/
theorem C6_setTitle_after_return :
    returnedWorld.2 = .ok () ∧
    returnedWorld.1.2 = { doc := none, returnFn := none } ∧
    returnedWorld.1.1.lib.borrowed = [] ∧
    Book.title returnedWorld.1.1 returnedWorld.1.2 = .error .Error ∧
    (Book.read returnedWorld.1.1 returnedWorld.1.2).2 = .error .Error ∧
    (Book.edit returnedWorld.1.1 returnedWorld.1.2 (.string (utf16 "x")) (.string (utf16 "y"))).2
      = .error .Error ∧
    (Book.return sampleFormat 10 returnedWorld.1.1 returnedWorld.1.2).2 = .error .Error ∧
    (Book.setTitle returnedWorld.1.1 returnedWorld.1.2 (.string (utf16 "ok"))).2
      = .error .TypeError ∧
    Book.setTitle returnedWorld.1.1 returnedWorld.1.2 (.string (utf16 "#"))
      = (returnedWorld.1.1, .ok false) ∧
    Book.setTitle returnedWorld.1.1 returnedWorld.1.2 (.number 3)
      = (returnedWorld.1.1, .ok false) := by
  decide

set_option maxRecDepth 100000 in
/-- C5. A document is created and borrowed, and the handle is returned with no
call in between: `return()` throws a TypeError (`Document.save` reads
`content.length` of the `null` draft), the handle stays Active and the path stays
in the checkout set, so that the next `borrow` gives `null`. -/
theorem C5_return_without_edit_throws :
    (Librarian.createDocument emptyWorld (utf16 "a")).2 = .ok () ∧
    freshBorrowed.2 = .ok (some { doc := some 0, returnFn := some (utf16 "a") }) ∧
    (Book.return sampleFormat 9 freshBorrowed.1 { doc := some 0, returnFn := some (utf16 "a") })
      = ((freshBorrowed.1, { doc := some 0, returnFn := some (utf16 "a") }), .error .TypeError) ∧
    freshBorrowed.1.lib.borrowed = [utf16 "a"] ∧
    (Librarian.borrow freshBorrowed.1 (utf16 "a")).2 = .ok none := by
  decide

set_option maxRecDepth 100000 in
/-- C4. On the library opened on `sampleDisk`, `borrow("F/a")`, then
`rename("F", "G")`, then `borrow("G/a")`: both calls of `borrow` give a handle,
neither handle has been returned, and both are bound to the same document. -/
theorem C4_two_active_leases :
    Librarian.new { disk := sampleDisk, docs := [] } (some (utf16 "lib"))
      = (sampleWorld.store, .ok sampleWorld.lib) ∧
    (Librarian.borrow sampleWorld (utf16 "F/a")).2
      = .ok (some { doc := some 0, returnFn := some (utf16 "F/a") }) ∧
    renamedWorld.2 = .ok true ∧
    (Librarian.borrow renamedWorld.1 (utf16 "G/a")).2
      = .ok (some { doc := some 0, returnFn := some (utf16 "G/a") }) ∧
    (Librarian.borrow renamedWorld.1 (utf16 "G/a")).1.lib.borrowed
      = [utf16 "F/a", utf16 "G/a"] := by
  decide

/-! ## The catalog against the snapshot -/

theorem Branches.find_eq_none (b : Branches) (k : JSString) (h : k ∉ b.names) :
    b.find k = none := by
  induction b with
  | nil => rfl
  | doc title rest ih =>
    simp only [Branches.names, List.mem_cons, not_or] at h
    simp [Branches.find, Ne.symm h.1, ih h.2]
  | folder name sub rest _ ih =>
    simp only [Branches.names, List.mem_cons, not_or] at h
    simp [Branches.find, Ne.symm h.1, ih h.2]

/-- With distinct sibling names, the table owns exactly the names of the
snapshot: `true` for a document, the nested table for a folder. -/
theorem table_own_eq_find (b : Branches) (k : JSString) (hu : b.uniqueNames = true) :
    (treeToTable.set b).own? k =
      match b.find k with
      | none => none
      | some none => some .yes
      | some (some sub) => some (.object (treeToTable.set sub)) := by
  induction b with
  | nil => rfl
  | doc title rest ih =>
    simp only [Branches.uniqueNames, Bool.and_eq_true, Bool.not_eq_true',
      List.contains_eq_any_beq, List.any_eq_false, beq_iff_eq] at hu
    simp only [treeToTable.set, Table.own?, Branches.find]
    by_cases ht : title = k
    · subst ht
      have hn : title ∉ rest.names := fun hm => hu.1 title hm rfl
      have hf := Branches.find_eq_none rest title hn
      have := ih hu.2
      rw [hf] at this
      simp [this]
    · rw [ih hu.2]
      simp only [ht, if_false]
      cases rest.find k with
      | none => rfl
      | some v => cases v <;> rfl
  | folder name sub rest _ ih =>
    simp only [Branches.uniqueNames, Bool.and_eq_true, Bool.not_eq_true',
      List.contains_eq_any_beq, List.any_eq_false, beq_iff_eq] at hu
    simp only [treeToTable.set, Table.own?, Branches.find]
    by_cases ht : name = k
    · subst ht
      have hn : name ∉ rest.names := fun hm => hu.1.1 name hm rfl
      have hf := Branches.find_eq_none rest name hn
      have := ih hu.2
      rw [hf] at this
      simp [this]
    · rw [ih hu.2]
      simp only [ht, if_false]
      cases rest.find k with
      | none => rfl
      | some v => cases v <;> rfl

theorem Branches.uniqueNames_of_find (b : Branches) (k : JSString) (sub : Branches)
    (hu : b.uniqueNames = true) (h : b.find k = some (some sub)) : sub.uniqueNames = true := by
  induction b with
  | nil => simp [Branches.find] at h
  | doc title rest ih =>
    simp only [Branches.uniqueNames, Bool.and_eq_true] at hu
    simp only [Branches.find] at h
    by_cases ht : title = k
    · simp [ht] at h
    · simp only [ht, if_false] at h
      exact ih hu.2 h
  | folder name sub2 rest _ ih =>
    simp only [Branches.uniqueNames, Bool.and_eq_true] at hu
    simp only [Branches.find] at h
    by_cases ht : name = k
    · simp only [ht, if_true, Option.some.injEq] at h
      subst h
      exact hu.1.2
    · simp only [ht, if_false] at h
      exact ih hu.2 h

theorem inherited_PROTO : inherited PROTO = true := by decide

theorem ne_PROTO_of_not_inherited (k : JSString) (h : inherited k = false) : k ≠ PROTO := by
  intro e
  rw [e, inherited_PROTO] at h
  cases h

/-- What `exists` does get right: on the table of a snapshot with distinct sibling
names, for a request of at least one segment none of which is an inherited
property name, `exists` says `true` exactly when descending the snapshot reaches
a folder or a document title. -/
theorem existsSegs_eq_reaches (rest : List JSString) :
    ∀ (b : Branches) (k : JSString), b.uniqueNames = true →
      (∀ s ∈ k :: rest, inherited s = false) →
      existsSegs (treeToTable.set b) (k :: rest) = b.reaches (k :: rest) := by
  induction rest with
  | nil =>
    intro b k hu hin
    have hk : inherited k = false := hin k (List.mem_cons_self _ _)
    have hkp := ne_PROTO_of_not_inherited k hk
    simp only [existsSegs, Table.get, table_own_eq_find b k hu, Branches.reaches]
    cases b.find k with
    | none => simp [hk, hkp, existsLoop, TableValue.truthy]
    | some v => cases v <;> simp [existsLoop, TableValue.truthy, Branches.reaches]
  | cons k2 rest ih =>
    intro b k hu hin
    have hk : inherited k = false := hin k (List.mem_cons_self _ _)
    have hkp := ne_PROTO_of_not_inherited k hk
    have hrest : ∀ s ∈ k2 :: rest, inherited s = false :=
      fun s hs => hin s (List.mem_cons_of_mem _ hs)
    simp only [existsSegs, Table.get, table_own_eq_find b k hu, Branches.reaches]
    cases hf : b.find k with
    | none => simp [hk, hkp, existsLoop]
    | some v =>
      cases v with
      | none => simp [existsLoop]
      | some sub =>
        have hsub := Branches.uniqueNames_of_find b k sub hu hf
        have := ih sub k2 hsub hrest
        simp only [existsSegs] at this
        simp only [existsLoop]
        exact this

/-- C10. On the table of a library with no folder and no document, `exists`
says `true` for the path `constructor`, which the snapshot does not hold. -/
theorem C10_exists_inherited_name :
    Librarian.exists { emptyWorld.lib with table := treeToTable { name := utf16 "lib", branches := .nil } }
        (.str (utf16 "constructor")) = true ∧
    Branches.reaches .nil (Request.str (utf16 "constructor")).segments = false ∧
    Librarian.exists { emptyWorld.lib with table := treeToTable { name := utf16 "lib", branches := .nil } }
        (.arr [utf16 "valueOf"]) = true ∧
    Branches.reaches .nil (Request.arr [utf16 "valueOf"]).segments = false := by
  decide

/-! ## The catalog of a well-formed folder -/

theorem Contents.own?_mem_keys (c : Contents) (k : JSString) (v : Child)
    (h : c.own? k = some v) : k ∈ c.keys := by
  induction c with
  | nil => simp [Contents.own?] at h
  | doc key ref rest ih =>
    simp only [Contents.own?] at h
    simp only [Contents.keys, List.mem_cons]
    by_cases hk : key = k
    · exact Or.inl hk.symm
    · simp only [hk, if_false] at h
      exact Or.inr (ih h)
  | folder key path sub rest ih1 ih2 =>
    simp only [Contents.own?] at h
    simp only [Contents.keys, List.mem_cons]
    by_cases hk : key = k
    · exact Or.inl hk.symm
    · simp only [hk, if_false] at h
      exact Or.inr (ih2 h)

/-- In the table of a well-formed `$contents`, a key bound to a nested table is
the key of a sub-folder, and the nested table is the table of that sub-folder. -/
theorem table_object_of_wellFormed (docs : List Document) (c : Contents) (k : JSString)
    (t : Table) (hwf : c.wellFormed = true)
    (h : (treeToTable.set (Folder.branchesOf docs c)).own? k = some (.object t)) :
    ∃ path sub, c.own? k = some (.folder { path := path, contents := sub }) ∧
      t = treeToTable.set (Folder.branchesOf docs sub) ∧ sub.wellFormed = true := by
  induction c with
  | nil => simp [Folder.branchesOf, treeToTable.set, Table.own?] at h
  | doc key ref rest ih =>
    simp only [Contents.wellFormed, Bool.and_eq_true, Bool.not_eq_true',
      List.contains_eq_any_beq, List.any_eq_false, beq_iff_eq] at hwf
    simp only [Folder.branchesOf, treeToTable.set, Table.own?] at h
    cases hr : (treeToTable.set (Folder.branchesOf docs rest)).own? k with
    | none =>
      rw [hr] at h
      by_cases ht : Folder.titleOf docs ref = k <;> simp [ht] at h
    | some v =>
      rw [hr] at h
      simp only [Option.some.injEq] at h
      subst h
      obtain ⟨path, sub, h1, h2, h3⟩ := ih hwf.2 hr
      refine ⟨path, sub, ?_, h2, h3⟩
      simp only [Contents.own?]
      have hk : key ≠ k := by
        intro hk
        subst hk
        have hmem := Contents.own?_mem_keys rest key _ h1
        exact (hwf.1 key hmem) rfl
      simp [hk, h1]
  | folder key path sub rest ih1 ih2 =>
    simp only [Contents.wellFormed, Bool.and_eq_true, Bool.not_eq_true',
      List.contains_eq_any_beq, List.any_eq_false, beq_iff_eq, decide_eq_true_eq] at hwf
    obtain ⟨⟨⟨hnd, hname⟩, hsub⟩, hrest⟩ := hwf
    simp only [Folder.branchesOf, treeToTable.set, Table.own?] at h
    cases hr : (treeToTable.set (Folder.branchesOf docs rest)).own? k with
    | none =>
      rw [hr] at h
      by_cases hn : lastSegment path = k
      · simp only [hn, if_true, Option.some.injEq, TableValue.object.injEq] at h
        refine ⟨path, sub, ?_, h.symm, hsub⟩
        simp only [Contents.own?]
        rw [← hname, hn]
        simp
      · simp [hn] at h
    | some v =>
      rw [hr] at h
      simp only [Option.some.injEq] at h
      subst h
      obtain ⟨path2, sub2, h1, h2, h3⟩ := ih2 hrest hr
      refine ⟨path2, sub2, ?_, h2, h3⟩
      simp only [Contents.own?]
      have hk : key ≠ k := by
        intro hk
        subst hk
        have hmem := Contents.own?_mem_keys rest key _ h1
        exact (hnd key hmem) rfl
      simp [hk, h1]

theorem Table.get_object (t : Table) (k : JSString) (t2 : Table)
    (h : t.get k = .object t2) : t.own? k = some (.object t2) := by
  unfold Table.get at h
  cases ho : t.own? k with
  | some v => rw [ho] at h; simp only at h; rw [h]
  | none =>
    rw [ho] at h
    simp only at h
    by_cases hp : k = PROTO <;> by_cases hi : inherited k = true <;> simp [hp, hi] at h

/-- An own property of a table is `true` or a nested table. -/
theorem Table.own?_cases (t : Table) (k : JSString) (v : TableValue)
    (h : t.own? k = some v) : v = .yes ∨ ∃ t2, v = .object t2 := by
  induction t with
  | nil => simp [Table.own?] at h
  | doc key rest ih =>
    simp only [Table.own?] at h
    cases hr : rest.own? k with
    | some v2 =>
      rw [hr] at h
      simp only [Option.some.injEq] at h
      subst h
      exact ih hr
    | none =>
      rw [hr] at h
      by_cases hk : key = k
      · simp only [hk, if_true, Option.some.injEq] at h
        exact Or.inl h.symm
      · simp [hk] at h
  | folder key sub rest _ ih =>
    simp only [Table.own?] at h
    cases hr : rest.own? k with
    | some v2 =>
      rw [hr] at h
      simp only [Option.some.injEq] at h
      subst h
      exact ih hr
    | none =>
      rw [hr] at h
      by_cases hk : key = k
      · simp only [hk, if_true, Option.some.injEq] at h
        exact Or.inr ⟨sub, h.symm⟩
      · simp [hk] at h

/-- A table gives `Object.prototype` for the key `__proto__` only. -/
theorem Table.get_prototype (t : Table) (k : JSString) (h : t.get k = .prototype) :
    k = PROTO := by
  unfold Table.get at h
  cases ho : t.own? k with
  | some v =>
    rw [ho] at h
    simp only at h
    subst h
    rcases Table.own?_cases t k _ ho with h1 | ⟨t2, h1⟩ <;> cases h1
  | none =>
    rw [ho] at h
    simp only at h
    by_cases hp : k = PROTO
    · exact hp
    · by_cases hi : inherited k = true <;> simp [hp, hi] at h

/-- A table never gives `null`. -/
theorem Table.get_ne_null (t : Table) (k : JSString) : t.get k ≠ .null := by
  intro h
  unfold Table.get at h
  cases ho : t.own? k with
  | some v =>
    rw [ho] at h
    simp only at h
    subst h
    rcases Table.own?_cases t k _ ho with h1 | ⟨t2, h1⟩ <;> cases h1
  | none =>
    rw [ho] at h
    simp only at h
    by_cases hp : k = PROTO <;> by_cases hi : inherited k = true <;> simp [hp, hi] at h

/-- On a well-formed folder whose table is derived from its snapshot, a request
with no segment `__proto__` for which `exists` says `true` is one that `search`
resolves without throwing. -/
theorem search_ok_of_exists (docs : List Document) (rest : List JSString) :
    ∀ (c : Contents) (k : JSString), c.wellFormed = true → PROTO ∉ k :: rest →
      existsLoop ((treeToTable.set (Folder.branchesOf docs c)).get k) rest = true →
      ∃ v, Folder.searchSegs c (k :: rest) = .ok v := by
  induction rest with
  | nil => intro c k _ _ _; exact ⟨_, rfl⟩
  | cons k2 rest ih =>
    intro c k hwf hp h
    simp only [List.mem_cons, not_or] at hp
    cases hg : (treeToTable.set (Folder.branchesOf docs c)).get k with
    | undefined => rw [hg] at h; simp [existsLoop] at h
    | yes => rw [hg] at h; simp [existsLoop] at h
    | builtin => rw [hg] at h; simp [existsLoop] at h
    | null => exact absurd hg (Table.get_ne_null _ _)
    | prototype => exact absurd (Table.get_prototype _ _ hg).symm hp.1
    | object t =>
      rw [hg] at h
      simp only [existsLoop] at h
      obtain ⟨path, sub, h1, h2, h3⟩ :=
        table_object_of_wellFormed docs c k t hwf (Table.get_object _ _ _ hg)
      subst h2
      obtain ⟨v, hv⟩ := ih sub k2 h3 (by simp only [List.mem_cons, not_or]; exact hp.2) h
      refine ⟨v, ?_⟩
      simp only [Folder.searchSegs, Contents.get, h1]
      exact hv

theorem splitOn_ne_nil (s : JSString) : splitOn SLASH s ≠ [] := by
  have aux : ∀ (s cur : JSString), splitAux SLASH s cur ≠ [] := by
    intro s
    induction s with
    | nil => intro cur; simp [splitAux]
    | cons c rest ih =>
      intro cur
      simp only [splitAux]
      split
      · simp
      · exact ih _
  exact aux s []

/-- A request in the checkout set is refused, whatever the state of the library. -/
theorem borrow_borrowed (w : World) (p : JSString) (h : p ∈ w.lib.borrowed) :
    Librarian.borrow w p = (w, .ok none) := by
  unfold Librarian.borrow
  by_cases he : w.lib.exists (.str p) = true
  · simp [he, Librarian.isFree, h]
  · simp [he]

set_option maxRecDepth 100000 in
/-- C3, as stated, fails: on the library opened on `twoFolderDisk`,
`rename("F", "G/H")` succeeds and leaves the folder stored under the key `G/H`
with the name `H`; then `exists("H/a")` holds, `search("H/a")` throws, and
`borrow("H/a")` throws a TypeError instead of giving `null`. -/
theorem C3_counterexample :
    Librarian.new { disk := twoFolderDisk, docs := [] } (some (utf16 "lib"))
      = (twoFolderWorld.store, .ok twoFolderWorld.lib) ∧
    movedWorld.2 = .ok true ∧
    movedWorld.1.lib.exists (.str (utf16 "H/a")) = true ∧
    Folder.search movedWorld.1.lib.db (utf16 "H/a") = .error .TypeError ∧
    Librarian.borrow movedWorld.1 (utf16 "H/a") = (movedWorld.1, .error .TypeError) := by
  decide

/-- C3, amended. On a library in which every sub-folder is stored under the last
segment of its own path, nothing is stored under the key `__proto__`, and the
catalog is the table of the current snapshot, and for a path `p` none of whose
segments is `__proto__`: `borrow(p)` gives `null` and changes nothing unless
`exists(p)` holds, `search(p)` gives a Document and `p` is not in the checkout
set; when the three hold it gives a handle bound to that Document and to `p` and
adds `p` to the checkout set, and nothing else changes; and as long as `p` is in
the checkout set, `borrow(p)` gives `null`. (Through a segment `__proto__` the
catalog reaches `Object.prototype`, where `exists` and `search` part ways on any
library.) -/
theorem C3_borrow (w : World) (p : JSString)
    (htree : w.lib.db.contents.wellFormed = true ∧ w.lib.db.contents.noProtoKey = true)
    (hsync : w.lib.table = treeToTable (Folder.tree w.store.docs w.lib.db))
    (hp : PROTO ∉ splitOn SLASH p) :
    (¬ (w.lib.exists (.str p) = true ∧ (∃ ref, Folder.search w.lib.db p = .ok (.doc ref))
          ∧ p ∉ w.lib.borrowed) →
      Librarian.borrow w p = (w, .ok none)) ∧
    (∀ ref, w.lib.exists (.str p) = true → Folder.search w.lib.db p = .ok (.doc ref) →
        p ∉ w.lib.borrowed →
      Librarian.borrow w p
        = ({ w with lib := { w.lib with borrowed := w.lib.borrowed ++ [p] } },
            .ok (some { doc := some ref, returnFn := some p })) ∧
      Librarian.borrow (Librarian.borrow w p).1 p = ((Librarian.borrow w p).1, .ok none)) ∧
    (∀ w2 : World, p ∈ w2.lib.borrowed → Librarian.borrow w2 p = (w2, .ok none)) := by
  have hwf := htree.1
  refine ⟨?_, ?_, fun w2 h => borrow_borrowed w2 p h⟩
  · intro hnot
    by_cases he : w.lib.exists (.str p) = true
    · by_cases hb : p ∈ w.lib.borrowed
      · exact borrow_borrowed w p hb
      · -- `search` does not throw
        have hsearch : ∃ v, Folder.search w.lib.db p = .ok v := by
          have he2 := he
          simp only [Librarian.exists, Request.segments, existsSegs, hsync, treeToTable,
            Folder.tree] at he2
          unfold Folder.search
          cases hs : splitOn SLASH p with
          | nil => exact absurd hs (splitOn_ne_nil p)
          | cons k rest =>
            rw [hs] at he2 hp
            exact search_ok_of_exists w.store.docs rest w.lib.db.contents k hwf hp he2
        obtain ⟨v, hv⟩ := hsearch
        cases v with
        | doc ref => exact absurd ⟨he, ⟨ref, hv⟩, hb⟩ hnot
        | undefined => simp [Librarian.borrow, he, Librarian.isFree, hb, hv]
        | builtin => simp [Librarian.borrow, he, Librarian.isFree, hb, hv]
        | folder f => simp [Librarian.borrow, he, Librarian.isFree, hb, hv]
    · simp [Librarian.borrow, he]
  · intro ref he hs hb
    have h1 : Librarian.borrow w p
        = ({ w with lib := { w.lib with borrowed := w.lib.borrowed ++ [p] } },
            .ok (some { doc := some ref, returnFn := some p })) := by
      simp [Librarian.borrow, he, Librarian.isFree, hb, hs]
    refine ⟨h1, ?_⟩
    apply borrow_borrowed
    rw [h1]
    simp

set_option maxRecDepth 100000 in
/-- C3 on the library opened on `sampleDisk`: `borrow("F/a")` gives a handle,
`borrow("F")` (a folder) and `borrow("F/b")` (absent) give `null`. -/
theorem C3_borrow_witness :
    (Librarian.borrow sampleWorld (utf16 "F/a")
        = ({ sampleWorld with
              lib := { sampleWorld.lib with borrowed := sampleWorld.lib.borrowed ++ [utf16 "F/a"] } },
            .ok (some { doc := some 0, returnFn := some (utf16 "F/a") })) ∧
      Librarian.borrow (Librarian.borrow sampleWorld (utf16 "F/a")).1 (utf16 "F/a")
        = ((Librarian.borrow sampleWorld (utf16 "F/a")).1, .ok none)) ∧
    Librarian.borrow sampleWorld (utf16 "F") = (sampleWorld, .ok none) ∧
    Librarian.borrow sampleWorld (utf16 "F/b") = (sampleWorld, .ok none) :=
  ⟨(C3_borrow sampleWorld (utf16 "F/a") (by decide) (by decide) (by decide)).2.1 0
      (by decide) (by decide) (by decide),
   (C3_borrow sampleWorld (utf16 "F") (by decide) (by decide) (by decide)).1
      (fun h => h.2.1.elim fun ref hr =>
        absurd (hr.symm.trans (by decide :
          Folder.search sampleWorld.lib.db (utf16 "F")
            = .ok (.folder { path := utf16 "lib/F", contents := .doc (utf16 "a") 0 .nil })))
          (by simp)),
   (C3_borrow sampleWorld (utf16 "F/b") (by decide) (by decide) (by decide)).1
      (fun h => absurd h.1 (by decide))⟩

set_option maxRecDepth 100000 in
/-- Through the segment `__proto__` the catalog reaches `Object.prototype`: on
the library opened on `sampleDisk`, which meets the conditions on the tree and
the catalog, `exists("__proto__/constructor")` holds, `search` of that path
throws (`$contents["__proto__"]` is no Folder), and so does `borrow`;
`exists("__proto__")` holds and `exists("__proto__/__proto__")` does not. -/
theorem borrow_through_prototype :
    (sampleWorld.lib.db.contents.wellFormed = true ∧
      sampleWorld.lib.db.contents.noProtoKey = true) ∧
    sampleWorld.lib.table = treeToTable (Folder.tree sampleWorld.store.docs sampleWorld.lib.db) ∧
    sampleWorld.lib.exists (.str (utf16 "__proto__/constructor")) = true ∧
    Folder.search sampleWorld.lib.db (utf16 "__proto__/constructor") = .error .TypeError ∧
    Librarian.borrow sampleWorld (utf16 "__proto__/constructor")
      = (sampleWorld, .error .TypeError) ∧
    sampleWorld.lib.exists (.str (utf16 "__proto__")) = true ∧
    sampleWorld.lib.exists (.str (utf16 "__proto__/__proto__")) = false := by
  decide

/-! ## Storage: what a write keeps -/

theorem Disk.lookup_put_same (d : Disk) (p : JSString) (n : Node) :
    Disk.lookup (Disk.put d p n) p = some n := by
  induction d with
  | nil => simp [Disk.put, Disk.lookup]
  | cons e rest ih =>
    obtain ⟨k, m⟩ := e
    by_cases hk : k = p
    · simp [Disk.put, Disk.lookup, hk]
    · simp [Disk.put, Disk.lookup, hk, ih]

theorem Disk.lookup_put_ne (d : Disk) (p q : JSString) (n : Node) (h : q ≠ p) :
    Disk.lookup (Disk.put d p n) q = Disk.lookup d q := by
  induction d with
  | nil => simp [Disk.put, Disk.lookup, Ne.symm h]
  | cons e rest ih =>
    obtain ⟨k, m⟩ := e
    by_cases hk : k = p
    · subst hk
      simp [Disk.put, Disk.lookup, Ne.symm h]
    · by_cases hq : k = q
      · subst hq
        simp [Disk.put, Disk.lookup, hk]
      · simp [Disk.put, Disk.lookup, hk, hq, ih]

theorem Disk.lookup_mkdirs_of_some (p q : JSString) (x : Node) :
    ∀ d : Disk, Disk.lookup d q = some x → Disk.lookup (Disk.mkdirs d p) q = some x := by
  unfold Disk.mkdirs
  generalize Disk.ancestors p = as
  induction as with
  | nil => intro d h; simpa using h
  | cons a rest ih =>
    intro d h
    simp only [List.foldl_cons]
    apply ih
    by_cases he : Disk.pathExists d a = true
    · simp [he, h]
    · have hne : q ≠ a := by
        intro hqa
        subst hqa
        simp [Disk.pathExists, h] at he
      simp only [he]
      rw [if_neg (by simp), Disk.lookup_put_ne _ _ _ _ hne]
      exact h

theorem Disk.lookup_writeFile_same (d : Disk) (p : JSString) (n : Node) :
    Disk.lookup (Disk.writeFile d p n) p = some n := by
  simp [Disk.writeFile, Disk.lookup_put_same]

theorem Disk.lookup_writeFile_of_some (d : Disk) (p q : JSString) (n x : Node)
    (hne : q ≠ p) (h : Disk.lookup d q = some x) :
    Disk.lookup (Disk.writeFile d p n) q = some x := by
  unfold Disk.writeFile
  rw [Disk.lookup_put_ne _ _ _ _ hne]
  exact Disk.lookup_mkdirs_of_some _ _ _ _ h

/-! ## Snapshot files -/

theorem lastFive_append (x s : JSString) (h : 5 ≤ s.length) :
    lastFive (x ++ s) = lastFive s := by
  unfold lastFive
  rw [List.reverse_append, List.take_append_of_le_length (by simpa using h)]


theorem save_commit (fmt : Nat → JSString) (s : Disk × Document) (x : WriteSave)
    (hne : x.content ≠ EMPTY_TEXT) :
    Document.save fmt x.now s.1 (s.2.write (.string x.content) (.string x.author)).1
      = (((Disk.writeFile
            (Disk.writeFile (Disk.writeFile s.1 (snapshotPath fmt s.2.path x) (.text x.content))
              s.2.infoPath
              (.json (Info.toJson ⟨s.2.info.title, some x.author,
                s.2.info.log ++ [commitEntry s.2.info.log x]⟩)))
            s.2.content.path (.text x.content)),
          ⟨s.2.path, s.2.infoPath,
            ⟨s.2.info.title, some x.author, s.2.info.log ++ [commitEntry s.2.info.log x]⟩,
            ⟨s.2.content.path, some EMPTY_TEXT⟩⟩),
         .ok true) := by
  have h1 : ¬ (some x.content = some EMPTY_TEXT) := fun h => hne (Option.some.inj h)
  simp [Document.save, Document.write, File.read, File.write, File.save, generateLogFilePath,
    h1, snapshotPath, commitEntry]

theorem save_sentinel (fmt : Nat → JSString) (s : Disk × Document) (x : WriteSave)
    (he : x.content = EMPTY_TEXT) :
    Document.save fmt x.now s.1 (s.2.write (.string x.content) (.string x.author)).1
      = ((s.1, ⟨s.2.path, s.2.infoPath, ⟨s.2.info.title, some x.author, s.2.info.log⟩,
                ⟨s.2.content.path, some EMPTY_TEXT⟩⟩),
         .ok false) := by
  simp [Document.save, Document.write, File.read, File.write, he]

/-- A snapshot file is never the file `info.json` of a document. -/
theorem snapshotPath_ne_info (fmt : Nat → JSString) (path p0 : JSString) (x : WriteSave) :
    snapshotPath fmt path x ≠ p0 ++ SLASH :: INFO_FILE := by
  intro h
  have h1 := congrArg lastFive h
  unfold snapshotPath at h1
  rw [lastFive_append _ (utf16 ").txt") (by decide),
    show p0 ++ SLASH :: INFO_FILE = p0 ++ (SLASH :: INFO_FILE) from rfl,
    lastFive_append _ (SLASH :: INFO_FILE) (by decide)] at h1
  revert h1
  decide

/-- A snapshot file is never the file `content.txt` of a document. -/
theorem snapshotPath_ne_content (fmt : Nat → JSString) (path p0 : JSString) (x : WriteSave) :
    snapshotPath fmt path x ≠ p0 ++ SLASH :: CONTENT_FILE := by
  intro h
  have h1 := congrArg lastFive h
  unfold snapshotPath at h1
  rw [lastFive_append _ (utf16 ").txt") (by decide),
    show p0 ++ SLASH :: CONTENT_FILE = p0 ++ (SLASH :: CONTENT_FILE) from rfl,
    lastFive_append _ (SLASH :: CONTENT_FILE) (by decide)] at h1
  revert h1
  decide

theorem generateLogFilePath_commitEntry (fmt : Nat → JSString) (path : JSString)
    (log : List LogEntry) (x : WriteSave) :
    generateLogFilePath fmt path (commitEntry log x).author (commitEntry log x).date
      = .ok (snapshotPath fmt path x) := by
  simp [generateLogFilePath, commitEntry, snapshotPath]

theorem arrayAt_neg_one_append {α : Type} (l : List α) (e : α) :
    arrayAt (l ++ [e]) (-(0 + 1)) = some e := by
  unfold arrayAt
  have h1 : (-(0 + 1) : Int) < 0 := by decide
  have h2 : (0 : Int) ≤ ((l ++ [e]).length : Int) + -(0 + 1) := by
    simp only [List.length_append, List.length_singleton]; omega
  have h3 : (((l ++ [e]).length : Int) + -(0 + 1)).toNat = l.length := by
    simp only [List.length_append, List.length_singleton]; omega
  rw [if_pos h1, if_pos h2, h3]
  simp

/-- C17. For a document whose files `$info` and `$content` are `info.json` and
`content.txt` of one directory, as the constructor builds them: after
`write(c, a)` with `c` other than the sentinel, `save()` returns `true` and then
`reminisce(0)` returns exactly `c`. -/
theorem C17_reminisce_latest (fmt : Nat → JSString) (disk : Disk) (d : Document)
    (p0 c a : JSString) (now : Nat)
    (hinfo : d.infoPath = p0 ++ SLASH :: INFO_FILE)
    (hcontent : d.content.path = p0 ++ SLASH :: CONTENT_FILE)
    (hne : c ≠ EMPTY_TEXT) :
    (Document.save fmt now disk (d.write (.string c) (.string a)).1).2 = .ok true ∧
    Document.reminisce fmt
        (Document.save fmt now disk (d.write (.string c) (.string a)).1).1.1
        (Document.save fmt now disk (d.write (.string c) (.string a)).1).1.2 0
      = .ok (some c) := by
  have hs := save_commit fmt (disk, d) ⟨c, a, now⟩ hne
  simp only at hs
  rw [hs]
  refine ⟨rfl, ?_⟩
  have hin : inLog (d.info.log ++ [commitEntry d.info.log ⟨c, a, now⟩]) 0 = true := by
    simp [inLog]
  simp only [Document.reminisce, hin, if_true, arrayAt_neg_one_append,
    generateLogFilePath_commitEntry, FileStream.read]
  have h1 : snapshotPath fmt d.path ⟨c, a, now⟩ ≠ d.infoPath := by
    rw [hinfo]; exact snapshotPath_ne_info _ _ _ _
  have h2 : snapshotPath fmt d.path ⟨c, a, now⟩ ≠ d.content.path := by
    rw [hcontent]; exact snapshotPath_ne_content _ _ _ _
  rw [Disk.lookup_writeFile_of_some _ _ _ _ (.text c) h2
    (Disk.lookup_writeFile_of_some _ _ _ _ (.text c) h1 (Disk.lookup_writeFile_same _ _ _))]
  rfl

/-- C17 on a new document: `write("hello", "kim")`, `save()`, `reminisce(0)`. -/
theorem C17_reminisce_latest_witness :
    (Document.save sampleFormat 7 []
        (sampleDoc.write (.string (utf16 "hello")) (.string (utf16 "kim"))).1).2 = .ok true ∧
    Document.reminisce sampleFormat
        (Document.save sampleFormat 7 []
          (sampleDoc.write (.string (utf16 "hello")) (.string (utf16 "kim"))).1).1.1
        (Document.save sampleFormat 7 []
          (sampleDoc.write (.string (utf16 "hello")) (.string (utf16 "kim"))).1).1.2 0
      = .ok (some (utf16 "hello")) :=
  C17_reminisce_latest sampleFormat [] sampleDoc (utf16 "lib/doc") (utf16 "hello") (utf16 "kim") 7
    (by decide) (by decide) (by decide)

/-! ## The snapshots of a run -/

theorem writeSaveAll_cons_fst (fmt : Nat → JSString) (s : Disk × Document) (x : WriteSave)
    (rest : List WriteSave) :
    (writeSaveAll fmt s (x :: rest)).1
      = (writeSaveAll fmt
          (Document.save fmt x.now s.1 (s.2.write (.string x.content) (.string x.author)).1).1
          rest).1 := rfl

theorem committed_cons_of_ne (x : WriteSave) (rest : List WriteSave)
    (h : x.content ≠ EMPTY_TEXT) : committed (x :: rest) = x :: committed rest := by
  simp [committed, h]

theorem committed_cons_of_eq (x : WriteSave) (rest : List WriteSave)
    (h : x.content = EMPTY_TEXT) : committed (x :: rest) = committed rest := by
  simp [committed, h]

/-- A run leaves the path of the document and the paths of its two files alone. -/
theorem writeSaveAll_paths (fmt : Nat → JSString) (steps : List WriteSave) :
    ∀ s : Disk × Document,
      (writeSaveAll fmt s steps).1.2.path = s.2.path ∧
      (writeSaveAll fmt s steps).1.2.infoPath = s.2.infoPath ∧
      (writeSaveAll fmt s steps).1.2.content.path = s.2.content.path := by
  induction steps with
  | nil => intro s; simp [writeSaveAll]
  | cons x rest ih =>
    intro s
    rw [writeSaveAll_cons_fst]
    by_cases hx : x.content = EMPTY_TEXT
    · rw [save_sentinel fmt s x hx]
      exact ih _
    · rw [save_commit fmt s x hx]
      exact ih _

/-- The authors and dates recorded by a run: one entry per committed step. -/
theorem writeSaveAll_keys (fmt : Nat → JSString) (steps : List WriteSave) :
    ∀ s : Disk × Document,
      (writeSaveAll fmt s steps).1.2.info.log.map (fun e => (e.author, e.date))
        = s.2.info.log.map (fun e => (e.author, e.date))
          ++ (committed steps).map (fun x => (some x.author, x.now)) := by
  induction steps with
  | nil => intro s; simp [writeSaveAll, committed]
  | cons x rest ih =>
    intro s
    rw [writeSaveAll_cons_fst]
    by_cases hx : x.content = EMPTY_TEXT
    · rw [save_sentinel fmt s x hx, committed_cons_of_eq x rest hx, ih]
    · rw [save_commit fmt s x hx, committed_cons_of_ne x rest hx, ih]
      simp [commitEntry]

/-- A run keeps what storage holds at a path that is no snapshot of the run and
neither of the two files of the document. -/
theorem writeSaveAll_keeps (fmt : Nat → JSString) (p : JSString) (n : Node)
    (steps : List WriteSave) :
    ∀ s : Disk × Document, Disk.lookup s.1 p = some n →
      p ∉ (committed steps).map (snapshotPath fmt s.2.path) →
      p ≠ s.2.infoPath → p ≠ s.2.content.path →
      Disk.lookup (writeSaveAll fmt s steps).1.1 p = some n := by
  induction steps with
  | nil => intro s h _ _ _; simpa [writeSaveAll] using h
  | cons x rest ih =>
    intro s h hp hi hc
    rw [writeSaveAll_cons_fst]
    by_cases hx : x.content = EMPTY_TEXT
    · rw [save_sentinel fmt s x hx]
      rw [committed_cons_of_eq x rest hx] at hp
      exact ih _ h hp hi hc
    · rw [save_commit fmt s x hx]
      rw [committed_cons_of_ne x rest hx] at hp
      simp only [List.map_cons, List.mem_cons, not_or] at hp
      refine ih _ ?_ hp.2 hi hc
      exact Disk.lookup_writeFile_of_some _ _ _ _ _ hc
        (Disk.lookup_writeFile_of_some _ _ _ _ _ hi
          (Disk.lookup_writeFile_of_some _ _ _ _ _ hp.1 h))

/-- After a run whose committed steps have distinct snapshot files, the snapshot
file of every committed step holds the content of that step. -/
theorem writeSaveAll_snapshots (fmt : Nat → JSString) (p0 : JSString)
    (steps : List WriteSave) :
    ∀ s : Disk × Document,
      s.2.infoPath = p0 ++ SLASH :: INFO_FILE →
      s.2.content.path = p0 ++ SLASH :: CONTENT_FILE →
      ((committed steps).map (snapshotPath fmt s.2.path)).Nodup →
      ∀ x ∈ committed steps,
        Disk.lookup (writeSaveAll fmt s steps).1.1 (snapshotPath fmt s.2.path x)
          = some (.text x.content) := by
  induction steps with
  | nil => intro s _ _ _ x hx; simp [committed] at hx
  | cons y rest ih =>
    intro s hi hc hnd x hx
    rw [writeSaveAll_cons_fst]
    by_cases hy : y.content = EMPTY_TEXT
    · rw [save_sentinel fmt s y hy]
      rw [committed_cons_of_eq y rest hy] at hnd hx
      exact ih _ (by exact hi) (by exact hc) (by exact hnd) x hx
    · rw [save_commit fmt s y hy]
      rw [committed_cons_of_ne y rest hy] at hnd hx
      simp only [List.map_cons, List.nodup_cons] at hnd
      rcases List.mem_cons.mp hx with hxy | hxr
      · subst hxy
        refine writeSaveAll_keeps fmt _ _ rest _ ?_ hnd.1 ?_ ?_
        · have h1 : snapshotPath fmt s.2.path x ≠ s.2.infoPath := by
            rw [hi]; exact snapshotPath_ne_info _ _ _ _
          have h2 : snapshotPath fmt s.2.path x ≠ s.2.content.path := by
            rw [hc]; exact snapshotPath_ne_content _ _ _ _
          exact Disk.lookup_writeFile_of_some _ _ _ _ _ h2
            (Disk.lookup_writeFile_of_some _ _ _ _ _ h1 (Disk.lookup_writeFile_same _ _ _))
        · rw [hi]; exact snapshotPath_ne_info _ _ _ _
        · rw [hc]; exact snapshotPath_ne_content _ _ _ _
      · exact ih _ (by exact hi) (by exact hc) (by exact hnd.2) x hxr

theorem arrayAt_neg_succ {α : Type} (l : List α) (id : Nat) (h : id < l.length) :
    arrayAt l (-((id : Int) + 1)) = l[l.length - 1 - id]? := by
  unfold arrayAt
  have h1 : (-((id : Int) + 1)) < 0 := by omega
  have h2 : (0 : Int) ≤ (l.length : Int) + -((id : Int) + 1) := by omega
  have h3 : ((l.length : Int) + -((id : Int) + 1)).toNat = l.length - 1 - id := by omega
  rw [if_pos h1, if_pos h2, h3]

/-- C18, as stated, fails: two saves by one author within one second share one
snapshot file, so after `write("first"); save(); write("second"); save()` the log
has two entries and `reminisce(1)` returns `second`, not `first`. -/
theorem C18_counterexample :
    twoSaves.2 = [.ok true, .ok true] ∧
    twoSaves.1.2.info.log.length = 2 ∧
    Document.reminisce secondsFormat twoSaves.1.1 twoSaves.1.2 0 = .ok (some (utf16 "second")) ∧
    Document.reminisce secondsFormat twoSaves.1.1 twoSaves.1.2 1 = .ok (some (utf16 "second")) ∧
    snapshotPath secondsFormat sampleDoc.path ⟨utf16 "first", utf16 "kim", 5000⟩
      = snapshotPath secondsFormat sampleDoc.path ⟨utf16 "second", utf16 "kim", 5400⟩ := by
  decide

/-- C18, amended. For a document built by the constructor, starting from an empty
log, and a run of `write`/`save` steps in which no two committed saves produce
the same snapshot file name: the log holds one entry per committed save, for
every `id` with `0 <= id <` log length `reminisce(id)` returns the content
committed by the `(id+1)`-th most recent save, and for every integer `id` outside
that range it returns `null`. -/
theorem C18_reminisce_amended (fmt : Nat → JSString) (disk : Disk) (d : Document)
    (p0 : JSString) (steps : List WriteSave)
    (hlog : d.info.log = [])
    (hinfo : d.infoPath = p0 ++ SLASH :: INFO_FILE)
    (hcontent : d.content.path = p0 ++ SLASH :: CONTENT_FILE)
    (hnd : ((committed steps).map (snapshotPath fmt d.path)).Nodup) :
    (writeSaveAll fmt (disk, d) steps).1.2.info.log.length = (committed steps).length ∧
    (∀ id : Nat, id < (committed steps).length →
      ∃ x, (committed steps).reverse[id]? = some x ∧
        Document.reminisce fmt (writeSaveAll fmt (disk, d) steps).1.1
          (writeSaveAll fmt (disk, d) steps).1.2 (id : Int) = .ok (some x.content)) ∧
    (∀ id : Int, (id < 0 ∨ ((committed steps).length : Int) ≤ id) →
      Document.reminisce fmt (writeSaveAll fmt (disk, d) steps).1.1
        (writeSaveAll fmt (disk, d) steps).1.2 id = .ok none) := by
  have hkeys := writeSaveAll_keys fmt steps (disk, d)
  simp only [hlog, List.map_nil, List.nil_append] at hkeys
  have hlen : (writeSaveAll fmt (disk, d) steps).1.2.info.log.length
      = (committed steps).length := by
    have := congrArg List.length hkeys
    simpa using this
  have hpath := (writeSaveAll_paths fmt steps (disk, d)).1
  refine ⟨hlen, ?_, ?_⟩
  · intro id hid
    have hi : (committed steps).length - 1 - id < (committed steps).length := by omega
    refine ⟨(committed steps)[(committed steps).length - 1 - id], ?_, ?_⟩
    · rw [List.getElem?_reverse hid, List.getElem?_eq_getElem hi]
    · have hin : inLog (writeSaveAll fmt (disk, d) steps).1.2.info.log (id : Int) = true := by
        simp only [inLog, Bool.and_eq_true, decide_eq_true_eq, hlen]
        omega
      have hi2 : (committed steps).length - 1 - id
          < (writeSaveAll fmt (disk, d) steps).1.2.info.log.length := by omega
      have hk := congrArg (fun l => l[(committed steps).length - 1 - id]?) hkeys
      simp only [List.getElem?_map, List.getElem?_eq_getElem hi, List.getElem?_eq_getElem hi2,
        Option.map_some', Option.some.injEq, Prod.mk.injEq] at hk
      have hat : arrayAt (writeSaveAll fmt (disk, d) steps).1.2.info.log (-((id : Int) + 1))
          = some ((writeSaveAll fmt (disk, d) steps).1.2.info.log[(committed steps).length - 1 - id]) := by
        rw [arrayAt_neg_succ _ id (by omega), hlen, List.getElem?_eq_getElem hi2]
      simp only [Document.reminisce, hin, if_true, hat, hk.1, hk.2, hpath, generateLogFilePath,
        FileStream.read]
      have hsnap := writeSaveAll_snapshots fmt p0 steps (disk, d) hinfo hcontent hnd
        ((committed steps)[(committed steps).length - 1 - id]) (List.getElem_mem _)
      simp only [snapshotPath] at hsnap
      rw [hsnap]
      rfl
  · intro id hid
    have hin : inLog (writeSaveAll fmt (disk, d) steps).1.2.info.log id = false := by
      simp only [inLog, hlen, Bool.and_eq_false_iff, decide_eq_false_iff_not]
      omega
    simp [Document.reminisce, hin]

/-- C18 amended, on two saves one second apart: `reminisce(0)` gives the second
content and `reminisce(1)` the first. -/
theorem C18_reminisce_amended_witness :
    Document.reminisce secondsFormat
        (writeSaveAll secondsFormat ([], sampleDoc)
          [⟨utf16 "first", utf16 "kim", 5000⟩, ⟨utf16 "second", utf16 "kim", 6000⟩]).1.1
        (writeSaveAll secondsFormat ([], sampleDoc)
          [⟨utf16 "first", utf16 "kim", 5000⟩, ⟨utf16 "second", utf16 "kim", 6000⟩]).1.2
        (-1) = .ok none ∧
    Document.reminisce secondsFormat
        (writeSaveAll secondsFormat ([], sampleDoc)
          [⟨utf16 "first", utf16 "kim", 5000⟩, ⟨utf16 "second", utf16 "kim", 6000⟩]).1.1
        (writeSaveAll secondsFormat ([], sampleDoc)
          [⟨utf16 "first", utf16 "kim", 5000⟩, ⟨utf16 "second", utf16 "kim", 6000⟩]).1.2
        1 = .ok (some (utf16 "first")) :=
  ⟨(C18_reminisce_amended secondsFormat [] sampleDoc (utf16 "lib/doc")
      [⟨utf16 "first", utf16 "kim", 5000⟩, ⟨utf16 "second", utf16 "kim", 6000⟩]
      (by decide) (by decide) (by decide) (by decide)).2.2 (-1) (Or.inl (by decide)),
   by decide⟩

/-! ## Removing a log entry; the confirmation codes -/

/-- C19. For a document whose log entries each carry an author, as the entries
written by `save` do, and an integer `id`: if `0 <= id < n`, `removeLog(id)`
returns `true` and the log becomes the old log without the entry at position
`n-1-id`, the other entries in their order; otherwise it returns `false` and
neither the document nor storage changes. -/
theorem C19_removeLog (fmt : Nat → JSString) (disk : Disk) (d : Document) (id : Int)
    (hauthor : ∀ e ∈ d.info.log, e.author ≠ none) :
    ((0 ≤ id ∧ id < d.info.log.length) →
      (Document.removeLog fmt disk d id).2 = .ok true ∧
      (Document.removeLog fmt disk d id).1.2.info.log
        = d.info.log.eraseIdx (d.info.log.length - 1 - id.toNat)) ∧
    (¬ (0 ≤ id ∧ id < d.info.log.length) →
      Document.removeLog fmt disk d id = ((disk, d), .ok false)) := by
  constructor
  · rintro ⟨h0, h1⟩
    have hin : inLog d.info.log id = true := by
      simp [inLog, h0, h1]
    obtain ⟨k, rfl⟩ := Int.eq_ofNat_of_zero_le h0
    have hk : k < d.info.log.length := by omega
    have hi : d.info.log.length - 1 - k < d.info.log.length := by omega
    have hat : arrayAt d.info.log (-((k : Int) + 1)) = some (d.info.log[d.info.log.length - 1 - k]) := by
      rw [arrayAt_neg_succ _ k hk, List.getElem?_eq_getElem hi]
    have hsp : spliceOne d.info.log (-((k : Int) + 1))
        = d.info.log.eraseIdx (d.info.log.length - 1 - k) := by
      unfold spliceOne
      have h1 : (-((k : Int) + 1)) < 0 := by omega
      have h3 : (max ((d.info.log.length : Int) + -((k : Int) + 1)) 0).toNat
          = d.info.log.length - 1 - k := by omega
      rw [if_pos h1, h3]
    have hmem : d.info.log[d.info.log.length - 1 - k] ∈ d.info.log := List.getElem_mem _
    have ha := hauthor _ hmem
    cases hau : (d.info.log[d.info.log.length - 1 - k]).author with
    | none => exact absurd hau ha
    | some a =>
      simp only [Document.removeLog, hin, if_true, hat, hsp, generateLogFilePath, hau]
      exact ⟨trivial, by simp⟩
  · intro h
    have hin : inLog d.info.log id = false := by
      simp only [inLog, Bool.and_eq_false_iff, decide_eq_false_iff_not]
      by_cases h0 : 0 ≤ id
      · right; intro h1; exact h ⟨h0, h1⟩
      · left; exact h0
    simp [Document.removeLog, hin]

/-- C19 on the log of `twoSaves`: `removeLog(0)` removes the newer entry,
`removeLog(2)` removes nothing. -/
theorem C19_removeLog_witness :
    ((Document.removeLog secondsFormat twoSaves.1.1 twoSaves.1.2 0).2 = .ok true ∧
      (Document.removeLog secondsFormat twoSaves.1.1 twoSaves.1.2 0).1.2.info.log
        = twoSaves.1.2.info.log.eraseIdx (twoSaves.1.2.info.log.length - 1 - (0 : Int).toNat)) ∧
    Document.removeLog secondsFormat twoSaves.1.1 twoSaves.1.2 2
      = ((twoSaves.1.1, twoSaves.1.2), .ok false) :=
  ⟨(C19_removeLog secondsFormat twoSaves.1.1 twoSaves.1.2 0 (by decide)).1 (by decide),
   (C19_removeLog secondsFormat twoSaves.1.1 twoSaves.1.2 2 (by decide)).2 (by decide)⟩

/-- C16. With any value other than the code of the operation itself, the code of
another class and `undefined` included, `Document.deleteAll`, `Folder.delete` and
`burn` return `false` without throwing and change nothing: not the document, not
the folder tree, not the library, not storage. -/
theorem C16_wrong_code (fmt : Nat → JSString) (disk : Disk) (d : Document) (st : Store)
    (f : Folder) (w : World) (req : Option Request) (code : Code) :
    (code ≠ .documentDelete →
      Document.deleteAll fmt disk d code = ((disk, d), .ok false)) ∧
    (code ≠ .folderDelete →
      Folder.delete fmt st f req code = ((st, f), .ok false)) ∧
    (code ≠ .librarianDelete →
      Librarian.burn fmt w req code = (w, .ok false)) := by
  refine ⟨?_, ?_, ?_⟩ <;> intro h <;> cases code <;>
    first
      | exact absurd rfl h
      | rfl

/-- C16 on the library opened on `sampleDisk`: the code of `Folder` handed to
`burn` and to `deleteAll`, and a missing code handed to `Folder.delete`. -/
theorem C16_wrong_code_witness :
    Document.deleteAll sampleFormat sampleDisk sampleDoc .folderDelete
      = ((sampleDisk, sampleDoc), .ok false) ∧
    Folder.delete sampleFormat sampleWorld.store sampleWorld.lib.db (some (.str (utf16 "F")))
        (.other .undefined)
      = ((sampleWorld.store, sampleWorld.lib.db), .ok false) ∧
    Librarian.burn sampleFormat sampleWorld (some (.str (utf16 "F/a"))) .folderDelete
      = (sampleWorld, .ok false) :=
  ⟨(C16_wrong_code sampleFormat sampleDisk sampleDoc sampleWorld.store sampleWorld.lib.db
      sampleWorld (some (.str (utf16 "F"))) .folderDelete).1 (by decide),
   (C16_wrong_code sampleFormat sampleDisk sampleDoc sampleWorld.store sampleWorld.lib.db
      sampleWorld (some (.str (utf16 "F"))) (.other .undefined)).2.1 (by decide),
   (C16_wrong_code sampleFormat sampleDisk sampleDoc sampleWorld.store sampleWorld.lib.db
      sampleWorld (some (.str (utf16 "F/a"))) .folderDelete).2.2 (by decide)⟩

/-! ## The library after a mutation -/

set_option maxRecDepth 100000 in
/-- C11. On the library opened on `sampleDisk`, `rename("F/a", "b")` completes and
returns `true`; afterwards `search("F/b")` gives the Document while
`exists("F/b")` is `false`, and `exists("F/a")` is `true` while `search("F/a")`
gives `undefined`: the document is stored under the key `b`, the catalog lists
its title `a`. -/
theorem C11_catalog_after_document_rename :
    docRenamedWorld.2 = .ok true ∧
    Folder.search docRenamedWorld.1.lib.db (utf16 "F/b") = .ok (.doc 0) ∧
    docRenamedWorld.1.lib.exists (.str (utf16 "F/b")) = false ∧
    docRenamedWorld.1.lib.exists (.str (utf16 "F/a")) = true ∧
    Folder.search docRenamedWorld.1.lib.db (utf16 "F/a") = .ok .undefined ∧
    Folder.titleOf docRenamedWorld.1.store.docs 0 = utf16 "a" := by
  decide

set_option maxRecDepth 100000 in
/-- C12. A document `a` is created and borrowed, `setTitle("b")` returns `true`,
and the handle is returned: `return()` throws a TypeError (`Document.save` reads
`content.length` of the `null` draft) before the release callback runs, and the
catalog still says that `a` exists and `b` does not. With one `edit` before
`return()` the call completes and the catalog says the opposite. -/
theorem C12_return_after_setTitle_throws :
    freshBorrowed.2 = .ok (some freshBook) ∧
    retitledWorld.2 = .ok true ∧
    retitledReturned.2 = .error .TypeError ∧
    retitledReturned.1.1.lib.exists (.str (utf16 "a")) = true ∧
    retitledReturned.1.1.lib.exists (.str (utf16 "b")) = false ∧
    editedReturned.2 = .ok () ∧
    editedReturned.1.1.lib.exists (.str (utf16 "a")) = false ∧
    editedReturned.1.1.lib.exists (.str (utf16 "b")) = true := by
  decide

/-- C14. In the root folder of `sampleWorld`, whose only child is `F`, `search`
for `constructor` and for `F/valueOf` does not return `undefined`: the final
segment names no child, and `$contents[...]` gives the function inherited from
`Object.prototype`. -/
theorem C14_search_inherited_name :
    sampleWorld.lib.db.contents.own? (utf16 "constructor") = none ∧
    Folder.searchSegs sampleWorld.lib.db.contents [utf16 "constructor"] = .ok .builtin ∧
    Folder.search sampleWorld.lib.db (utf16 "constructor") = .ok .builtin ∧
    Folder.search sampleWorld.lib.db (utf16 "F/valueOf") = .ok .builtin ∧
    Folder.searchSegs sampleWorld.lib.db.contents [] = .error .RangeError ∧
    Folder.search sampleWorld.lib.db (utf16 "x/a") = .error .TypeError ∧
    Folder.search sampleWorld.lib.db (utf16 "F/x") = .ok .undefined := by
  decide

/-- C15. In the root folder of `sampleWorld`, `renameSub("F", "F")` returns `true`
and leaves the folder without its child `F`: the key is assigned and then
deleted. -/
theorem C15_renameSub_same_name :
    sampleWorld.lib.db.contents.keys = [utf16 "F"] ∧
    selfRenamed.2 = .ok true ∧
    selfRenamed.1.2.contents.own? (utf16 "F") = none ∧
    selfRenamed.1.2.contents.keys = [] := by
  decide

/-- C20. `Folder.save()` creates the directory and then throws a TypeError,
whatever the folder holds: no child is saved. -/
theorem C20_save_throws (disk : Disk) (f : Folder) :
    Folder.save disk f = (Folder.mkdir disk f, .error .TypeError) := rfl

/-! ## Paths: splitting and joining -/

theorem splitAux_no_sep (sep : Nat) (k : JSString) (h : sep ∉ k) :
    ∀ cur : JSString, splitAux sep k cur = [cur.reverse ++ k] := by
  induction k with
  | nil => intro cur; simp [splitAux]
  | cons c rest ih =>
    intro cur
    simp only [List.mem_cons, not_or] at h
    have hc : c ≠ sep := fun e => h.1 e.symm
    simp [splitAux, hc, ih h.2]

theorem splitAux_append_sep (sep : Nat) (k : JSString) (h : sep ∉ k) (p : JSString) :
    ∀ cur : JSString, splitAux sep (p ++ sep :: k) cur = splitAux sep p cur ++ [k] := by
  induction p with
  | nil => intro cur; simp [splitAux, splitAux_no_sep sep k h]
  | cons c rest ih =>
    intro cur
    by_cases hc : c = sep
    · simp [splitAux, hc, ih]
    · simp [splitAux, hc, ih]

/-- Splitting a path that ends in `/k`, `k` without a slash. -/
theorem splitOn_append_segment (p k : JSString) (h : SLASH ∉ k) :
    splitOn SLASH (p ++ SLASH :: k) = splitOn SLASH p ++ [k] :=
  splitAux_append_sep SLASH k h p []

theorem splitAux_ne_nil (sep : Nat) (s : JSString) : ∀ cur, splitAux sep s cur ≠ [] := by
  induction s with
  | nil => intro cur; simp [splitAux]
  | cons c rest ih =>
    intro cur
    simp only [splitAux]
    split
    · simp
    · exact ih _

theorem joinSlash_cons_of_ne_nil (s : JSString) (rest : List JSString) (h : rest ≠ []) :
    joinSlash (s :: rest) = s ++ SLASH :: joinSlash rest := by
  cases rest with
  | nil => exact absurd rfl h
  | cons a b => rfl

theorem joinSlash_splitAux (s : JSString) :
    ∀ cur : JSString, joinSlash (splitAux SLASH s cur) = cur.reverse ++ s := by
  induction s with
  | nil => intro cur; simp [splitAux, joinSlash]
  | cons c rest ih =>
    intro cur
    by_cases hc : c = SLASH
    · simp only [splitAux, hc, if_true]
      rw [joinSlash_cons_of_ne_nil _ _ (splitAux_ne_nil _ _ _), ih]
      simp
    · simp only [splitAux, hc, if_false]
      rw [ih]
      simp

/-- Joining the segments of a path gives the path back. -/
theorem joinSlash_splitOn (p : JSString) : joinSlash (splitOn SLASH p) = p := by
  simpa using joinSlash_splitAux p []

theorem joinSlash_append_segment (l : List JSString) (k : JSString) (h : l ≠ []) :
    joinSlash (l ++ [k]) = joinSlash l ++ SLASH :: k := by
  induction l with
  | nil => exact absurd rfl h
  | cons a rest ih =>
    cases rest with
    | nil => simp [joinSlash]
    | cons b rest2 =>
      show joinSlash (a :: ((b :: rest2) ++ [k])) = _
      rw [joinSlash_cons_of_ne_nil a ((b :: rest2) ++ [k]) (by simp), ih (by simp),
        joinSlash_cons_of_ne_nil a (b :: rest2) (by simp)]
      simp

/-- Splitting the join of segments without slashes gives the segments back. -/
theorem splitOn_joinSlash (l : List JSString) (hne : l ≠ []) (h : ∀ s ∈ l, SLASH ∉ s) :
    splitOn SLASH (joinSlash l) = l := by
  induction l using List.reverseRecOn with
  | nil => exact absurd rfl hne
  | append_singleton l k ih =>
    have hk : SLASH ∉ k := h k (by simp)
    cases l with
    | nil =>
      simp only [List.nil_append, joinSlash, splitOn]
      simpa using splitAux_no_sep SLASH k hk []
    | cons a rest =>
      rw [joinSlash_append_segment _ _ (by simp), splitOn_append_segment _ _ hk,
        ih (by simp) (fun s hs => h s (by simp [List.mem_append, List.mem_cons] at hs ⊢; tauto))]

theorem lastSegment_append_segment (p k : JSString) (h : SLASH ∉ k) :
    lastSegment (p ++ SLASH :: k) = k := by
  simp [lastSegment, splitOn_append_segment p k h]

theorem slash_mem_joinSlash (a b : JSString) (rest : List JSString) :
    SLASH ∈ joinSlash (a :: b :: rest) := by
  rw [joinSlash_cons_of_ne_nil _ _ (by simp)]
  simp

/-! ## Storage: directories made by `mkdirs` -/

theorem joinSlash_initial_append (l : List JSString) (h : l ≠ []) (rest : List JSString) :
    joinSlash l <+: joinSlash (l ++ rest) := by
  induction rest using List.reverseRecOn with
  | nil => simp
  | append_singleton r x ih =>
    rw [← List.append_assoc, joinSlash_append_segment _ _ (by simp [h])]
    exact ih.trans (List.prefix_append _ _)

theorem Disk.ancestors_initial (p q : JSString) (h : q ∈ Disk.ancestors p) : q <+: p := by
  simp only [Disk.ancestors, List.mem_map, List.mem_filter, List.mem_inits] at h
  obtain ⟨l, ⟨hl, hne⟩, rfl⟩ := h
  obtain ⟨rest, hrest⟩ := hl
  have := joinSlash_initial_append l (by simpa using hne) rest
  rwa [hrest, joinSlash_splitOn] at this

theorem Disk.ancestors_append_segment (p k : JSString) (h : SLASH ∉ k) :
    Disk.ancestors (p ++ SLASH :: k) = Disk.ancestors p ++ [p ++ SLASH :: k] := by
  simp only [Disk.ancestors]
  rw [splitOn_append_segment p k h, List.inits_append]
  simp only [List.inits, List.map_cons, List.map_nil, List.filter_append, List.map_append]
  congr 1
  simp [List.filter, splitOn_ne_nil, joinSlash_append_segment _ _ (splitOn_ne_nil p),
    joinSlash_splitOn]

theorem Disk.self_mem_ancestors (p : JSString) : p ∈ Disk.ancestors p := by
  simp only [Disk.ancestors, List.mem_map, List.mem_filter, List.mem_inits]
  exact ⟨splitOn SLASH p, ⟨List.prefix_refl _, by simpa using splitOn_ne_nil p⟩,
    joinSlash_splitOn p⟩

theorem Disk.lookup_isSome_of_mem (d : Disk) (e : JSString × Node) (h : e ∈ d) :
    (Disk.lookup d e.1).isSome = true := by
  induction d with
  | nil => simp at h
  | cons a rest ih =>
    obtain ⟨k, m⟩ := a
    by_cases hk : k = e.1
    · simp [Disk.lookup, hk]
    · simp only [Disk.lookup, hk, if_false]
      rcases List.mem_cons.mp h with h1 | h1
      · subst h1; exact absurd rfl hk
      · exact ih h1

/-- What a path holds after directories were made: what it held, or a new
directory at one of the paths made. -/
theorem Disk.lookup_makeAll_cases (q : JSString) (x : Node) (l : List JSString) :
    ∀ d : Disk,
      Disk.lookup (l.foldl (fun acc q => if Disk.pathExists acc q then acc
        else Disk.put acc q .dir) d) q = some x →
      Disk.lookup d q = some x ∨ (q ∈ l ∧ x = .dir) := by
  induction l with
  | nil => intro d h; left; simpa using h
  | cons a rest ih =>
    intro d h
    simp only [List.foldl_cons] at h
    rcases ih _ h with h1 | ⟨h1, h2⟩
    · by_cases he : Disk.pathExists d a = true
      · left; simpa [he] using h1
      · simp only [he] at h1
        rw [if_neg (by simp)] at h1
        by_cases hqa : q = a
        · subst hqa
          rw [Disk.lookup_put_same] at h1
          right
          exact ⟨by simp, by simpa using h1.symm⟩
        · rw [Disk.lookup_put_ne _ _ _ _ hqa] at h1
          left; exact h1
    · right; exact ⟨List.mem_cons_of_mem _ h1, h2⟩

theorem Disk.lookup_mkdirs_cases (d : Disk) (p q : JSString) (x : Node)
    (h : Disk.lookup (Disk.mkdirs d p) q = some x) :
    Disk.lookup d q = some x ∨ (q ∈ Disk.ancestors p ∧ x = .dir) :=
  Disk.lookup_makeAll_cases q x _ d h

theorem Disk.lookup_makeAll_of_some (q : JSString) (x : Node) (l : List JSString) :
    ∀ d : Disk, Disk.lookup d q = some x →
      Disk.lookup (l.foldl (fun acc q => if Disk.pathExists acc q then acc
        else Disk.put acc q .dir) d) q = some x := by
  induction l with
  | nil => intro d h; simpa using h
  | cons a rest ih =>
    intro d h
    simp only [List.foldl_cons]
    apply ih
    by_cases he : Disk.pathExists d a = true
    · simp [he, h]
    · have hne : q ≠ a := by
        intro hqa
        subst hqa
        simp [Disk.pathExists, h] at he
      simp only [he]
      rw [if_neg (by simp), Disk.lookup_put_ne _ _ _ _ hne]
      exact h

theorem Disk.lookup_makeAll_mem (q : JSString) (l : List JSString) :
    ∀ d : Disk, q ∈ l →
      (Disk.lookup (l.foldl (fun acc q => if Disk.pathExists acc q then acc
        else Disk.put acc q .dir) d) q).isSome = true := by
  induction l with
  | nil => intro d h; simp at h
  | cons a rest ih =>
    intro d h
    simp only [List.foldl_cons]
    by_cases hqa : q = a
    · subst hqa
      by_cases he : Disk.pathExists d q = true
      · simp only [he, if_true]
        obtain ⟨x, hx⟩ := Option.isSome_iff_exists.mp he
        rw [Disk.lookup_makeAll_of_some q x rest d hx]; rfl
      · simp only [he]
        rw [if_neg (by simp),
          Disk.lookup_makeAll_of_some q .dir rest _ (Disk.lookup_put_same d q .dir)]
        rfl
    · rcases List.mem_cons.mp h with h1 | h1
      · exact absurd h1 hqa
      · exact ih _ h1

/-- A path that did not exist is a directory after `mkdirs` on it. -/
theorem Disk.isDirectory_mkdirs_ancestor (d : Disk) (p q : JSString)
    (hq : q ∈ Disk.ancestors p) (hnone : Disk.lookup d q = none) :
    Disk.isDirectory (Disk.mkdirs d p) q = true := by
  have h1 := Disk.lookup_makeAll_mem q (Disk.ancestors p) d hq
  obtain ⟨x, hx⟩ := Option.isSome_iff_exists.mp h1
  have hx2 : Disk.lookup (Disk.mkdirs d p) q = some x := hx
  rcases Disk.lookup_mkdirs_cases d p q x hx2 with h2 | ⟨_, h2⟩
  · rw [hnone] at h2; cases h2
  · subst h2
    simp [Disk.isDirectory, hx2]

/-! ## Own properties after an assignment -/

theorem Contents.own?_push_same (c : Contents) (k : JSString) (v : Child)
    (h : c.own? k = none) : (c.push k v).own? k = some v := by
  induction c with
  | nil => cases v <;> simp [Contents.push, Contents.own?]
  | doc key ref rest ih =>
    by_cases hk : key = k
    · simp [Contents.own?, hk] at h
    · simp only [Contents.own?, hk, if_false] at h
      simp [Contents.push, Contents.own?, hk, ih h]
  | folder key path sub rest _ ih =>
    by_cases hk : key = k
    · simp [Contents.own?, hk] at h
    · simp only [Contents.own?, hk, if_false] at h
      simp [Contents.push, Contents.own?, hk, ih h]

theorem Contents.own?_push_isSome (c : Contents) (k n : JSString) (v : Child)
    (h : (c.own? n).isSome = true) : ((c.push k v).own? n).isSome = true := by
  induction c with
  | nil => simp [Contents.own?] at h
  | doc key ref rest ih =>
    by_cases hk : key = n
    · simp [Contents.push, Contents.own?, hk]
    · simp only [Contents.own?, hk, if_false] at h
      simp [Contents.push, Contents.own?, hk, ih h]
  | folder key path sub rest _ ih =>
    by_cases hk : key = n
    · simp [Contents.push, Contents.own?, hk]
    · simp only [Contents.own?, hk, if_false] at h
      simp [Contents.push, Contents.own?, hk, ih h]

theorem Contents.replace_push (c : Contents) (k : JSString) (v v2 : Child)
    (h : c.own? k = none) : (c.push k v).replace k v2 = c.push k v2 := by
  induction c with
  | nil => cases v <;> cases v2 <;> simp [Contents.push, Contents.replace]
  | doc key ref rest ih =>
    by_cases hk : key = k
    · simp [Contents.own?, hk] at h
    · simp only [Contents.own?, hk, if_false] at h
      simp [Contents.push, Contents.replace, hk, ih h]
  | folder key path sub rest _ ih =>
    by_cases hk : key = k
    · simp [Contents.own?, hk] at h
    · simp only [Contents.own?, hk, if_false] at h
      simp [Contents.push, Contents.replace, hk, ih h]

theorem Folder.not_mem_folders (c : Contents) (k : JSString) (h : c.own? k = none) :
    k ∉ Folder.folders c := by
  induction c with
  | nil => simp [Folder.folders]
  | doc key ref rest ih =>
    by_cases hk : key = k
    · simp [Contents.own?, hk] at h
    · simp only [Contents.own?, hk, if_false] at h
      simpa [Folder.folders] using ih h
  | folder key path sub rest _ ih =>
    by_cases hk : key = k
    · simp [Contents.own?, hk] at h
    · simp only [Contents.own?, hk, if_false] at h
      simp only [Folder.folders, List.mem_cons, not_or]
      exact ⟨fun e => hk e.symm, ih h⟩

theorem Folder.not_mem_docs (c : Contents) (k : JSString) (h : c.own? k = none) :
    k ∉ Folder.docs c := by
  induction c with
  | nil => simp [Folder.docs]
  | doc key ref rest ih =>
    by_cases hk : key = k
    · simp [Contents.own?, hk] at h
    · simp only [Contents.own?, hk, if_false] at h
      simp only [Folder.docs, List.mem_cons, not_or]
      exact ⟨fun e => hk e.symm, ih h⟩
  | folder key path sub rest _ ih =>
    by_cases hk : key = k
    · simp [Contents.own?, hk] at h
    · simp only [Contents.own?, hk, if_false] at h
      simpa [Folder.docs] using ih h

/-- Adding under a name that is neither owned nor inherited appends it. -/
theorem Folder.add_new (f : Folder) (k : JSString) (v : Child)
    (h : f.contents.own? k = none) (hi : inherited k = false) :
    Folder.add f k v = ({ f with contents := f.contents.push k v }, .ok ()) := by
  simp [Folder.add, Contents.has, Contents.set, h, hi]

/-! ## Loading a folder that has nothing new in storage -/

/-- The constructor on a path that is no directory gives an empty folder and
touches nothing. -/
theorem Folder.new_missing (st : Store) (p : JSString)
    (h : Disk.isDirectory st.disk p = false) :
    Folder.new st p = ((st, { path := p, contents := .nil }), .ok ()) := by
  simp [Folder.new, Folder.load, Folder.loadFuel, h]

/-- Loading changes nothing when every directory entry is already in `$contents`. -/
theorem Folder.loadFuel_unchanged (fuel : Nat) (st : Store) (f : Folder)
    (h : ∀ name ∈ Disk.list st.disk f.path,
      Disk.isDirectory st.disk (f.path ++ SLASH :: name) = true →
        f.contents.has name = true) :
    ∃ b, Folder.loadFuel (fuel + 1) st f = ((st, f), .ok b) := by
  simp only [Folder.loadFuel]
  by_cases hd : Disk.isDirectory st.disk f.path = true
  · refine ⟨true, ?_⟩
    rw [if_pos hd]
    generalize Disk.list st.disk f.path = l at h
    induction l with
    | nil => rfl
    | cons a rest ih =>
      simp only [List.foldl_cons]
      have ha : (Disk.isDirectory st.disk (f.path ++ SLASH :: a)
          && !(f.contents.has a)) = false := by
        cases hx : Disk.isDirectory st.disk (f.path ++ SLASH :: a)
        · rfl
        · simp [h a (by simp) hx]
      simp only [ha]
      exact ih (fun n hn => h n (List.mem_cons_of_mem _ hn))
  · refine ⟨false, ?_⟩
    rw [if_neg hd]

theorem Folder.load_unchanged (st : Store) (f : Folder)
    (h : ∀ name ∈ Disk.list st.disk f.path,
      Disk.isDirectory st.disk (f.path ++ SLASH :: name) = true →
        f.contents.has name = true) :
    ∃ b, Folder.load st f = ((st, f), .ok b) :=
  Folder.loadFuel_unchanged _ st f h

/-! ## `place` on names that are new -/

theorem Disk.isAtOrBelow_self (p : JSString) : Disk.isAtOrBelow p p = true := by
  simp [Disk.isAtOrBelow]

theorem Disk.isAtOrBelow_segment (p k q : JSString)
    (h : Disk.isAtOrBelow (p ++ SLASH :: k) q = true) : Disk.isAtOrBelow p q = true := by
  simp only [Disk.isAtOrBelow, Bool.or_eq_true, decide_eq_true_eq,
    List.isPrefixOf_iff_prefix] at h ⊢
  right
  rcases h with h | h
  · subst h
    exact ⟨k, by simp⟩
  · exact List.IsPrefix.trans ⟨k ++ [SLASH], by simp⟩ h

theorem Disk.isDirectory_of_lookup_none (d : Disk) (p : JSString)
    (h : Disk.lookup d p = none) : Disk.isDirectory d p = false := by
  simp [Disk.isDirectory, h]

theorem deepPath_cons (base k : JSString) (ks : List JSString) :
    deepPath base (k :: ks) = deepPath (base ++ SLASH :: k) ks := rfl

/-- On names that are new, in storage and in the parent, `place` makes the
folders one inside the other and the directory of the innermost one. -/
theorem place_fresh : ∀ (ks : List JSString) (k : JSString) (st : Store) (parent : Folder),
    (∀ s ∈ k :: ks, SLASH ∉ s ∧ inherited s = false) →
    parent.contents.own? k = none →
    (∀ q, Disk.isAtOrBelow (parent.path ++ SLASH :: k) q = true →
      Disk.lookup st.disk q = none) →
    Librarian.place st parent (k :: ks) =
      ((⟨Disk.mkdirs st.disk (deepPath parent.path (k :: ks)), st.docs⟩,
        ⟨parent.path, parent.contents.push k
          (.folder ⟨parent.path ++ SLASH :: k, chain (parent.path ++ SLASH :: k) ks .nil⟩)⟩),
        .ok ()) := by
  intro ks
  induction ks with
  | nil =>
    intro k st parent hs hown hdisk
    have hk := hs k (by simp)
    have hdir := Disk.isDirectory_of_lookup_none _ _
      (hdisk _ (Disk.isAtOrBelow_self _))
    have hnf : (Folder.folders parent.contents).contains k = false := by
      simpa using Folder.not_mem_folders _ _ hown
    simp only [Librarian.place, Folder.new_missing st _ hdir, hnf, Folder.name,
      lastSegment_append_segment _ _ hk.1, Folder.add_new parent k _ hown hk.2]
    simp [Folder.mkdir, deepPath, chain]
  | cons k2 rest ih =>
    intro k st parent hs hown hdisk
    have hk := hs k (by simp)
    have hdir := Disk.isDirectory_of_lookup_none _ _
      (hdisk _ (Disk.isAtOrBelow_self _))
    have hnf : (Folder.folders parent.contents).contains k = false := by
      simpa using Folder.not_mem_folders _ _ hown
    have hrec := ih k2 st ⟨parent.path ++ SLASH :: k, .nil⟩
      (fun s h => hs s (List.mem_cons_of_mem _ h)) rfl
      (fun q hq => hdisk q (Disk.isAtOrBelow_segment _ _ _ hq))
    simp only [Librarian.place, Folder.new_missing st _ hdir, hnf, Folder.name,
      lastSegment_append_segment _ _ hk.1, Folder.add_new parent k _ hown hk.2]
    simp only [hrec, Contents.replace_push _ _ _ _ hown]
    simp [deepPath, chain, Contents.push]

/-! ## Searching and updating the new folders -/

theorem titleRule_usable (t : JSString) (h : titleRule t = true) : isUsableTitle t = true := by
  rw [isUsableTitle_iff]
  simp only [titleRule, List.all_eq_true] at h
  exact fun c hc => (usableUnit_iff c).mpr (Or.inl (h c hc))

theorem titleRule_no_slash (t : JSString) (h : titleRule t = true) : SLASH ∉ t := by
  simp only [titleRule, List.all_eq_true] at h
  intro hm
  have := h SLASH hm
  revert this
  decide

theorem titleRule_TITLE_REG (t : JSString) (hne : t ≠ []) (h : titleRule t = true) :
    TITLE_REG_test t = true := by
  rw [TITLE_REG_test_iff]
  simp only [titleRule, List.all_eq_true] at h
  cases t with
  | nil => exact absurd rfl hne
  | cons c rest =>
    exact ⟨c, List.mem_cons_self _ _, titleRuleUnit_not_forbidden c (h c (List.mem_cons_self _ _))⟩

theorem deepPath_append (base : JSString) (l : List JSString) (x : JSString) :
    deepPath base (l ++ [x]) = deepPath base l ++ SLASH :: x := by
  simp [deepPath, List.foldl_append]

theorem deepPath_eq_join (base : JSString) (l : List JSString) (h : l ≠ []) :
    deepPath base l = base ++ SLASH :: joinSlash l := by
  induction l using List.reverseRecOn with
  | nil => exact absurd rfl h
  | append_singleton l x ih =>
    cases l with
    | nil => simp [deepPath, joinSlash]
    | cons a rest =>
      rw [deepPath_append, ih (by simp), joinSlash_append_segment _ _ (by simp)]
      simp

theorem searchSegs_chain_leaf : ∀ (ks : List JSString) (base : JSString) (leaf : Contents)
    (more : List JSString), more ≠ [] →
    Folder.searchSegs (chain base ks leaf) (ks ++ more) = Folder.searchSegs leaf more := by
  intro ks
  induction ks with
  | nil => intro base leaf more _; rfl
  | cons k rest ih =>
    intro base leaf more hm
    obtain ⟨a, b, hab⟩ : ∃ a b, rest ++ more = a :: b := by
      cases hr : rest ++ more with
      | nil => simp [hm] at hr
      | cons a b => exact ⟨a, b, rfl⟩
    show Folder.searchSegs (chain base (k :: rest) leaf) (k :: (rest ++ more)) = _
    rw [hab]
    simp only [chain, Folder.searchSegs, Contents.get, Contents.own?, if_true]
    rw [← hab]
    exact ih _ _ _ hm

theorem searchSegs_chain_front : ∀ (pre : List JSString) (k base : JSString)
    (post : List JSString) (leaf : Contents),
    Folder.searchSegs (chain base (k :: pre ++ post) leaf) (k :: pre) =
      .ok (.folder ⟨deepPath base (k :: pre), chain (deepPath base (k :: pre)) post leaf⟩) := by
  intro pre
  induction pre with
  | nil =>
    intro k base post leaf
    simp [chain, Folder.searchSegs, Contents.get, Contents.own?, deepPath]
  | cons k2 rest ih =>
    intro k base post leaf
    have := ih k2 (base ++ SLASH :: k) post leaf
    simp only [List.cons_append] at this ⊢
    simp only [chain, Folder.searchSegs, Contents.get, Contents.own?, if_true]
    simp only [chain] at this
    rw [this]
    rfl

theorem searchSegs_push_chain (c : Contents) (k base : JSString) (pre post : List JSString)
    (leaf : Contents) (h : c.own? k = none) :
    Folder.searchSegs (c.push k
        (.folder ⟨base ++ SLASH :: k, chain (base ++ SLASH :: k) (pre ++ post) leaf⟩)) (k :: pre) =
      .ok (.folder ⟨deepPath base (k :: pre), chain (deepPath base (k :: pre)) post leaf⟩) := by
  cases pre with
  | nil =>
    simp [Folder.searchSegs, Contents.get, Contents.own?_push_same _ _ _ h, deepPath]
  | cons k2 rest =>
    simp only [Folder.searchSegs, Contents.get, Contents.own?_push_same _ _ _ h]
    exact searchSegs_chain_front rest k2 (base ++ SLASH :: k) post leaf

theorem searchSegs_push_leaf (c : Contents) (k base : JSString) (ks : List JSString)
    (leaf : Contents) (t : JSString) (h : c.own? k = none) :
    Folder.searchSegs (c.push k
        (.folder ⟨base ++ SLASH :: k, chain (base ++ SLASH :: k) ks leaf⟩)) (k :: ks ++ [t]) =
      .ok (leaf.get t) := by
  obtain ⟨a, b, hab⟩ : ∃ a b, ks ++ [t] = a :: b := by
    cases hr : ks ++ [t] with
    | nil => simp at hr
    | cons a b => exact ⟨a, b, rfl⟩
  show Folder.searchSegs _ (k :: (ks ++ [t])) = _
  rw [hab]
  simp only [Folder.searchSegs, Contents.get, Contents.own?_push_same _ _ _ h]
  rw [← hab, searchSegs_chain_leaf ks _ leaf [t] (by simp)]
  rfl

theorem putAt_chain : ∀ (ks : List JSString) (k base : JSString) (leaf leaf2 : Contents),
    Folder.putAt (chain base (k :: ks) leaf) (k :: ks) ⟨deepPath base (k :: ks), leaf2⟩ =
      chain base (k :: ks) leaf2 := by
  intro ks
  induction ks with
  | nil =>
    intro k base leaf leaf2
    simp [chain, Folder.putAt, Contents.replace, deepPath]
  | cons k2 rest ih =>
    intro k base leaf leaf2
    have := ih k2 (base ++ SLASH :: k) leaf leaf2
    simp only [chain, Folder.putAt, Contents.own?, if_true, Contents.replace] at this ⊢
    rw [deepPath_cons, this]

theorem putAt_push_chain (c : Contents) (k base : JSString) (ks : List JSString)
    (leaf leaf2 : Contents) (h : c.own? k = none) :
    Folder.putAt (c.push k (.folder ⟨base ++ SLASH :: k, chain (base ++ SLASH :: k) ks leaf⟩))
        (k :: ks) ⟨deepPath base (k :: ks), leaf2⟩ =
      c.push k (.folder ⟨base ++ SLASH :: k, chain (base ++ SLASH :: k) ks leaf2⟩) := by
  cases ks with
  | nil =>
    simp [Folder.putAt, Contents.replace_push _ _ _ _ h, chain, deepPath]
  | cons k2 rest =>
    simp only [Folder.putAt, Contents.own?_push_same _ _ _ h, Contents.replace_push _ _ _ _ h]
    rw [deepPath_cons, putAt_chain]

/-- The constructor of `Document` on a path without `info.json`, whose last
segment is accepted as a title. -/
theorem Document.new_fresh (disk : Disk) (path : JSString)
    (hinfo : Disk.lookup disk (path ++ SLASH :: INFO_FILE) = none)
    (htitle : TITLE_REG_test (lastSegment path) = true) :
    Document.new disk path =
      .ok ⟨path, path ++ SLASH :: INFO_FILE, ⟨lastSegment path, none, []⟩,
        ⟨path ++ SLASH :: CONTENT_FILE, none⟩⟩ := by
  simp [Document.new, File.exists, Disk.isFile, hinfo, schema, htitle]

/-! ## Storage after the new directories were made -/

theorem deepPath_slash_initial : ∀ (ks : List JSString) (base : JSString),
    (base ++ [SLASH]) <+: (deepPath base ks ++ [SLASH]) := by
  intro ks
  induction ks with
  | nil => intro base; exact List.prefix_refl _
  | cons k rest ih =>
    intro base
    rw [deepPath_cons]
    exact List.IsPrefix.trans ⟨k ++ [SLASH], by simp⟩ (ih (base ++ SLASH :: k))

theorem deepPath_isAtOrBelow (base : JSString) (ks : List JSString) :
    Disk.isAtOrBelow base (deepPath base ks) = true := by
  induction ks using List.reverseRecOn with
  | nil => simp [deepPath, Disk.isAtOrBelow]
  | append_singleton l x _ =>
    simp only [Disk.isAtOrBelow, Bool.or_eq_true, decide_eq_true_eq, List.isPrefixOf_iff_prefix]
    right
    rw [deepPath_append]
    exact List.IsPrefix.trans (deepPath_slash_initial l base) ⟨x, by simp⟩

theorem Disk.isAtOrBelow_of_below (p d q : JSString)
    (hd : Disk.isAtOrBelow p d = true) (hq : (d ++ [SLASH]) <+: q) :
    Disk.isAtOrBelow p q = true := by
  simp only [Disk.isAtOrBelow, Bool.or_eq_true, decide_eq_true_eq,
    List.isPrefixOf_iff_prefix] at hd ⊢
  right
  rcases hd with hd | hd
  · subst hd; exact hq
  · exact List.IsPrefix.trans hd (List.IsPrefix.trans (List.prefix_append _ _) hq)

/-- Nothing lies below a directory that `mkdirs` made where nothing was. -/
theorem Disk.lookup_below_mkdirs (d : Disk) (p deep q : JSString)
    (hfree : ∀ q, Disk.isAtOrBelow p q = true → Disk.lookup d q = none)
    (hdeep : Disk.isAtOrBelow p deep = true) (hq : (deep ++ [SLASH]) <+: q) :
    Disk.lookup (Disk.mkdirs d deep) q = none := by
  cases hx : Disk.lookup (Disk.mkdirs d deep) q with
  | none => rfl
  | some x =>
    exfalso
    rcases Disk.lookup_mkdirs_cases d deep q x hx with h | ⟨h, _⟩
    · rw [hfree q (Disk.isAtOrBelow_of_below p deep q hdeep hq)] at h
      cases h
    · have h1 := (Disk.ancestors_initial deep q h).length_le
      have h2 := hq.length_le
      simp at h2
      omega

theorem Disk.list_mkdirs_empty (d : Disk) (p deep : JSString)
    (hfree : ∀ q, Disk.isAtOrBelow p q = true → Disk.lookup d q = none)
    (hdeep : Disk.isAtOrBelow p deep = true) :
    Disk.list (Disk.mkdirs d deep) deep = [] := by
  simp only [Disk.list, List.filterMap_eq_nil_iff]
  intro e he
  by_cases hp : (deep ++ [SLASH]).isPrefixOf e.1 = true
  · have h1 := Disk.lookup_isSome_of_mem _ e he
    rw [Disk.lookup_below_mkdirs d p deep e.1 hfree hdeep
      (List.isPrefixOf_iff_prefix.mp hp)] at h1
    cases h1
  · simp [Disk.childName, hp]

theorem Disk.childName_some (p q n : JSString) (h : Disk.childName p q = some n) :
    q = p ++ SLASH :: n ∧ SLASH ∉ n := by
  simp only [Disk.childName] at h
  split at h
  · rename_i hp
    split at h
    · rename_i hn
      simp only [Option.some.injEq] at h
      obtain ⟨rest, hrest⟩ := List.isPrefixOf_iff_prefix.mp hp
      subst hrest
      have hd : List.drop (p.length + 1) (p ++ [SLASH] ++ rest) = rest := by
        rw [List.drop_append_of_le_length (by simp)]
        simp
      rw [hd] at h hn
      subst h
      exact ⟨by simp, hn.2⟩
    · cases h
  · cases h

theorem deepPath_mem_ancestors (base : JSString) (pre : List JSString) :
    ∀ post : List JSString, (∀ s ∈ post, SLASH ∉ s) →
      deepPath base pre ∈ Disk.ancestors (deepPath base (pre ++ post)) := by
  intro post
  induction post using List.reverseRecOn with
  | nil => intro _; simpa using Disk.self_mem_ancestors _
  | append_singleton l x ih =>
    intro hs
    rw [← List.append_assoc, deepPath_append,
      Disk.ancestors_append_segment _ _ (hs x (by simp))]
    exact List.mem_append_left _ (ih (fun s h => hs s (by simp [h])))

/-! ## Reloading after the new folders were placed -/

theorem joinSlash_cons_ne_nil (k : JSString) (ks : List JSString) (hk : k ≠ []) :
    ∃ c r, joinSlash (k :: ks) = c :: r := by
  cases k with
  | nil => exact absurd rfl hk
  | cons a b =>
    cases ks with
    | nil => exact ⟨a, b, rfl⟩
    | cons k2 rest => exact ⟨a, b ++ SLASH :: joinSlash (k2 :: rest), rfl⟩

/-- The reload of `Librarian.load(path)` changes nothing but the catalog when
storage holds nothing that the folders do not hold. -/
theorem load_chain (w : World) (k : JSString) (ks : List JSString) (c leaf : Contents)
    (hk : k ≠ []) (hs : ∀ s ∈ k :: ks, SLASH ∉ s) (hown : c.own? k = none)
    (hdb : w.lib.db = ⟨w.lib.path, c.push k
      (.folder ⟨w.lib.path ++ SLASH :: k, chain (w.lib.path ++ SLASH :: k) ks leaf⟩)⟩)
    (hroot : ks = [] → ∀ name ∈ Disk.list w.store.disk w.lib.path,
      Disk.isDirectory w.store.disk (w.lib.path ++ SLASH :: name) = true →
        w.lib.db.contents.has name = true)
    (hleaf : Disk.list w.store.disk (deepPath w.lib.path (k :: ks)) = []) :
    Librarian.load w (some (joinSlash (k :: ks))) =
      (⟨w.store, ⟨w.lib.path, w.lib.db, treeToTable (Folder.tree w.store.docs w.lib.db),
        w.lib.borrowed⟩⟩, .ok ()) := by
  obtain ⟨c0, r0, hp⟩ := joinSlash_cons_ne_nil k ks hk
  cases ks with
  | nil =>
    have hns : SLASH ∉ c0 :: r0 := by
      rw [← hp]; exact hs k (by simp)
    obtain ⟨b, hb⟩ := Folder.load_unchanged w.store w.lib.db (by
      have := hroot rfl
      rw [hdb] at this ⊢
      exact this)
    rw [hp]
    simp only [Librarian.load, hns, not_false_eq_true, if_true, Librarian.loadRoot, hb]
  | cons k2 rest =>
    have hsl : SLASH ∈ c0 :: r0 := by
      rw [← hp]; exact slash_mem_joinSlash k k2 rest
    have hsearch : Folder.search w.lib.db (c0 :: r0) =
        .ok (.folder ⟨deepPath w.lib.path (k :: k2 :: rest), leaf⟩) := by
      rw [← hp]
      simp only [Folder.search, splitOn_joinSlash _ (List.cons_ne_nil _ _) hs]
      rw [hdb]
      have := searchSegs_push_chain c k w.lib.path (k2 :: rest) [] leaf hown
      simpa [chain] using this
    obtain ⟨b, hb⟩ := Folder.load_unchanged w.store
      ⟨deepPath w.lib.path (k :: k2 :: rest), leaf⟩ (by
        intro name hn
        rw [hleaf] at hn
        cases hn)
    have hput : Folder.putAt w.lib.db.contents (splitOn SLASH (c0 :: r0))
        ⟨deepPath w.lib.path (k :: k2 :: rest), leaf⟩ = w.lib.db.contents := by
      rw [← hp, splitOn_joinSlash _ (List.cons_ne_nil _ _) hs, hdb]
      exact putAt_push_chain c k w.lib.path (k2 :: rest) leaf leaf hown
    rw [hp]
    simp only [Librarian.load, hsl, not_true_eq_false, if_false, hsearch, hb, hput]

/-! ## `createFolder` and `createDocument` on new names -/

theorem Contents.has_push (c : Contents) (k n : JSString) (v : Child)
    (h : c.has n = true) : (c.push k v).has n = true := by
  simp only [Contents.has, Bool.or_eq_true] at h ⊢
  rcases h with h | h
  · exact Or.inl (Contents.own?_push_isSome c k n v h)
  · exact Or.inr h

theorem root_tracked (d : Disk) (root k : JSString) (c : Contents) (v : Child)
    (hk : SLASH ∉ k) (hown : c.own? k = none)
    (htracked : ∀ name, SLASH ∉ name →
      Disk.isDirectory d (root ++ SLASH :: name) = true → c.has name = true) :
    ∀ name ∈ Disk.list (Disk.mkdirs d (root ++ SLASH :: k)) root,
      Disk.isDirectory (Disk.mkdirs d (root ++ SLASH :: k)) (root ++ SLASH :: name) = true →
        (c.push k v).has name = true := by
  intro name hname hdir
  simp only [Disk.list, List.mem_filterMap] at hname
  obtain ⟨e, _, hchild⟩ := hname
  have hns := (Disk.childName_some _ _ _ hchild).2
  cases hx : Disk.lookup (Disk.mkdirs d (root ++ SLASH :: k)) (root ++ SLASH :: name) with
  | none => simp [Disk.isDirectory, hx] at hdir
  | some x =>
    rcases Disk.lookup_mkdirs_cases _ _ _ _ hx with h | ⟨h, _⟩
    · refine Contents.has_push c k name v (htracked name hns ?_)
      simp only [Disk.isDirectory, hx] at hdir
      simp only [Disk.isDirectory, h]
      exact hdir
    · rw [Disk.ancestors_append_segment _ _ hk, List.mem_append] at h
      rcases h with h | h
      · have := (Disk.ancestors_initial _ _ h).length_le
        simp at this
      · simp only [List.mem_singleton, List.append_cancel_left_eq, List.cons.injEq,
          true_and] at h
        subst h
        simp [Contents.has, Contents.own?_push_same _ _ _ hown]

theorem createFolder_fresh (w : World) (k : JSString) (ks : List JSString)
    (hseg : ∀ s ∈ k :: ks, s ≠ [] ∧ titleRule s = true ∧ inherited s = false)
    (hpath : w.lib.db.path = w.lib.path)
    (hnew : w.lib.db.contents.own? k = none)
    (hdisk : ∀ q, Disk.isAtOrBelow (w.lib.path ++ SLASH :: k) q = true →
      Disk.lookup w.store.disk q = none)
    (htracked : ∀ name, SLASH ∉ name →
      Disk.isDirectory w.store.disk (w.lib.path ++ SLASH :: name) = true →
        w.lib.db.contents.has name = true) :
    Librarian.createFolder w (joinSlash (k :: ks)) =
      (placedWorld w k ks .nil w.store.docs, .ok ()) := by
  have hs : ∀ s ∈ k :: ks, SLASH ∉ s := fun s h => titleRule_no_slash s (hseg s h).2.1
  obtain ⟨c0, r0, hp⟩ := joinSlash_cons_ne_nil k ks (hseg k (by simp)).1
  have hsplit : splitOn SLASH (c0 :: r0) = k :: ks := by
    rw [← hp]; exact splitOn_joinSlash _ (List.cons_ne_nil _ _) hs
  have hall : (k :: ks).all isUsableTitle = true := by
    rw [List.all_eq_true]
    exact fun s h => titleRule_usable s (hseg s h).2.1
  have hplace := place_fresh ks k w.store w.lib.db
    (fun s h => ⟨hs s h, (hseg s h).2.2⟩) hnew (by rw [hpath]; exact hdisk)
  rw [hpath] at hplace
  have hload := load_chain
    ⟨⟨Disk.mkdirs w.store.disk (deepPath w.lib.path (k :: ks)), w.store.docs⟩,
      ⟨w.lib.path, ⟨w.lib.path, placedContents w k ks .nil⟩, w.lib.table, w.lib.borrowed⟩⟩
    k ks w.lib.db.contents .nil
    (hseg k (by simp)).1 hs hnew rfl
    (by
      intro hks
      subst hks
      exact root_tracked w.store.disk w.lib.path k w.lib.db.contents _ (hs k (by simp))
        hnew htracked)
    (Disk.list_mkdirs_empty w.store.disk (w.lib.path ++ SLASH :: k) _ hdisk
      (by rw [deepPath_cons]; exact deepPath_isAtOrBelow _ _))
  rw [hp]
  simp only [Librarian.createFolder, hsplit, hall, if_true, hplace]
  exact hload

theorem search_placed (w : World) (k : JSString) (pre post : List JSString) (leaf : Contents)
    (hs : ∀ s ∈ k :: pre, SLASH ∉ s) (hnew : w.lib.db.contents.own? k = none) :
    Folder.search ⟨w.lib.path, placedContents w k (pre ++ post) leaf⟩ (joinSlash (k :: pre)) =
      .ok (.folder ⟨deepPath w.lib.path (k :: pre),
        chain (deepPath w.lib.path (k :: pre)) post leaf⟩) := by
  simp only [Folder.search, splitOn_joinSlash _ (List.cons_ne_nil _ _) hs, placedContents]
  exact searchSegs_push_chain _ k w.lib.path pre post leaf hnew

theorem createDocument_fresh (w : World) (k : JSString) (ks : List JSString) (t : JSString)
    (hseg : ∀ s ∈ k :: ks ++ [t], s ≠ [] ∧ titleRule s = true ∧ inherited s = false)
    (hpath : w.lib.db.path = w.lib.path)
    (hnew : w.lib.db.contents.own? k = none)
    (hdisk : ∀ q, Disk.isAtOrBelow (w.lib.path ++ SLASH :: k) q = true →
      Disk.lookup w.store.disk q = none)
    (htracked : ∀ name, SLASH ∉ name →
      Disk.isDirectory w.store.disk (w.lib.path ++ SLASH :: name) = true →
        w.lib.db.contents.has name = true) :
    Librarian.createDocument w (joinSlash (k :: ks ++ [t])) =
      (placedWorld w k ks (.doc t w.store.docs.length .nil)
        (w.store.docs ++ [freshDocument (w.lib.path ++ SLASH :: joinSlash (k :: ks ++ [t]))]),
        .ok ()) := by
  have hsegF : ∀ s ∈ k :: ks, s ≠ [] ∧ titleRule s = true ∧ inherited s = false :=
    fun s h => hseg s (by
      simp only [List.cons_append, List.mem_cons, List.mem_append] at h ⊢
      tauto)
  have ht := hseg t (by simp)
  have hs : ∀ s ∈ k :: ks ++ [t], SLASH ∉ s := fun s h => titleRule_no_slash s (hseg s h).2.1
  have hsF : ∀ s ∈ k :: ks, SLASH ∉ s := fun s h => titleRule_no_slash s (hsegF s h).2.1
  obtain ⟨c0, r0, hp⟩ := joinSlash_cons_ne_nil k (ks ++ [t]) (hseg k (by simp)).1
  have hp2 : joinSlash (k :: ks ++ [t]) = c0 :: r0 := hp
  have hsl : SLASH ∈ c0 :: r0 := by
    rw [← hp]
    cases hr : ks ++ [t] with
    | nil => simp at hr
    | cons a b => exact slash_mem_joinSlash k a b
  have hsplit : splitOn SLASH (c0 :: r0) = k :: ks ++ [t] := by
    rw [← hp2]; exact splitOn_joinSlash _ (by simp) hs
  have hlast : (k :: ks ++ [t]).getLast?.getD [] = t := by
    have : k :: ks ++ [t] = (k :: ks) ++ [t] := rfl
    rw [this, List.getLast?_append]
    simp
  have hdrop : (k :: ks ++ [t]).dropLast = k :: ks := by
    have : k :: ks ++ [t] = (k :: ks) ++ [t] := rfl
    rw [this, List.dropLast_concat]
  have hdeep : w.lib.path ++ SLASH :: joinSlash (k :: ks ++ [t]) =
      deepPath w.lib.path (k :: ks) ++ SLASH :: t := by
    have : k :: ks ++ [t] = (k :: ks) ++ [t] := rfl
    rw [this, joinSlash_append_segment _ _ (by simp), deepPath_eq_join _ _ (by simp)]
    simp
  have hbelow : Disk.isAtOrBelow (w.lib.path ++ SLASH :: k) (deepPath w.lib.path (k :: ks))
      = true := by
    rw [deepPath_cons]; exact deepPath_isAtOrBelow _ _
  have hname : lastSegment (w.lib.path ++ SLASH :: joinSlash (k :: ks ++ [t])) = t := by
    rw [hdeep]; exact lastSegment_append_segment _ _ (hs t (by simp))
  have hdoc : Document.new (Disk.mkdirs w.store.disk (deepPath w.lib.path (k :: ks)))
      (w.lib.path ++ SLASH :: joinSlash (k :: ks ++ [t])) =
        .ok (freshDocument (w.lib.path ++ SLASH :: joinSlash (k :: ks ++ [t]))) := by
    apply Document.new_fresh
    · rw [hdeep]
      exact Disk.lookup_below_mkdirs _ _ _ _ hdisk hbelow ⟨t ++ SLASH :: INFO_FILE, by simp⟩
    · rw [hname]; exact titleRule_TITLE_REG t ht.1 ht.2.1
  have hsearch := search_placed w k ks [] .nil hsF hnew
  simp only [List.append_nil, chain] at hsearch
  have hadd : Folder.add ⟨deepPath w.lib.path (k :: ks), .nil⟩ t (.doc w.store.docs.length) =
      (⟨deepPath w.lib.path (k :: ks), .doc t w.store.docs.length .nil⟩, .ok ()) :=
    Folder.add_new _ t _ rfl ht.2.2
  have hput : Folder.putAt (placedContents w k ks .nil) (splitOn SLASH (joinSlash (k :: ks)))
      ⟨deepPath w.lib.path (k :: ks), .doc t w.store.docs.length .nil⟩ =
        placedContents w k ks (.doc t w.store.docs.length .nil) := by
    rw [splitOn_joinSlash _ (List.cons_ne_nil _ _) hsF]
    exact putAt_push_chain _ k w.lib.path ks .nil _ hnew
  have hload := load_chain
    ⟨⟨Disk.mkdirs w.store.disk (deepPath w.lib.path (k :: ks)),
        w.store.docs ++ [freshDocument (w.lib.path ++ SLASH :: joinSlash (k :: ks ++ [t]))]⟩,
      ⟨w.lib.path, ⟨w.lib.path, placedContents w k ks (.doc t w.store.docs.length .nil)⟩,
        (placedWorld w k ks .nil w.store.docs).lib.table, w.lib.borrowed⟩⟩
    k ks w.lib.db.contents (.doc t w.store.docs.length .nil)
    (hseg k (by simp)).1 hsF hnew rfl
    (by
      intro hks
      subst hks
      exact root_tracked w.store.disk w.lib.path k w.lib.db.contents _ (hsF k (by simp))
        hnew htracked)
    (Disk.list_mkdirs_empty w.store.disk (w.lib.path ++ SLASH :: k) _ hdisk hbelow)
  rw [hp2]
  simp only [Librarian.createDocument, hsl, not_true_eq_false, if_false, hsplit, hlast,
    titleRule_usable t ht.2.1, if_true, hdrop,
    createFolder_fresh w k ks hsegF hpath hnew hdisk htracked]
  have hname2 : Document.name
      (freshDocument (w.lib.path ++ SLASH :: joinSlash (k :: ks ++ [t]))) = t := hname
  simp only [placedWorld, hdoc, hsearch, Folder.docs, List.contains_nil, Bool.false_eq_true,
    if_false, hname2, hadd, hput]
  rw [← hp2]
  exact hload

theorem lastSegment_created (root k : JSString) (ks : List JSString) (t : JSString)
    (ht : SLASH ∉ t) : lastSegment (root ++ SLASH :: joinSlash (k :: ks ++ [t])) = t := by
  have h1 : k :: ks ++ [t] = (k :: ks) ++ [t] := rfl
  have h2 : root ++ SLASH :: (joinSlash (k :: ks) ++ SLASH :: t) =
      (root ++ SLASH :: joinSlash (k :: ks)) ++ SLASH :: t := by simp
  rw [h1, joinSlash_append_segment _ _ (by simp), h2]
  exact lastSegment_append_segment _ _ ht

/-- The round trip of `createDocument` on new names. In a library whose root
folder has the path of the library and holds every directory of the library
directory under its name: for segments `k, ks..., t` that are not empty, obey the
title rule and are no inherited property name, with nothing stored at or below
`k` and no own property `k` in the root folder, `createDocument("k/ks.../t")`
completes, `search` of that path gives a Document titled `t`, and every folder
on the way is found by `search`, at its path, with its directory made. -/
theorem createDocument_round_trip (w : World) (k : JSString) (ks : List JSString)
    (t : JSString)
    (hseg : ∀ s ∈ k :: ks ++ [t], s ≠ [] ∧ titleRule s = true ∧ inherited s = false)
    (hpath : w.lib.db.path = w.lib.path)
    (hnew : w.lib.db.contents.own? k = none)
    (hdisk : ∀ q, Disk.isAtOrBelow (w.lib.path ++ SLASH :: k) q = true →
      Disk.lookup w.store.disk q = none)
    (htracked : ∀ name, SLASH ∉ name →
      Disk.isDirectory w.store.disk (w.lib.path ++ SLASH :: name) = true →
        w.lib.db.contents.has name = true) :
    (Librarian.createDocument w (joinSlash (k :: ks ++ [t]))).2 = .ok () ∧
    (∃ ref d,
      Folder.search (Librarian.createDocument w (joinSlash (k :: ks ++ [t]))).1.lib.db
          (joinSlash (k :: ks ++ [t])) = .ok (.doc ref) ∧
      (Librarian.createDocument w (joinSlash (k :: ks ++ [t]))).1.store.docs[ref]? = some d ∧
      d.title = t) ∧
    (∀ pre post, pre ≠ [] → k :: ks = pre ++ post →
      ∃ f,
        Folder.search (Librarian.createDocument w (joinSlash (k :: ks ++ [t]))).1.lib.db
            (joinSlash pre) = .ok (.folder f) ∧
        f.path = w.lib.path ++ SLASH :: joinSlash pre ∧
        Disk.isDirectory
          (Librarian.createDocument w (joinSlash (k :: ks ++ [t]))).1.store.disk f.path = true) := by
  have hs : ∀ s ∈ k :: ks ++ [t], SLASH ∉ s := fun s h => titleRule_no_slash s (hseg s h).2.1
  have hsF : ∀ s ∈ k :: ks, SLASH ∉ s := fun s h => hs s (by
    simp only [List.cons_append, List.mem_cons, List.mem_append] at h ⊢
    tauto)
  rw [createDocument_fresh w k ks t hseg hpath hnew hdisk htracked]
  refine ⟨rfl, ⟨w.store.docs.length,
    freshDocument (w.lib.path ++ SLASH :: joinSlash (k :: ks ++ [t])), ?_, ?_, ?_⟩, ?_⟩
  · simp only [placedWorld, Folder.search, placedContents]
    rw [splitOn_joinSlash _ (by simp) hs,
      searchSegs_push_leaf _ k w.lib.path ks _ t hnew]
    simp [Contents.get, Contents.own?]
  · simp [placedWorld]
  · exact lastSegment_created _ _ _ _ (hs t (by simp))
  · intro pre post hpre hsplit
    cases pre with
    | nil => exact absurd rfl hpre
    | cons a pre2 =>
      simp only [List.cons_append, List.cons.injEq] at hsplit
      obtain ⟨ha, hks⟩ := hsplit
      subst ha
      subst hks
      have hsP : ∀ s ∈ k :: pre2, SLASH ∉ s := fun s h => hsF s (by
        simp only [List.mem_cons, List.mem_append] at h ⊢
        tauto)
      refine ⟨_, search_placed w k pre2 post _ hsP hnew, deepPath_eq_join _ _ (by simp), ?_⟩
      have hmem := deepPath_mem_ancestors w.lib.path (k :: pre2) post
        (fun s h => hsF s (by simp [h]))
      exact Disk.isDirectory_mkdirs_ancestor _ _ _ hmem
        (hdisk _ (by rw [deepPath_cons]; exact deepPath_isAtOrBelow _ _))

set_option maxRecDepth 100000 in
/-- The round trip on the empty library: `createDocument("A/B/doc")` completes,
`search("A/B/doc")` gives a Document titled `doc`, and `A` and `A/B` were made. -/
theorem createDocument_round_trip_example :
    (Librarian.createDocument emptyWorld
      (joinSlash (utf16 "A" :: [utf16 "B"] ++ [utf16 "doc"]))).2 = .ok () ∧
    (∃ ref d,
      Folder.search (Librarian.createDocument emptyWorld
          (joinSlash (utf16 "A" :: [utf16 "B"] ++ [utf16 "doc"]))).1.lib.db
          (joinSlash (utf16 "A" :: [utf16 "B"] ++ [utf16 "doc"])) = .ok (.doc ref) ∧
      (Librarian.createDocument emptyWorld
          (joinSlash (utf16 "A" :: [utf16 "B"] ++ [utf16 "doc"]))).1.store.docs[ref]? = some d ∧
      d.title = utf16 "doc") :=
  have h := createDocument_round_trip emptyWorld (utf16 "A") [utf16 "B"] (utf16 "doc")
    (by decide) rfl rfl
    (by
      intro q hq
      by_cases h : utf16 "lib" = q
      · subst h; revert hq; decide
      · simp [emptyWorld, Disk.lookup, h])
    (by
      intro name _ h
      simp [emptyWorld, Disk.isDirectory, Disk.lookup] at h)
  ⟨h.1, h.2.1⟩

set_option maxRecDepth 100000 in
/-- C13. On the empty library the segments `A` and `constructor` are not empty,
obey the title rule and name nothing in the library, yet
`createDocument("A/constructor")` throws a TypeError (`Folder.add` finds the
name `in $contents`, inherited from `Object.prototype`), and so does
`createDocument("constructor/doc")`; `search("A/constructor")` gives the
inherited function, no Document. With `doc` for `constructor` the call
completes and `search("A/doc")` gives the new Document, titled `doc`. -/
theorem C13_createDocument_inherited_name :
    ((∀ s ∈ splitOn SLASH (utf16 "A/constructor"), s ≠ [] ∧ titleRule s = true) ∧
      emptyWorld.lib.db.contents = .nil ∧
      (Librarian.createDocument emptyWorld (utf16 "A/constructor")).2 = .error .TypeError ∧
      Folder.search (Librarian.createDocument emptyWorld (utf16 "A/constructor")).1.lib.db
        (utf16 "A/constructor") = .ok .builtin) ∧
    (Librarian.createDocument emptyWorld (utf16 "constructor/doc")).2 = .error .TypeError ∧
    ((Librarian.createDocument emptyWorld (utf16 "A/doc")).2 = .ok () ∧
      Folder.search (Librarian.createDocument emptyWorld (utf16 "A/doc")).1.lib.db
        (utf16 "A/doc") = .ok (.doc 0) ∧
      ((Librarian.createDocument emptyWorld (utf16 "A/doc")).1.store.docs[0]?).map
        Document.title = some (utf16 "doc")) := by
  decide

/-! ## Reading the history through the library -/

/-- For a request that `search` resolves to a document, `Librarian.reminisce`
gives the whole array of `getLog`, whatever `id` is, with the content that
`Document.reminisce(id)` gives. -/
theorem Librarian.reminisce_of_doc (fmt : Nat → JSString) (w : World) (req : JSString)
    (id : Int) (ref : Nat) (d : Document)
    (hsearch : Folder.search w.lib.db req = .ok (.doc ref))
    (hdoc : w.store.docs[ref]? = some d) :
    Librarian.reminisce fmt w req id =
      (Document.reminisce fmt w.store.disk d id).map (Recollection.logWithContent d.getLog) := by
  simp only [Librarian.reminisce, hsearch, hdoc]
  cases Document.reminisce fmt w.store.disk d id <;> rfl

set_option maxRecDepth 100000 in
/-- C21. In the library left by `borrow("F/a")`, `edit("hello", "lee")` and
`return()` at time 9 on `sampleWorld`, the log of `F/a` has two entries, the most
recent one by `lee`. `reminisce("F/a", 0)` and `reminisce("F/a", 1)` both return
the array of both records, with the property `content` set to what
`Document.reminisce(id)` gives: not the one record of the entry asked for. -/
theorem C21_reminisce_returns_whole_log :
    (returnedWorld.1.1.store.docs[0]?).map Document.getLog =
      some [⟨some (utf16 "kim"), 2, 5⟩, ⟨some (utf16 "lee"), 3, 9⟩] ∧
    Folder.search returnedWorld.1.1.lib.db (utf16 "F/a") = .ok (.doc 0) ∧
    (returnedWorld.1.1.store.docs[0]?).map
        (fun d => Document.reminisce sampleFormat returnedWorld.1.1.store.disk d 0) =
      some (.ok (some (utf16 "hello"))) ∧
    Librarian.reminisce sampleFormat returnedWorld.1.1 (utf16 "F/a") 0 =
      .ok (.logWithContent [⟨some (utf16 "kim"), 2, 5⟩, ⟨some (utf16 "lee"), 3, 9⟩]
        (some (utf16 "hello"))) ∧
    Librarian.reminisce sampleFormat returnedWorld.1.1 (utf16 "F/a") 1 =
      .ok (.logWithContent [⟨some (utf16 "kim"), 2, 5⟩, ⟨some (utf16 "lee"), 3, 9⟩] none) := by
  decide

set_option maxRecDepth 100000 in
/-- C22. On `sampleWorld`, `borrow("F/a")` gives a handle and puts `F/a` in the
checkout set; `burn("F/a", DELETE_CODE)` then returns `true`: the document is
gone from the folder tree, from the catalog and from storage, while `F/a` is
still in the checkout set. -/
theorem C22_burn_borrowed_document :
    (Librarian.borrow sampleWorld (utf16 "F/a")).2 = .ok (some sampleBook) ∧
    (Librarian.borrow sampleWorld (utf16 "F/a")).1.lib.borrowed = [utf16 "F/a"] ∧
    Folder.search (Librarian.borrow sampleWorld (utf16 "F/a")).1.lib.db (utf16 "F/a")
      = .ok (.doc 0) ∧
    burnedWorld.2 = .ok true ∧
    Folder.search burnedWorld.1.lib.db (utf16 "F/a") = .ok .undefined ∧
    burnedWorld.1.lib.exists (.str (utf16 "F/a")) = false ∧
    Disk.pathExists burnedWorld.1.store.disk (utf16 "lib/F/a") = false ∧
    Disk.pathExists burnedWorld.1.store.disk (utf16 "lib/F/a/info.json") = false ∧
    Disk.pathExists burnedWorld.1.store.disk (utf16 "lib/F/a/content.txt") = false ∧
    burnedWorld.1.lib.borrowed = [utf16 "F/a"] := by
  decide

/-! ## Two new documents and one log -/

/-- A document whose `info.log` is an array of its own keeps its log when another
document is saved. -/
theorem Instance.getLog_save_of_own (fmt : Nat → JSString) (now : Nat) (p : Process)
    (i1 i2 : Instance) (h : i2.sharesSchemaLog = false) :
    i2.getLog (Instance.save fmt now p i1).1.1 = i2.getLog p := by
  simp [Instance.getLog, Instance.current, h]

set_option maxRecDepth 100000 in
/-- C23. In a process that has built no document yet, `new Document("lib/x")`
and `new Document("lib/y")`, neither with an `info.json`, give two distinct
documents with empty logs. After `write("hi", "kim")` and `save()` on the first,
which returns `true`, `getLog()` of the second, on which nothing was called,
holds the entry of that save. -/
theorem C23_save_changes_other_log :
    Instance.new freshProcess (utf16 "lib/x") = .ok firstInstance ∧
    Instance.new freshProcess (utf16 "lib/y") = .ok secondInstance ∧
    firstInstance.doc.path ≠ secondInstance.doc.path ∧
    firstInstance.getLog freshProcess = [] ∧
    secondInstance.getLog freshProcess = [] ∧
    firstSaved.2 = .ok true ∧
    firstSaved.1.2.getLog firstSaved.1.1 = [⟨some (utf16 "kim"), 2, 5⟩] ∧
    secondInstance.getLog firstSaved.1.1 = [⟨some (utf16 "kim"), 2, 5⟩] := by
  decide

end Inglib
